import Mathlib

/-
  Verification development for the L-Store storage engine (lstore/*.py).

  The engine is embedded shallowly:

  * Machine words are modelled as natural numbers < 2^64; `struct.pack` /
    `struct.unpack` become arithmetic on those numbers (little-endian 8-byte
    strings are in bijection with values < 2^64, so byte-string equality used
    by the source coincides with value equality).
  * The buffer pool is flattened: a single store maps a page key
    `(range_type, page_index, column)` to its page.  In a single-threaded
    execution the LRU cache over the disk is observationally a flat store
    (pages fault in as freshly initialised pages, write-back preserves the
    combined view); the cache internals themselves (dirty bits, LRU order,
    the shallow-copy aliasing of `Cache.set_entry`) are modelled separately
    and faithfully in the `CacheM` namespace for the buffer-pool claims.
  * Pages are modelled at word granularity (`words : Nat → Nat`): every
    offset produced by the RID allocator is a multiple of WORDSIZE, and a
    read or write at an unaligned offset is flagged with a model-level
    error (it never occurs in engine operations).  The byte-exact
    `Page.read_field` / `Page.write_field` of page.py, including Python's
    slice-assignment semantics, are modelled in the `PageB` namespace.
  * Python exceptions become `Except String`; mutation of the engine object
    is explicit state passing.  A raised exception leaves the mutations
    performed so far in place, exactly as in Python, so the monad carries
    the state through errors.
  * `lstore/config.py` is not part of the sources. Modelled from the spec:
    PAGESIZE = 4096 and WORDSIZE = 8 ("source uses 8-byte words",
    "PAGESIZE (source: 4096)"); CACHE_SIZE and MERGE_EPOCH are kept as
    parameters where they matter.
-/

set_option maxRecDepth 16000

namespace LStore

def PAGESIZE : Nat := 4096
def WORDSIZE : Nat := 8
def NUM_INTERNAL_COLUMN : Nat := 4
def RID_COLUMN : Nat := 0
def INDIRECTION_COLUMN : Nat := 1
def SCHEMA_ENCODING_COLUMN : Nat := 2
def TIMESTAMP_COLUMN : Nat := 3

/-- `INVALID_RID = pack('Q', 0xFFFFFFFFFFFFFFFF)` (table.py line 25). -/
def INVALID_RID : Nat := 2 ^ 64 - 1

/-- `pack('II', page_index, byte_offset)`: two little-endian unsigned 32-bit
fields; as an 8-byte little-endian word this is `page_index + 2^32 * offset`.
All packed values in the engine are below 2^32. -/
def packII (pi off : Nat) : Nat := pi % 2 ^ 32 + 2 ^ 32 * (off % 2 ^ 32)

/-- First component of `unpack('II', rid)`: the page index. -/
def ridPage (r : Nat) : Nat := r % 2 ^ 32

/-- Second component of `unpack('II', rid)`: the byte offset in the page. -/
def ridOff (r : Nat) : Nat := r / 2 ^ 32 % 2 ^ 32

/-- `pack('Q', n)`: raises `struct.error` when the value does not fit in an
unsigned 64-bit word. -/
def packQ (n : Nat) : Except String Nat :=
  if n < 2 ^ 64 then .ok n else .error "struct.error: Q out of range"

/-- `pack('q', v)`: two's-complement encoding of a signed 64-bit value;
raises `struct.error` out of range. -/
def packq (v : Int) : Except String Nat :=
  if -(2 ^ 63) ≤ v ∧ v < 2 ^ 63 then .ok (v.emod (2 ^ 64)).toNat
  else .error "struct.error: q out of range"

/-- `unpack('q', w)[0]`: decode a word as a signed 64-bit value. -/
def unpackq (n : Nat) : Int :=
  if n < 2 ^ 63 then (n : Int) else (n : Int) - 2 ^ 64

instance {ε α : Type} [DecidableEq ε] [DecidableEq α] : DecidableEq (Except ε α) :=
  fun x y =>
    match x, y with
    | .ok a, .ok b =>
      if h : a = b then .isTrue (by rw [h]) else .isFalse (by simp [h])
    | .error e, .error f =>
      if h : e = f then .isTrue (by rw [h]) else .isFalse (by simp [h])
    | .ok _, .error _ => .isFalse (by simp)
    | .error _, .ok _ => .isFalse (by simp)

/-- Pointwise update of a function-backed store. -/
def fupd {α β : Type} [DecidableEq α] (f : α → β) (a : α) (b : β) : α → β :=
  fun x => if x = a then b else f x

/-- A page at word granularity.  `num_records` is the Python attribute
`Page.num_records`; word 0 of the buffer holds its last persisted value
(they can differ: `Cache.set_entry` bumps word 0 through a shared buffer
without updating the cached object's attribute). -/
structure PageRec where
  num_records : Nat
  words : Nat → Nat

/-- `Page(range_type=...)`: zero-filled buffer, counter 2 (base: counter +
lineage words) or 1 (tail: counter word), counter written at word 0.
An unrecognized range type raises in the source; it never occurs. -/
def freshPage (range_type : String) : PageRec :=
  if range_type = "base" then ⟨2, fun w => if w = 0 then 2 else 0⟩
  else if range_type = "tail" then ⟨1, fun w => if w = 0 then 1 else 0⟩
  else ⟨0, fun _ => 0⟩

/-- `Page.read_field(offset)` on a word-granular page: the source checks
`start_offset < 0 or start_offset + WORDSIZE > PAGESIZE` and raises
OutOfBounds; the extra alignment guard is a model artifact (engine offsets
are always word-aligned). -/
def readField (pg : PageRec) (off : Nat) : Except String Nat :=
  if off + WORDSIZE > PAGESIZE then .error "OutOfBounds"
  else if off % WORDSIZE = 0 then .ok (pg.words (off / WORDSIZE))
  else .error "model: unaligned read"

/-- `Page.write_field(offset, word)` on a word-granular page: the source
checks only the word length (the written data is always one word here);
there is no bounds check in `write_field`. -/
def writeFieldW (pg : PageRec) (off : Nat) (d : Nat) : Except String PageRec :=
  if off % WORDSIZE = 0 then .ok { pg with words := fupd pg.words (off / WORDSIZE) d }
  else .error "model: unaligned write"

/-- Page key of the buffer pool: `(range_type, page_index, column)`
(the source encodes it as the string "range-index-column"). -/
abbrev PKey := String × Nat × Nat

/-- The flattened engine state: Table + Index + Cache (single-threaded view,
see the header comment).  `map_list` keys are the Python column values,
which may be `None`. -/
structure EngineState where
  num_columns : Nat
  key_index : Nat
  pages : PKey → PageRec
  last_rid : String → Nat
  index_created : List Bool
  map_list : List (List (Option Int × List Nat))
  merge_queue_matrix : List (List (List (Nat × Nat)))
  merge_counter : List Nat

/-- State-and-exception monad: Python mutations persist across raises, so an
error carries the state reached at the raise point. -/
def M (α : Type) : Type := EngineState → Except String α × EngineState

instance : Monad M where
  pure a := fun st => (.ok a, st)
  bind x f := fun st =>
    match x st with
    | (.ok a, st') => f a st'
    | (.error e, st') => (.error e, st')

def M.throw {α : Type} (e : String) : M α := fun st => (.error e, st)

def M.get : M EngineState := fun st => (.ok st, st)

def M.set (st : EngineState) : M Unit := fun _ => (.ok (), st)

def M.modify (f : EngineState → EngineState) : M Unit := fun st => (.ok (), f st)

def M.liftE {α : Type} (x : Except String α) : M α := fun st => (x, st)

/-- Explicit bind on an already-applied monadic result: recursive operations
are written in this state-explicit style (definitionally the same as `bind`)
so that concrete runs reduce step by step. -/
def M.step {α β : Type} (x : Except String α × EngineState)
    (f : α → EngineState → Except String β × EngineState) :
    Except String β × EngineState :=
  match x with
  | (.ok a, st) => f a st
  | (.error e, st) => (.error e, st)

/-- Association-list find, mirroring Python `k in d` / `d[k]` on a dict with
insertion order. -/
def assocFind {α β : Type} [DecidableEq α] : List (α × β) → α → Option β
  | [], _ => none
  | (a, b) :: rest, k => if k = a then some b else assocFind rest k

/-- Python `d[k] = v` on a dict: replace in place if present, else append. -/
def assocSet {α β : Type} [DecidableEq α] : List (α × β) → α → β → List (α × β)
  | [], k, v => [(k, v)]
  | (a, b) :: rest, k, v =>
    if k = a then (a, v) :: rest else (a, b) :: assocSet rest k v

/-- Python `del d[k]`: removes the (unique) binding; the caller checks
presence (a missing key raises KeyError at the call site). -/
def assocErase {α β : Type} [DecidableEq α] : List (α × β) → α → List (α × β)
  | [], _ => []
  | (a, b) :: rest, k => if k = a then rest else (a, b) :: assocErase rest k

/-! ## Cache (buffer pool), flattened view — cache.py -/

/-- `Cache.get_page` in the flattened view: look the page up in the store
(a miss faults the page in from disk as a freshly initialised page, which is
exactly the store's default; see `initState`). -/
def Cache.get_page (range_type : String) (page_index column : Nat) : M PageRec :=
  fun st => (.ok (st.pages (range_type, page_index, column)), st)

/-- `Cache.get_entry(range_type, rid, query_column)` (cache.py 72-85). -/
def Cache.get_entry (range_type : String) (rid : Nat) (query_column : Nat) : M Nat :=
  fun st =>
    (readField (st.pages (range_type, ridPage rid, query_column)) (ridOff rid), st)

/-- `Cache.set_page` (cache.py 87-91): in the flattened view, store the page
(the private `__set_page` marks it dirty and may evict; eviction writes back
and preserves the combined view). -/
def Cache.set_page (range_type : String) (page_index column : Nat) (pg : PageRec) : M Unit :=
  M.modify fun st => { st with pages := fupd st.pages (range_type, page_index, column) pg }

/-- `Cache.set_entry(range_type, rid, query_column, data, is_append)`
(cache.py 93-119).  `copy(...)` is a shallow copy whose 4-KiB buffer is
shared with the cached page: the `pack_into` counter bump is visible through
the shared buffer, but when `data is None` the function returns before
`__set_page`, so the cached object keeps its old `num_records` attribute
(and, in the real cache, its old dirty flag — see the `CacheM` model). -/
def Cache.set_entry (range_type : String) (rid : Nat) (query_column : Nat)
    (data : Option Nat) (is_append : Bool) : M Unit := fun st =>
  let k : PKey := (range_type, ridPage rid, query_column)
  let pg := st.pages k
  let n := if is_append then pg.num_records + 1 else pg.num_records
  let ws := if is_append then fupd pg.words 0 n else pg.words
  match data with
  | none =>
    if is_append then
      (.ok (), { st with pages := fupd st.pages k { num_records := pg.num_records, words := ws } })
    else
      (.ok (), st)
  | some d =>
    match writeFieldW { num_records := n, words := ws } (ridOff rid) d with
    | .error e => (.error e, st)
    | .ok pg2 => (.ok (), { st with pages := fupd st.pages k pg2 })

/-- `Cache.get_new_rid(range_type)` (cache.py 37-57). -/
def Cache.get_new_rid (range_type : String) : M Nat := fun st =>
  let rid := st.last_rid range_type
  let page_index := ridPage rid
  let entry_offset := ridOff rid / WORDSIZE + 1
  if entry_offset = PAGESIZE / WORDSIZE then
    -- pack('II', page_index + 1, ...) raises struct.error if the new page
    -- index no longer fits in an unsigned 32-bit field
    if page_index + 1 ≥ 2 ^ 32 then (.error "struct.error: I out of range", st)
    else if range_type = "base" then
      let nr := packII (page_index + 1) (2 * WORDSIZE)
      (.ok nr, { st with last_rid := fupd st.last_rid range_type nr })
    else if range_type = "tail" then
      let nr := packII (page_index + 1) WORDSIZE
      (.ok nr, { st with last_rid := fupd st.last_rid range_type nr })
    else (.error "Range Type Error", st)
  else
    let nr := packII page_index (entry_offset * WORDSIZE)
    (.ok nr, { st with last_rid := fupd st.last_rid range_type nr })

/-- `Cache.last_page_index(range_type)` (cache.py 121-132). -/
def Cache.last_page_index (range_type : String) : M Nat := fun st =>
  if range_type = "base" ∨ range_type = "tail" then
    (.ok (ridPage (st.last_rid range_type)), st)
  else (.error "unrecognized range_type", st)

/-! ## Records and the Table engine — table.py -/

/-- `Record` (table.py 28-53); `columns` entries may be `None`. -/
structure Record where
  rid : Nat
  key : Option Int
  columns : List (Option Int)
  range_type : String
  deriving DecidableEq

/-- `Table.get_new_rid(range_type)` (table.py 98-112): allocate through the
cache; crossing into a fresh base page appends one empty merge queue per
feature row (the matrix has exactly `num_columns` rows). -/
def Table.get_new_rid (range_type : String) : M Nat := do
  let new_rid ← Cache.get_new_rid range_type
  if range_type = "base" then
    if ridOff new_rid = 2 * WORDSIZE then
      M.modify fun st =>
        { st with merge_queue_matrix := st.merge_queue_matrix.map (fun row => row ++ [[]]) }
  pure new_rid

/-- The per-column loop of `Table.insert_record` (table.py 136-142):
`enumerate(new_record.columns)`, packing non-null values. -/
def Table.insert_cols (range_type : String) (rid : Nat) :
    Nat → List (Option Int) → EngineState → Except String Unit × EngineState
  | _, [], st => (.ok (), st)
  | i, none :: rest, st =>
    M.step (Cache.set_entry range_type rid (i + NUM_INTERNAL_COLUMN) none true st) fun _ st =>
    Table.insert_cols range_type rid (i + 1) rest st
  | i, some v :: rest, st =>
    M.step (M.liftE (packq v) st) fun b st =>
    M.step (Cache.set_entry range_type rid (i + NUM_INTERNAL_COLUMN) (some b) true st) fun _ st =>
    Table.insert_cols range_type rid (i + 1) rest st

/-- `Table.insert_record(new_record)` (table.py 114-142).  The timestamp is
wall-clock time in the source; it is never read back by the engine and is
modelled as 0. -/
def Table.insert_record (new_record : Record) : M Unit := do
  let range_type := new_record.range_type
  let rid := new_record.rid
  Cache.set_entry range_type rid RID_COLUMN (some rid) true
  Cache.set_entry range_type rid INDIRECTION_COLUMN (some INVALID_RID) true
  Cache.set_entry range_type rid SCHEMA_ENCODING_COLUMN none true
  Cache.set_entry range_type rid TIMESTAMP_COLUMN (some 0) true
  Table.insert_cols range_type rid 0 new_record.columns

/-- `Table.update_schema(range_type, feature_index, rid)` (table.py 199-214). -/
def Table.update_schema (range_type : String) (feature_index : Nat) (rid : Nat) : M Unit := do
  let schema ← Cache.get_entry range_type rid SCHEMA_ENCODING_COLUMN
  let data ← M.liftE (packQ (schema ||| 2 ^ feature_index))
  Cache.set_entry range_type rid SCHEMA_ENCODING_COLUMN (some data) false

/-- `Table.is_updated(encoding, feature_index)` (table.py 216-222): the
masked integer, non-zero iff the feature's schema bit is set. -/
def Table.is_updated (encoding : Nat) (feature_index : Nat) : Nat :=
  encoding &&& 2 ^ feature_index

/-- `self.merge_queue_matrix[index][base_page_index].append(...)`
(table.py 190-193); a Python list index out of range raises. -/
def Table.mq_append (feature page : Nat) (pr : Nat × Nat) : M Unit := fun st =>
  match st.merge_queue_matrix.get? feature with
  | none => (.error "IndexError", st)
  | some row =>
    match row.get? page with
    | none => (.error "IndexError", st)
    | some q =>
      (.ok (), { st with
        merge_queue_matrix := st.merge_queue_matrix.set feature (row.set page (q ++ [pr])) })

/-- The per-column loop of `Table.update_record` (table.py 183-197): for a
non-null value, pack it, set the schema bit on base and tail, enqueue the
`(base_rid, tail_rid)` pair; every column position is then written via
`set_entry` (a `None` value writes nothing). -/
def Table.update_cols (base_rid new_tail_rid : Nat) :
    Nat → List (Option Int) → EngineState → Except String Unit × EngineState
  | _, [], st => (.ok (), st)
  | i, some v :: rest, st =>
    M.step (M.liftE (packq v) st) fun b st =>
    M.step (Table.update_schema "base" i base_rid st) fun _ st =>
    M.step (Table.update_schema "tail" i new_tail_rid st) fun _ st =>
    M.step (Table.mq_append i (ridPage base_rid) (base_rid, new_tail_rid) st) fun _ st =>
    M.step (Cache.set_entry "tail" new_tail_rid (i + NUM_INTERNAL_COLUMN) (some b) false st) fun _ st =>
    Table.update_cols base_rid new_tail_rid (i + 1) rest st
  | i, none :: rest, st =>
    M.step (Cache.set_entry "tail" new_tail_rid (i + NUM_INTERNAL_COLUMN) none false st) fun _ st =>
    Table.update_cols base_rid new_tail_rid (i + 1) rest st

/-- `Table.update_record(base_rid, new_tail_record)` (table.py 144-197).
`merge_trigger.set()` signals the background thread; merging is modelled as
the explicit `Table.mergePass` operation. -/
def Table.update_record (base_rid : Nat) (new_tail_record : Record) : M Unit := do
  let new_tail_rid := new_tail_record.rid
  if ridOff new_tail_rid = WORDSIZE then
    M.modify fun st => { st with merge_counter := st.merge_counter ++ [1] }
  let base_indirection ← Cache.get_entry "base" base_rid INDIRECTION_COLUMN
  if base_indirection = INVALID_RID then
    Cache.set_entry "base" base_rid INDIRECTION_COLUMN (some new_tail_rid) false
  else do
    Cache.set_entry "tail" new_tail_rid INDIRECTION_COLUMN (some base_indirection) false
    Cache.set_entry "base" base_rid INDIRECTION_COLUMN (some new_tail_rid) false
  Table.update_cols base_rid new_tail_rid 0 new_tail_record.columns

/-- `Table.base_up_to_date(base_rid, feature_index)` (table.py 337-360):
lexicographic strict comparison of the page's lineage word against the base
record's indirection RID, page index first. -/
def Table.base_up_to_date (base_rid : Nat) (feature_index : Nat) : M Bool := do
  let column_index := feature_index + NUM_INTERNAL_COLUMN
  let cur_page ← Cache.get_page "base" (ridPage base_rid) column_index
  let lineage ← M.liftE (readField cur_page WORDSIZE)
  let latest_tail_rid ← Cache.get_entry "base" base_rid INDIRECTION_COLUMN
  if ridPage lineage > ridPage latest_tail_rid then pure true
  else if ridPage lineage = ridPage latest_tail_rid then
    pure (decide (ridOff lineage > ridOff latest_tail_rid))
  else pure false

/-- The tail-chain walk of `Table.select_feature` (table.py 248-262): fuel
bounds the number of visited tail records; reaching INVALID_RID makes
`get_entry` fail exactly as the source's out-of-range read does. -/
def Table.walk_chain (feature_index : Nat) :
    Nat → Nat → EngineState → Except String Int × EngineState
  | 0, _, st => (.error "model: chain fuel exhausted", st)
  | fuel + 1, tail_rid, st =>
    M.step (Cache.get_entry "tail" tail_rid SCHEMA_ENCODING_COLUMN st) fun encoding st =>
    if Table.is_updated encoding feature_index ≠ 0 then
      M.step (Cache.get_entry "tail" tail_rid (feature_index + NUM_INTERNAL_COLUMN) st) fun data_entry st =>
      (.ok (unpackq data_entry), st)
    else
      M.step (Cache.get_entry "tail" tail_rid INDIRECTION_COLUMN st) fun t st =>
      Table.walk_chain feature_index fuel t st

/-- `Table.select_feature(base_rid, feature_index)` (table.py 224-262). -/
def Table.select_feature (fuel : Nat) (base_rid : Nat) (feature_index : Nat) : M Int := do
  let encoding ← Cache.get_entry "base" base_rid SCHEMA_ENCODING_COLUMN
  let utd ← Table.base_up_to_date base_rid feature_index
  if utd || Table.is_updated encoding feature_index = 0 then do
    let data_entry ← Cache.get_entry "base" base_rid (feature_index + NUM_INTERNAL_COLUMN)
    pure (unpackq data_entry)
  else do
    let tail_rid ← Cache.get_entry "base" base_rid INDIRECTION_COLUMN
    Table.walk_chain feature_index fuel tail_rid

/-- The chain-invalidation loop of `Table.delete` (table.py 271-274). -/
def Table.delete_chain : Nat → Nat → EngineState → Except String Unit × EngineState
  | 0, _, st => (.error "model: chain fuel exhausted", st)
  | fuel + 1, latest_update, st =>
    if latest_update = INVALID_RID then (.ok (), st)
    else
      M.step (Cache.set_entry "tail" latest_update RID_COLUMN (some INVALID_RID) false st) fun _ st =>
      M.step (Cache.get_entry "tail" latest_update INDIRECTION_COLUMN st) fun nxt st =>
      Table.delete_chain fuel nxt st

/-- `Table.delete(rid)` (table.py 264-274). -/
def Table.delete (fuel : Nat) (rid : Nat) : M Unit := do
  let latest_update ← Cache.get_entry "base" rid INDIRECTION_COLUMN
  Cache.set_entry "base" rid RID_COLUMN (some INVALID_RID) false
  Table.delete_chain fuel latest_update

/-! ## The merge engine — table.py 276-335 -/

/-- The drain loop of `Table.merge` (table.py 304-311): pop the queue left
to right into the last-writer-wins map `seen_update` (a Python dict keyed by
base RID — later pairs replace earlier values in place); the tail RID of the
last pair popped becomes the new lineage. -/
def Table.merge_fold : List (Nat × Nat) → List (Nat × Nat) → Nat →
    List (Nat × Nat) × Nat
  | [], seen, lineage => (seen, lineage)
  | (base_rid, tail_rid) :: rest, seen, _ =>
    Table.merge_fold rest (assocSet seen base_rid tail_rid) tail_rid

/-- The fold-in loop of `Table.merge` (table.py 318-323): for each surviving
`(base_rid, tail_rid)` fetch the tail's value for this feature and write it
at the base record's offset on the copied page. -/
def Table.merge_writes (feature_index : Nat) : List (Nat × Nat) → PageRec → M PageRec
  | [], pg => pure pg
  | (base_rid, tail_rid) :: rest, pg => do
    let data_entry ← Cache.get_entry "tail" tail_rid (feature_index + NUM_INTERNAL_COLUMN)
    let pg' ← M.liftE (writeFieldW pg (ridOff base_rid) data_entry)
    Table.merge_writes feature_index rest pg'

/-- One `(feature, base page)` step of `Table.merge` (table.py 292-325):
skip an empty queue; otherwise copy the base page, drain the queue, write
the new lineage at word 1, fold the surviving tail values in, and
`set_page` the rebuilt page. -/
def Table.merge_page (feature_index page_index : Nat) : M Unit := do
  let st ← M.get
  match (st.merge_queue_matrix.get? feature_index).bind (fun row => row.get? page_index) with
  | none => M.throw "IndexError"
  | some merge_queue =>
    if merge_queue.length = 0 then pure ()
    else do
      let column_index := NUM_INTERNAL_COLUMN + feature_index
      let base_page ← Cache.get_page "base" page_index column_index
      let lineage0 ← M.liftE (readField base_page WORDSIZE)
      let (seen_update, lineage) := Table.merge_fold merge_queue [] lineage0
      M.modify fun st' =>
        let row' := ((st'.merge_queue_matrix.get? feature_index).getD []).set page_index []
        { st' with merge_queue_matrix := st'.merge_queue_matrix.set feature_index row' }
      let pg1 ← M.liftE (writeFieldW base_page WORDSIZE lineage)
      let pg2 ← Table.merge_writes feature_index seen_update pg1
      Cache.set_page "base" page_index column_index pg2

/-- `for page_index in range(merge_range)` (table.py 291). -/
def Table.merge_feature (feature_index : Nat) :
    List Nat → EngineState → Except String Unit × EngineState
  | [], st => (.ok (), st)
  | p :: rest, st =>
    M.step (Table.merge_page feature_index p st) fun _ st =>
    Table.merge_feature feature_index rest st

/-- `for feature_index in range(self.num_columns)` (table.py 290). -/
def Table.merge_features (merge_range : Nat) :
    List Nat → EngineState → Except String Unit × EngineState
  | [], st => (.ok (), st)
  | f :: rest, st =>
    M.step (Table.merge_feature f (List.range merge_range) st) fun _ st =>
    Table.merge_features merge_range rest st

/-- `for _ in range(MERGE_EPOCH): self.merge_counter.popleft()`
(table.py 331-332); `popleft` on an empty deque raises. -/
def Table.pop_counter : Nat → EngineState → Except String Unit × EngineState
  | 0, st => (.ok (), st)
  | n + 1, st =>
    match st.merge_counter with
    | [] => (.error "IndexError: pop from an empty deque", st)
    | _ :: rest => Table.pop_counter n { st with merge_counter := rest }

/-- One triggered pass of the merge worker (`Table.merge`, table.py 276-335)
with `self.closed` false: `merge_range = cache.last_page_index('base')` (the
last, still-open base page is *not* merged), sweep all features and pages,
then pop `MERGE_EPOCH` sentinels from the counter.  The trigger event and
thread are concurrency plumbing outside the shallow embedding. -/
def Table.mergePass (MERGE_EPOCH : Nat) : M Unit := do
  let merge_range ← Cache.last_page_index "base"
  let st ← M.get
  Table.merge_features merge_range (List.range st.num_columns)
  Table.pop_counter MERGE_EPOCH

/-! ## Index — index.py -/

/-- The per-feature loop of `Index.map_insert` (index.py 39-58). -/
def Index.map_insert_cols (base_rid : Nat) :
    Nat → List (Option Int) → EngineState → Except String Unit × EngineState
  | _, [], st => (.ok (), st)
  | feature_index, new_key :: rest, st =>
    match st.index_created.get? feature_index with
    | none => (.error "IndexError", st)
    | some created =>
      if created = false then Index.map_insert_cols base_rid (feature_index + 1) rest st
      else
        match st.map_list.get? feature_index with
        | none => (.error "IndexError", st)
        | some m =>
          if feature_index = st.key_index then
            if (assocFind m new_key).isSome then
              (.error "Cannot update to primary key that already exists", st)
            else
              Index.map_insert_cols base_rid (feature_index + 1) rest
                { st with map_list := st.map_list.set feature_index (m ++ [(new_key, [base_rid])]) }
          else
            let m2 :=
              match assocFind m new_key with
              | some rids => assocSet m new_key (rids ++ [base_rid])
              | none => m ++ [(new_key, [base_rid])]
            Index.map_insert_cols base_rid (feature_index + 1) rest
              { st with map_list := st.map_list.set feature_index m2 }

/-- `Index.map_insert(new_record)` (index.py 30-59). -/
def Index.map_insert (new_record : Record) : M Unit := do
  let st ← M.get
  if new_record.columns.length ≠ st.num_columns then
    M.throw "Map Insert incompatible num columns"
  else
    Index.map_insert_cols new_record.rid 0 new_record.columns

/-- Python `list.remove(x)`: drop the first occurrence, raise if absent. -/
def listRemove (l : List Nat) (x : Nat) : Except String (List Nat) :=
  match l with
  | [] => .error "ValueError: list.remove(x): x not in list"
  | a :: rest =>
    if a = x then .ok rest
    else do
      let r ← listRemove rest x
      .ok (a :: r)

/-- The per-feature loop of `Index.map_change` (index.py 69-97), iterating
`feature_index` from 0 with `n` features remaining. -/
def Index.map_change_loop (base_rid : Nat) (old_feature new_feature : List (Option Int)) :
    Nat → Nat → EngineState → Except String Unit × EngineState
  | _, 0, st => (.ok (), st)
  | feature_index, n + 1, st =>
    match st.index_created.get? feature_index with
    | none => (.error "IndexError", st)
    | some created =>
      if created = false then
        Index.map_change_loop base_rid old_feature new_feature (feature_index + 1) n st
      else
        match old_feature.get? feature_index, new_feature.get? feature_index with
        | some old_key, some new_key =>
          (match st.map_list.get? feature_index with
          | none => (.error "IndexError", st)
          | some m =>
            if (assocFind m old_key).isNone then
              (.error "Index Error: old key not exist", st)
            else if new_key = none ∨ new_key = old_key then
              Index.map_change_loop base_rid old_feature new_feature (feature_index + 1) n st
            else if feature_index = st.key_index then
              if (assocFind m new_key).isSome then
                (.error "Cannot update to primary key that already exists", st)
              else
                Index.map_change_loop base_rid old_feature new_feature (feature_index + 1) n
                  { st with map_list :=
                    st.map_list.set feature_index (assocErase m old_key ++ [(new_key, [base_rid])]) }
            else
              let old_bucket := (assocFind m old_key).getD []
              M.step (M.liftE (listRemove old_bucket base_rid) st) fun removed st =>
              let m1 := assocSet m old_key removed
              let m2 :=
                match assocFind m1 new_key with
                | some rids => assocSet m1 new_key (rids ++ [base_rid])
                | none => m1 ++ [(new_key, [base_rid])]
              Index.map_change_loop base_rid old_feature new_feature (feature_index + 1) n
                { st with map_list := st.map_list.set feature_index m2 })
        | _, _ => (.error "IndexError", st)

/-- `Index.map_change(base_rid, old_feature, new_feature)` (index.py 61-97).
A length mismatch only prints in the source; it does not raise or return. -/
def Index.map_change (base_rid : Nat) (old_feature new_feature : List (Option Int)) : M Unit := do
  let st ← M.get
  Index.map_change_loop base_rid old_feature new_feature 0 st.num_columns

/-- `Index.map_delete(old_key)` (index.py 99-100): `del` raises KeyError on
a missing key. -/
def Index.map_delete (old_key : Option Int) : M Unit := do
  let st ← M.get
  match st.map_list.get? st.key_index with
  | none => M.throw "IndexError"
  | some m =>
    if (assocFind m old_key).isNone then M.throw "KeyError"
    else M.set { st with map_list := st.map_list.set st.key_index (assocErase m old_key) }

/-- `Index.locate(key, feature_index)` (index.py 102-111): raises when the
column has no index; `None` when the key is absent or its bucket is empty. -/
def Index.locate (key : Option Int) (feature_index : Nat) : M (Option (List Nat)) := do
  let st ← M.get
  match st.index_created.get? feature_index with
  | none => M.throw "IndexError"
  | some created =>
    if created = false then
      M.throw "NotIndexed: Index has not been built for this column yet"
    else
      match st.map_list.get? feature_index with
      | none => M.throw "IndexError"
      | some m =>
        match assocFind m key with
        | none => pure none
        | some ans => if ans.length = 0 then pure none else pure (some ans)

/-! ## Query boundary — query.py -/

/-- `Query.delete(key)` (query.py 22-31): `locate(key, 0)[0]` subscripts the
lookup result, so a `None` result raises TypeError. -/
def Query.delete (fuel : Nat) (key : Option Int) : M Unit := do
  let located ← Index.locate key 0
  match located with
  | none => M.throw "TypeError: NoneType object is not subscriptable"
  | some [] => M.throw "model: locate never returns an empty list"
  | some (rid :: _) => do
    Table.delete fuel rid
    Index.map_delete key

/-- `Query.insert(*columns)` (query.py 33-53): a length mismatch prints an
error and returns without mutating; `columns[key_index]` raises IndexError
when the key column is out of range. -/
def Query.insert (columns : List (Option Int)) : M Unit := do
  let st ← M.get
  if columns.length ≠ st.num_columns then pure ()
  else do
    let base_rid ← Table.get_new_rid "base"
    match columns.get? st.key_index with
    | none => M.throw "IndexError"
    | some key => do
      let new_record : Record := ⟨base_rid, key, columns, "base"⟩
      Index.map_insert new_record
      Table.insert_record new_record

/-- The per-column loop of `Query.select` (query.py 81-87). -/
def Query.select_cols (fuel : Nat) (base_rid : Nat) :
    Nat → List Nat → EngineState → Except String (List (Option Int)) × EngineState
  | _, [], st => (.ok [], st)
  | i, b :: rest, st =>
    if b = 0 then
      M.step (Query.select_cols fuel base_rid (i + 1) rest st) fun r st =>
      (.ok (none :: r), st)
    else
      M.step (Table.select_feature fuel base_rid i st) fun field st =>
      M.step (Query.select_cols fuel base_rid (i + 1) rest st) fun r st =>
      (.ok (some field :: r), st)

/-- The per-RID loop of `Query.select` (query.py 79-89). -/
def Query.select_rids (fuel : Nat) (key : Option Int) (query_columns : List Nat) :
    List Nat → EngineState → Except String (List Record) × EngineState
  | [], st => (.ok [], st)
  | base_rid :: rest, st =>
    M.step (Query.select_cols fuel base_rid 0 query_columns st) fun query_result st =>
    M.step (Query.select_rids fuel key query_columns rest st) fun tail_records st =>
    (.ok (⟨base_rid, key, query_result, "base"⟩ :: tail_records), st)

/-- `Query.select(key, key_index, query_columns)` (query.py 55-91): a size
mismatch prints and returns `[]`; iterating over a `None` lookup result
raises TypeError. -/
def Query.select (fuel : Nat) (key : Option Int) (key_index : Nat)
    (query_columns : List Nat) : M (List Record) := do
  let st ← M.get
  if query_columns.length ≠ st.num_columns then pure []
  else do
    let base_rids_list ← Index.locate key key_index
    match base_rids_list with
    | none => M.throw "TypeError: NoneType object is not iterable"
    | some rids => Query.select_rids fuel key query_columns rids

/-- `Query.update(key, *columns)` (query.py 93-125): append the tail record
first, then look the base RID up on column 0, select the old values through
the full mask, change the index, and rewire the record. -/
def Query.update (fuel : Nat) (key : Option Int) (columns : List (Option Int)) : M Bool := do
  let st ← M.get
  if columns.length ≠ st.num_columns then pure false
  else do
    let new_tail_rid ← Table.get_new_rid "tail"
    let new_record : Record := ⟨new_tail_rid, key, columns, "tail"⟩
    Table.insert_record new_record
    let located ← Index.locate key 0
    match located with
    | none => M.throw "TypeError: NoneType object is not subscriptable"
    | some [] => M.throw "model: locate never returns an empty list"
    | some (base_rid :: _) => do
      let query_column := List.replicate st.num_columns 1
      let old ← Query.select fuel key 0 query_column
      match old with
      | [] => M.throw "IndexError: list index out of range"
      | old_record :: _ => do
        Index.map_change base_rid old_record.columns columns
        Table.update_record base_rid new_record
        pure true

/-- The range loop of `Query.sum` (query.py 147-152), iterating `i` from the
start key with `n` keys remaining. -/
def Query.sum_loop (fuel : Nat) (query_column : List Nat) (agg : Nat) (step : Int) :
    Int → Nat → EngineState → Except String Int × EngineState
  | _, 0, st => (.ok 0, st)
  | i, n + 1, st =>
    M.step (Index.locate (some i) 0 st) fun located st =>
    match located with
    | none => Query.sum_loop fuel query_column agg step (i + step) n st
    | some _ =>
      M.step (Query.select fuel (some i) 0 query_column st) fun records st =>
      match records with
      | [] => (.error "IndexError: list index out of range", st)
      | r :: _ =>
        match r.columns.get? agg with
        | none => (.error "IndexError", st)
        | some none => (.error "TypeError: unsupported operand", st)
        | some (some v) =>
          M.step (Query.sum_loop fuel query_column agg step (i + step) n st) fun rest st =>
          (.ok (v + rest), st)

/-- `Query.sum(start_range, end_range, aggregate_column_index)`
(query.py 127-153): `query_column[agg] = 1` raises IndexError out of range;
`start == end` short-circuits through a single select; otherwise
`step = (end-start) // abs(end-start)` and the loop covers the inclusive
range. -/
def Query.sum (fuel : Nat) (start_range end_range : Int) (agg : Nat) : M Int := do
  let st ← M.get
  if agg ≥ st.num_columns then M.throw "IndexError"
  else do
    let query_column := (List.replicate st.num_columns 0).set agg 1
    if start_range = end_range then do
      let records ← Query.select fuel (some start_range) 0 query_column
      match records with
      | [] => M.throw "IndexError: list index out of range"
      | r :: _ =>
        match r.columns.get? agg with
        | none => M.throw "IndexError"
        | some none => M.throw "TypeError: unsupported operand"
        | some (some v) => pure v
    else do
      let step : Int := if end_range > start_range then 1 else -1
      Query.sum_loop fuel query_column agg step start_range
        ((end_range - start_range).natAbs + 1)

/-- `Query.increment(key, column)` (query.py 155-162); the `r is not False`
test is always true because `select(...)[0]` is a Record. -/
def Query.increment (fuel : Nat) (key : Option Int) (column : Nat) : M Bool := do
  let st ← M.get
  let records ← Query.select fuel key st.key_index (List.replicate st.num_columns 1)
  match records with
  | [] => M.throw "IndexError: list index out of range"
  | r :: _ =>
    match r.columns.get? column with
    | none => M.throw "IndexError"
    | some none => M.throw "TypeError: unsupported operand"
    | some (some v) => do
      let updated_columns := (List.replicate st.num_columns (none : Option Int)).set column (some (v + 1))
      Query.update fuel key updated_columns

/-- The state of a fresh table: `Table.__init__` builds the cache, whose
`DiskHelper.get_last_rids` on empty column files yields base RID
`(0, WORDSIZE)` and tail RID `(0, 0)` (disk_helper.py 62-64); the merge
queue matrix gets one empty queue per feature for the single base page; the
index is created for the primary column only. -/
def initState (num_columns key_index : Nat) : EngineState where
  num_columns := num_columns
  key_index := key_index
  pages := fun k => freshPage k.1
  last_rid := fun r => if r = "base" then packII 0 WORDSIZE else packII 0 0
  index_created := (List.replicate num_columns false).set key_index true
  map_list := List.replicate num_columns []
  merge_queue_matrix := List.replicate num_columns [[]]
  merge_counter := []

/-! ## Byte-exact Page model — page.py -/

/-- Normalize a Python slice endpoint for a sequence of length `L`
(step-1 slices): negative indices count from the end, and endpoints are
clamped into `[0, L]`. -/
def pyNorm (L : Nat) (i : Int) : Nat :=
  if i < 0 then ((L : Int) + i).toNat else min i.toNat L

/-- Python `data[a:b]` on a byte sequence. -/
def pySlice (data : List Nat) (a b : Int) : List Nat :=
  (data.drop (pyNorm data.length a)).take (pyNorm data.length b - pyNorm data.length a)

/-- Python `data[a:b] = w` on a bytearray: splice `w` in place of the
normalized slice.  There is no bounds check — a slice beyond the end keeps
`data` and appends `w`, growing the buffer. -/
def pySliceAssign (data : List Nat) (a b : Int) (w : List Nat) : List Nat :=
  data.take (pyNorm data.length a) ++ w ++
    data.drop (max (pyNorm data.length b) (pyNorm data.length a))

namespace PageB

/-- `Page.write_field(start_offset, new_word)` (page.py 26-32): raises only
when the word length is not WORDSIZE; the slice assignment itself is
unchecked. -/
def write_field (data : List Nat) (start_offset : Int) (new_word : List Nat) :
    Except String (List Nat) :=
  if new_word.length ≠ WORDSIZE then
    .error "writing with incompatible word size"
  else
    .ok (pySliceAssign data start_offset (start_offset + (WORDSIZE : Int)) new_word)

/-- `Page.read_field(start_offset)` (page.py 34-40): raises iff
`start_offset < 0 or start_offset + WORDSIZE > PAGESIZE`. -/
def read_field (data : List Nat) (start_offset : Int) : Except String (List Nat) :=
  if start_offset < 0 ∨ start_offset + (WORDSIZE : Int) > (PAGESIZE : Int) then
    .error "start offset is out of range"
  else
    .ok (pySlice data start_offset (start_offset + (WORDSIZE : Int)))

end PageB

/-! ## DiskHelper.get_last_rids — disk_helper.py 53-74 -/

/-- One range of `DiskHelper.get_last_rids`: column 0's file is a list of
pages (its byte size is `length * PAGESIZE`, always a multiple of PAGESIZE);
an empty file yields byte offset `8` for the base range (`byte_offset = 8 if
range_type == 'base' else 0`) and `0` for the tail range; otherwise the
record counter is read from word 0 of the last page. -/
def DiskHelper.last_rid_of_file (range_type : String) (file : List PageRec) : Nat :=
  match file.getLast? with
  | none =>
    if range_type = "base" then packII 0 WORDSIZE else packII 0 0
  | some last_page =>
    packII (file.length - 1) (last_page.words 0 * WORDSIZE)

/-- `DiskHelper.get_last_rids()` (disk_helper.py 53-74). -/
def DiskHelper.get_last_rids (base_file tail_file : List PageRec) : Nat × Nat :=
  (DiskHelper.last_rid_of_file "base" base_file,
   DiskHelper.last_rid_of_file "tail" tail_file)

/-! ## Buffer-pool internals — cache.py, with dirty flags and LRU order -/

/-- Update the value stored under `k` in place (first binding), keeping the
list order: the effect of mutating a cached object through an alias. -/
def assocMapVal {α β : Type} [DecidableEq α] (f : β → β) : List (α × β) → α → List (α × β)
  | [], _ => []
  | (a, b) :: rest, k =>
    if k = a then (a, f b) :: rest else (a, b) :: assocMapVal f rest k

namespace CacheM

/-- Buffer-pool state: the insertion-ordered dict `page_key ↦ (dirty, page)`
bounded by `size`, over a disk store.  `DiskHelper.read_page` grows a short
file with freshly initialised pages before reading, so the disk is total. -/
structure CState where
  size : Nat
  entries : List (PKey × Bool × PageRec)
  disk : PKey → PageRec

/-- `OrderedDict.move_to_end(key)` for a present key. -/
def move_to_end (entries : List (PKey × Bool × PageRec)) (k : PKey) :
    List (PKey × Bool × PageRec) :=
  match assocFind entries k with
  | none => entries
  | some v => assocErase entries k ++ [(k, v)]

/-- `Cache.__set_page(key, val)` (cache.py 136-153): delete any binding for
the key, insert `(True, val)` at the MRU end, and if the map overflows pop
the LRU entry, writing it back iff dirty (clean victims are discarded). -/
def set_page_priv (c : CState) (k : PKey) (val : PageRec) : CState :=
  let e2 := assocErase c.entries k ++ [(k, (true, val))]
  if e2.length > c.size then
    match e2 with
    | [] => { c with entries := [] }
    | (victim_key, (is_dirty, page)) :: rest =>
      if is_dirty then
        { c with entries := rest, disk := fupd c.disk victim_key page }
      else
        { c with entries := rest }
  else { c with entries := e2 }

/-- `Cache.__get_page(key)` (cache.py 155-171): a hit moves the key to the
MRU end; a miss faults the page in from disk, inserts it through
`__set_page`, then immediately overwrites the binding with `(False, page)`. -/
def get_page (c : CState) (k : PKey) : PageRec × CState :=
  match assocFind c.entries k with
  | none =>
    let target_page := c.disk k
    let c1 := set_page_priv c k target_page
    (target_page, { c1 with entries := assocSet c1.entries k (false, target_page) })
  | some (_, pg) =>
    (pg, { c with entries := move_to_end c.entries k })

/-- `Cache.set_entry(range_type, rid, query_column, data, is_append)`
(cache.py 93-119).  `copy(...)` is a shallow copy of the Page object: the
4-KiB bytearray is shared with the cached page, only the `num_records`
attribute is duplicated.  The `pack_into` counter bump therefore shows
through the cached entry's buffer while its attribute and dirty flag are
untouched; when `data is None` the function returns before `__set_page`,
so nothing is ever marked dirty. -/
def set_entry (c : CState) (range_type : String) (rid : Nat) (query_column : Nat)
    (data : Option Nat) (is_append : Bool) : Except String CState :=
  let k : PKey := (range_type, ridPage rid, query_column)
  let pc := get_page c k
  let target_page := pc.1
  let c1 := pc.2
  let n := if is_append then target_page.num_records + 1 else target_page.num_records
  let ws := if is_append then fupd target_page.words 0 n else target_page.words
  let c2 :=
    if is_append then
      { c1 with entries := assocMapVal (fun db => (db.1, ⟨db.2.num_records, ws⟩)) c1.entries k }
    else c1
  match data with
  | none => .ok c2
  | some d =>
    match writeFieldW ⟨n, ws⟩ (ridOff rid) d with
    | .error e => .error e
    | .ok pg2 =>
      -- write_field also mutates the shared buffer, but __set_page then
      -- replaces the binding with (True, pg2), which supersedes the alias
      .ok (set_page_priv c2 k pg2)

end CacheM

/-! ## Transaction — transaction.py -/

/-- An enqueued `(query, args)` pair of `Transaction.add_query`. -/
inductive QueryCall where
  | qinsert (args : List (Option Int))
  | qselect (key : Option Int) (key_index : Nat) (query_columns : List Nat)
  | qupdate (key : Option Int) (args : List (Option Int))
  | qdelete (key : Option Int)
  | qsum (start_range end_range : Int) (agg : Nat)
  | qincrement (key : Option Int) (column : Nat)

/-- Pure form of `Index.locate` (reads only). -/
def Index.locateP (st : EngineState) (key : Option Int) (feature_index : Nat) :
    Except String (Option (List Nat)) :=
  match st.index_created.get? feature_index with
  | none => .error "IndexError"
  | some created =>
    if created = false then
      .error "NotIndexed: Index has not been built for this column yet"
    else
      match st.map_list.get? feature_index with
      | none => .error "IndexError"
      | some m =>
        match assocFind m key with
        | none => .ok none
        | some ans => if ans.length = 0 then .ok none else .ok (some ans)

/-- The key-collection loop of the `sum` branch of
`Transaction.preprocessing` (transaction.py 123-127): every key in the
inclusive range that resolves in the primary index. -/
def Transaction.sum_keys (st : EngineState) (step : Int) :
    Int → Nat → Except String (List (Option Int))
  | _, 0 => .ok []
  | i, n + 1 => do
    let located ← Index.locateP st (some i) st.key_index
    let rest ← Transaction.sum_keys st step (i + step) n
    match located with
    | none => .ok rest
    | some _ => .ok (some i :: rest)

/-- The per-query lock analysis of `Transaction.preprocessing`
(transaction.py 87-128): returns the lock kind and the primary keys this
query asks to lock.  In the non-primary select branch the source builds
`{v: k for k, v in pkey_rid_map.items()}` whose keys are the *list* values
of the primary map — hashing a list raises TypeError whenever the primary
map is non-empty; with an empty map the inverse is empty and no key
resolves. -/
def Transaction.query_pkeys (st : EngineState) :
    QueryCall → Except String (String × List (Option Int))
  | .qinsert args =>
    match args.get? st.key_index with
    | none => .error "IndexError"
    | some k => .ok ("w", [k])
  | .qincrement key column =>
    match ([key, some (column : Int)] : List (Option Int)).get? st.key_index with
    | none => .error "IndexError"
    | some k => .ok ("w", [k])
  | .qselect key key_index _ =>
    if key_index ≠ st.key_index then do
      let located ← Index.locateP st key key_index
      match st.map_list.get? st.key_index with
      | none => .error "IndexError"
      | some pkey_rid_map =>
        if pkey_rid_map.length ≠ 0 then .error "TypeError: unhashable type: list"
        else
          match located with
          | none => .error "TypeError: NoneType object is not iterable"
          | some _ => .ok ("r", [])
    else .ok ("r", [key])
  | .qupdate key _ => .ok ("w", [key])
  | .qdelete key => .ok ("w", [key])
  | .qsum start_range end_range _ =>
    if start_range = end_range then
      .error "ZeroDivisionError: integer division or modulo by zero"
    else
      let step : Int := if end_range > start_range then 1 else -1
      do
        let keys ← Transaction.sum_keys st step start_range
          ((end_range - start_range).natAbs + 1)
        .ok ("r", keys)

/-- The query loop of `Transaction.preprocessing` (transaction.py 87-135):
`self.keys_to_be_locked[key] = lock_type` assigns in submission order, later
assignments overwriting earlier ones. -/
def Transaction.preprocessing_loop (st : EngineState)
    (acc : List (Option Int × String)) :
    List QueryCall → Except String (List (Option Int × String))
  | [] => .ok acc
  | q :: rest => do
    let p ← Transaction.query_pkeys st q
    Transaction.preprocessing_loop st
      (p.2.foldl (fun m k => assocSet m k p.1) acc) rest

/-- `Transaction.preprocessing` (transaction.py 77-135): the resulting
`keys_to_be_locked` mapping. -/
def Transaction.preprocessing (st : EngineState) (queries : List QueryCall) :
    Except String (List (Option Int × String)) :=
  Transaction.preprocessing_loop st [] queries

/-- Query dispatch of `Transaction.run`'s execution loop. -/
def Transaction.execQuery (fuel : Nat) : QueryCall → M Unit
  | .qinsert args => Query.insert args
  | .qselect key key_index qc => do
    let _ ← Query.select fuel key key_index qc
    pure ()
  | .qupdate key args => do
    let _ ← Query.update fuel key args
    pure ()
  | .qdelete key => Query.delete fuel key
  | .qsum s e agg => do
    let _ ← Query.sum fuel s e agg
    pure ()
  | .qincrement key column => do
    let _ ← Query.increment fuel key column
    pure ()

/-- Execution of the enqueued queries in submission order
(transaction.py 50-51). -/
def Transaction.execAll (fuel : Nat) :
    List QueryCall → EngineState → Except String Unit × EngineState
  | [], st => (.ok (), st)
  | q :: rest, st =>
    M.step (Transaction.execQuery fuel q st) fun _ st =>
    Transaction.execAll fuel rest st

/-- `Transaction.run` (transaction.py 45-53): preprocessing, lock
acquisition, execution, release.  With no competing transaction every
non-blocking acquisition on a fresh `RWLockFair` succeeds, so the abort
path is never taken in the single-threaded model and the lock traffic has
no observable effect on the engine state. -/
def Transaction.run (fuel : Nat) (queries : List QueryCall) : M Nat := do
  let st ← M.get
  match Transaction.preprocessing st queries with
  | .error e => M.throw e
  | .ok _keys_to_be_locked => do
    Transaction.execAll fuel queries
    pure 1

/-! ## Concrete states used by witnesses and counterexamples -/

/-- A 2-column table keyed on column 0 holding the record (1, 10). -/
def stOneRec : EngineState := (Query.insert [some 1, some 10] (initState 2 0)).2

/-- `stOneRec` with a second record (2, 20) inserted. -/
def stTwoRec : EngineState := (Query.insert [some 2, some 20] stOneRec).2

/-- `stOneRec` after `Query.delete(1)`. -/
def stDeleted : EngineState := (Query.delete 10 (some 1) stOneRec).2

/-- A non-empty disk page whose record counter (word 0) is 5. -/
def pageFive : PageRec := ⟨5, fun _ => 5⟩

/-- A fresh base page (counter attribute 2, word 0 = 2). -/
def basePage : PageRec := freshPage "base"

/-- A two-slot buffer pool holding one clean base page. -/
def cacheOneClean : CacheM.CState :=
  ⟨2, [(("base", 0, 0), (false, basePage))], fun k => freshPage k.1⟩

/-- Strict tuple order on RIDs, page index first — the order in which the
allocator hands RIDs out. -/
def ridLt (a b : Nat) : Prop :=
  ridPage a < ridPage b ∨ (ridPage a = ridPage b ∧ ridOff a < ridOff b)

instance (a b : Nat) : Decidable (ridLt a b) := by
  unfold ridLt
  infer_instance

/-- The word stored for record `rid` in the given range and column. -/
def entryWord (st : EngineState) (range_type : String) (rid col : Nat) : Nat :=
  (st.pages (range_type, ridPage rid, col)).words (ridOff rid / WORDSIZE)

/-- Non-strict tuple order on RIDs, page index first. -/
def ridLe (a b : Nat) : Prop :=
  ridPage a < ridPage b ∨ (ridPage a = ridPage b ∧ ridOff a ≤ ridOff b)

instance (a b : Nat) : Decidable (ridLe a b) := by
  unfold ridLe
  infer_instance

/-- The lineage word (word 1) of a base feature-column page. -/
def lineageWord (st : EngineState) (f p : Nat) : Nat :=
  (st.pages ("base", p, f + NUM_INTERNAL_COLUMN)).words 1

/-- A query-column mask selecting exactly column `j` of `n`. -/
def maskOnly (j n : Nat) : List Nat := (List.replicate n 0).set j 1

/-- A value list is packable when every non-null entry fits in a signed
64-bit word (the engine's column type). -/
def PackableCols (cols : List (Option Int)) : Prop :=
  ∀ x ∈ cols, ∀ v : Int, x = some v → -(2 ^ 63) ≤ v ∧ v < 2 ^ 63

instance (cols : List (Option Int)) : Decidable (PackableCols cols) := by
  unfold PackableCols
  infer_instance

/-- The table of `stOneRec` after `update(1, [None, 99])`: the record keyed
1 now carries one tail record holding 99 in user column 1, and the merge
queue of (feature 1, base page 0) holds the pair (base RID, tail RID). -/
def stUpdated : EngineState := (Query.update 5 (some 1) [none, some 99] stOneRec).2

/-- Well-formedness of the merge queue of `(feature f, base page 0)` for a
single-record workload: the matrix row and cell exist, and a non-empty
queue holds only pairs for base RID `r`, its newest tail RID aligned and
in bounds (so the merge's tail read succeeds). -/
def queueOK (st : EngineState) (r f : Nat) : Bool :=
  match st.merge_queue_matrix.get? f with
  | none => false
  | some row =>
    match row.get? 0 with
    | none => false
    | some q =>
      q.isEmpty ||
        (match q.getLast? with
         | none => false
         | some tl =>
           q.all (fun e => decide (e.1 = r)) &&
             decide (ridOff tl.2 % WORDSIZE = 0) &&
             decide (ridOff tl.2 + WORDSIZE ≤ PAGESIZE))

/-- A hand-assembled single-column table state for exercising one merge
pass: the base allocator is on page 1 (page 0 is closed), the record at
base RID (0, 16) has one tail update at tail RID (0, 8) already wired into
its indirection word and schema bit, and the (feature 0, page 0) merge
queue holds the corresponding pair. -/
def stMergeW : EngineState where
  num_columns := 1
  key_index := 0
  pages := fun k =>
    if k = ("base", 0, INDIRECTION_COLUMN) then
      ⟨2, fun w => if w = 2 then packII 0 8 else if w = 0 then 2 else 0⟩
    else if k = ("base", 0, SCHEMA_ENCODING_COLUMN) then
      ⟨2, fun w => if w = 2 then 1 else if w = 0 then 2 else 0⟩
    else freshPage k.1
  last_rid := fun rt => if rt = "base" then packII 1 16 else packII 0 16
  index_created := [true]
  map_list := [[(some 1, [packII 0 16])]]
  merge_queue_matrix := [[[(packII 0 16, packII 0 8)]]]
  merge_counter := []

/-! # Theorems -/

theorem fupd_self {α β : Type} [DecidableEq α] (f : α → β) (a : α) (b : β) :
    fupd f a b a = b := by
  unfold fupd
  rw [if_pos rfl]

theorem fupd_other {α β : Type} [DecidableEq α] (f : α → β) (a : α) (b : β)
    (x : α) (h : x ≠ a) : fupd f a b x = f x := by
  unfold fupd
  rw [if_neg h]


/-! ## Monad-stepping helper lemmas -/

theorem M.bind_def {α β : Type} (x : M α) (f : α → M β) (st : EngineState) :
    (x >>= f) st = M.step (x st) f := rfl

theorem M.pure_def {α : Type} (a : α) (st : EngineState) :
    (pure a : M α) st = (.ok a, st) := rfl

theorem M.ite_app {α : Type} (c : Prop) [Decidable c] (x y : M α) (st : EngineState) :
    (if c then x else y) st = if c then x st else y st := by
  split <;> rfl

theorem M.step_ok {α β : Type} (a : α) (st : EngineState)
    (f : α → EngineState → Except String β × EngineState) :
    M.step (.ok a, st) f = f a st := rfl

theorem M.step_error {α β : Type} (e : String) (st : EngineState)
    (f : α → EngineState → Except String β × EngineState) :
    M.step (.error e, st) f = (.error e, st) := rfl

/-! ## RID arithmetic -/

theorem ridPage_packII (p o : Nat) (hp : p < 2 ^ 32) : ridPage (packII p o) = p := by
  unfold ridPage packII
  omega

theorem ridOff_packII (p o : Nat) (hp : p < 2 ^ 32) (ho : o < 2 ^ 32) :
    ridOff (packII p o) = o := by
  unfold ridOff packII
  omega

theorem ridLt_ne (a b : Nat) (h : ridLt a b) : a ≠ b := by
  intro hab
  rcases h with h | ⟨h1, h2⟩ <;> rw [hab] at * <;> omega

/-- `Cache.get_new_rid('base')` on a well-formed allocator value: it
succeeds, only `last_rid['base']` changes, and the new RID is strictly
larger in `(page_index, byte_offset)` order. -/
theorem get_new_rid_base_spec (st : EngineState)
    (h8 : ridOff (st.last_rid "base") % WORDSIZE = 0)
    (hle : ridOff (st.last_rid "base") ≤ PAGESIZE - WORDSIZE)
    (hpg : ridPage (st.last_rid "base") + 1 < 2 ^ 32) :
    ∃ nr, Cache.get_new_rid "base" st =
        (.ok nr, { st with last_rid := fupd st.last_rid "base" nr }) ∧
      ridLt (st.last_rid "base") nr ∧
      ridOff nr % WORDSIZE = 0 ∧ ridOff nr ≤ PAGESIZE - WORDSIZE ∧
      WORDSIZE ≤ ridOff nr ∧ ridPage nr < 2 ^ 32 := by
  unfold Cache.get_new_rid
  simp only [WORDSIZE, PAGESIZE] at *
  set rid := st.last_rid "base" with hrid
  by_cases hroll : ridOff rid / 8 + 1 = 4096 / 8
  · rw [if_pos hroll]
    rw [if_neg (by omega)]
    simp only [if_true]
    refine ⟨_, rfl, ?_, ?_, ?_, ?_, ?_⟩
    · left
      rw [ridPage_packII _ _ (by omega)]
      omega
    · rw [ridOff_packII _ _ (by omega) (by norm_num)]
    · rw [ridOff_packII _ _ (by omega) (by norm_num)]
      norm_num
    · rw [ridOff_packII _ _ (by omega) (by norm_num)]
      norm_num
    · rw [ridPage_packII _ _ (by omega)]
      omega
  · rw [if_neg hroll]
    have hp : ridPage rid < 2 ^ 32 := by unfold ridPage; omega
    have ho : ridOff rid < 2 ^ 32 := by unfold ridOff; omega
    have hoff : (ridOff rid / 8 + 1) * 8 = ridOff rid + 8 := by omega
    refine ⟨_, rfl, ?_, ?_, ?_, ?_, ?_⟩
    · right
      refine ⟨by rw [ridPage_packII _ _ hp], ?_⟩
      rw [ridOff_packII _ _ hp (by omega)]
      omega
    · rw [ridOff_packII _ _ hp (by omega)]
      omega
    · rw [ridOff_packII _ _ hp (by omega)]
      omega
    · rw [ridOff_packII _ _ hp (by omega)]
      omega
    · rw [ridPage_packII _ _ hp]
      omega

/-- C3: delete invisibility fails in the code.  After inserting key 1 into a
fresh 2-column table and deleting it, `Index.locate(1, 0)` does return null
(`None`), as claimed — but `Query.select(1, 0, [1,1])` does not return an
empty list: `locate` returns `None` and `select` iterates over it, raising
`TypeError: 'NoneType' object is not iterable`, contradicting the claim and
`Query.select`'s own docstring ("on failure: empty list"). -/
theorem delete_then_select_raises :
    (Query.delete 10 (some 1) stOneRec).1 = .ok () ∧
    (Query.select 10 (some 1) 0 [1, 1] stDeleted).1 =
      .error "TypeError: NoneType object is not iterable" ∧
    Index.locateP stDeleted (some 1) 0 = .ok none := by
  refine ⟨by decide, by decide, by decide⟩

/-- C6 counterexample: on an empty base file `get_last_rids` returns the RID
`(0, 8)`, not the `(0, 16)` the claim states. -/
theorem get_last_rids_empty_base_is_eight :
    DiskHelper.get_last_rids [] [] = (packII 0 8, packII 0 0) ∧
    packII 0 8 ≠ packII 0 16 := by
  exact ⟨rfl, by decide⟩

/-- C6 (amended): for every pair of column-0 files, `get_last_rids` returns
`(0, 8)` for an empty base file (one word in: past the record counter only)
and `(0, 0)` for an empty tail file; for a non-empty file it returns
`(last_page_index, counter * WORDSIZE)` where the counter is word 0 of the
last page. -/
theorem get_last_rids_characterisation (base_file tail_file : List PageRec) :
    (base_file = [] →
      (DiskHelper.get_last_rids base_file tail_file).1 = packII 0 WORDSIZE) ∧
    (tail_file = [] →
      (DiskHelper.get_last_rids base_file tail_file).2 = packII 0 0) ∧
    (∀ bs b, base_file = bs ++ [b] →
      (DiskHelper.get_last_rids base_file tail_file).1 =
        packII bs.length (b.words 0 * WORDSIZE)) ∧
    (∀ ts t, tail_file = ts ++ [t] →
      (DiskHelper.get_last_rids base_file tail_file).2 =
        packII ts.length (t.words 0 * WORDSIZE)) := by
  refine ⟨?_, ?_, ?_, ?_⟩
  · rintro rfl; rfl
  · rintro rfl; rfl
  · rintro bs b rfl
    simp [DiskHelper.get_last_rids, DiskHelper.last_rid_of_file, List.getLast?_concat]
  · rintro ts t rfl
    simp [DiskHelper.get_last_rids, DiskHelper.last_rid_of_file, List.getLast?_concat]

/-- C6 witness: the characterisation evaluated at an empty base file and a
one-page tail file whose counter is 5. -/
theorem get_last_rids_characterisation_witness :
    (DiskHelper.get_last_rids [] [pageFive]).1 = packII 0 WORDSIZE ∧
    (DiskHelper.get_last_rids [] [pageFive]).2 =
      packII ([] : List PageRec).length (pageFive.words 0 * WORDSIZE) :=
  ⟨(get_last_rids_characterisation [] [pageFive]).1 rfl,
   (get_last_rids_characterisation [] [pageFive]).2.2.2 [] pageFive rfl⟩

/-- C8 counterexample: `write_field` does not raise OutOfBounds.  Writing a
correctly-sized word at offset PAGESIZE on a full page succeeds, and the
slice assignment appends the word, growing the buffer to PAGESIZE+WORDSIZE. -/
theorem write_field_out_of_bounds_grows :
    PageB.write_field (List.replicate PAGESIZE 0) (PAGESIZE : Int)
        (List.replicate WORDSIZE 1) =
      .ok (List.replicate PAGESIZE 0 ++ List.replicate WORDSIZE 1) ∧
    (List.replicate PAGESIZE 0 ++ List.replicate WORDSIZE 1).length ≠ PAGESIZE := by
  constructor
  · show Except.ok (pySliceAssign _ _ _ _) = _
    unfold pySliceAssign pyNorm
    rw [List.length_replicate]
    rw [if_neg (by norm_num [PAGESIZE]), if_neg (by norm_num [PAGESIZE, WORDSIZE])]
    have h1 : ((PAGESIZE : Int)).toNat = PAGESIZE := by decide
    have h2 : ((PAGESIZE : Int) + (WORDSIZE : Int)).toNat = PAGESIZE + WORDSIZE := by decide
    rw [h1, h2]
    norm_num [PAGESIZE, WORDSIZE, List.take_replicate, List.drop_replicate]
  · simp only [List.length_append, List.length_replicate, PAGESIZE, WORDSIZE]
    omega

/-- C8 (amended): `read_field(offset)` fails exactly when `offset < 0` or
`offset + WORDSIZE > PAGESIZE`; `write_field` raises an error exactly for a
word whose length differs from WORDSIZE — an out-of-bounds offset with a
correct word is *not* rejected — and an in-bounds `write_field` keeps the
buffer length at PAGESIZE. -/
theorem page_field_bounds (data : List Nat) (off : Int) (w : List Nat)
    (hdata : data.length = PAGESIZE) :
    ((∃ v, PageB.read_field data off = .ok v) ↔ 0 ≤ off ∧ off + 8 ≤ 4096) ∧
    (w.length ≠ WORDSIZE →
      PageB.write_field data off w = .error "writing with incompatible word size") ∧
    (w.length = WORDSIZE → ∃ r, PageB.write_field data off w = .ok r) ∧
    (w.length = WORDSIZE → 0 ≤ off → off + 8 ≤ 4096 →
      ∃ r, PageB.write_field data off w = .ok r ∧ r.length = PAGESIZE) := by
  have hcond : (off < 0 ∨ off + (WORDSIZE : Int) > (PAGESIZE : Int)) ↔
      ¬(0 ≤ off ∧ off + 8 ≤ 4096) := by
    simp only [PAGESIZE, WORDSIZE]
    push_cast
    omega
  refine ⟨?_, ?_, ?_, ?_⟩
  · unfold PageB.read_field
    constructor
    · intro h
      obtain ⟨v, hv⟩ := h
      by_contra hcon
      rw [if_pos (hcond.mpr hcon)] at hv
      exact Except.noConfusion hv
    · intro h
      rw [if_neg (fun hc => (hcond.mp hc) h)]
      exact ⟨_, rfl⟩
  · intro hw
    unfold PageB.write_field
    rw [if_pos hw]
  · intro hw
    unfold PageB.write_field
    rw [if_neg (by omega)]
    exact ⟨_, rfl⟩
  · intro hw h0 h8
    unfold PageB.write_field
    rw [if_neg (by omega)]
    refine ⟨_, rfl, ?_⟩
    unfold pySliceAssign pyNorm
    rw [if_neg (by omega), if_neg (by omega)]
    simp only [List.length_append, List.length_take, List.length_drop, hw]
    simp only [PAGESIZE, WORDSIZE] at hdata ⊢
    omega

/-- C8 witness: the bounds characterisation evaluated on a zero page at
offset 16 with a correctly-sized word. -/
theorem page_field_bounds_witness :
    ((∃ v, PageB.read_field (List.replicate PAGESIZE 0) 16 = .ok v) ↔
      0 ≤ (16 : Int) ∧ (16 : Int) + 8 ≤ 4096) ∧
    (∃ r, PageB.write_field (List.replicate PAGESIZE 0) 16 (List.replicate WORDSIZE 3) = .ok r ∧
      r.length = PAGESIZE) := by
  have h := page_field_bounds (List.replicate PAGESIZE 0) 16
    (List.replicate WORDSIZE 3) (by simp)
  exact ⟨h.1, h.2.2.2 (by simp [WORDSIZE]) (by norm_num) (by norm_num)⟩

/-- `Table.get_new_rid('base')` on a well-formed allocator value: besides the
allocator bump, at most the merge-queue matrix changes (one appended queue
per feature row when a fresh page is entered). -/
theorem table_get_new_rid_base_spec (st : EngineState)
    (h8 : ridOff (st.last_rid "base") % WORDSIZE = 0)
    (hle : ridOff (st.last_rid "base") ≤ PAGESIZE - WORDSIZE)
    (hpg : ridPage (st.last_rid "base") + 1 < 2 ^ 32) :
    ∃ nr mq, Table.get_new_rid "base" st =
        (.ok nr, { st with last_rid := fupd st.last_rid "base" nr,
                           merge_queue_matrix := mq }) ∧
      ridLt (st.last_rid "base") nr ∧
      ridOff nr % WORDSIZE = 0 ∧ ridOff nr ≤ PAGESIZE - WORDSIZE ∧
      WORDSIZE ≤ ridOff nr ∧ ridPage nr < 2 ^ 32 := by
  obtain ⟨nr, heq, hlt, h1, h2, h3, h4⟩ := get_new_rid_base_spec st h8 hle hpg
  unfold Table.get_new_rid
  rw [M.bind_def, heq, M.step_ok, M.ite_app,
    if_pos (rfl : ("base" : String) = "base"), M.ite_app]
  by_cases hfresh : ridOff nr = 2 * WORDSIZE
  · rw [if_pos hfresh, M.bind_def]
    show ∃ _ _, M.step (M.modify _ _) _ = _ ∧ _
    rw [M.modify, M.step_ok]
    exact ⟨nr, _, rfl, hlt, h1, h2, h3, h4⟩
  · rw [if_neg hfresh, M.bind_def]
    show ∃ _ _, M.step ((pure PUnit.unit : M PUnit) _) _ = _ ∧ _
    rw [M.pure_def, M.step_ok]
    exact ⟨nr, st.merge_queue_matrix, rfl, hlt, h1, h2, h3, h4⟩

/-- `Index.map_insert` on a record whose (column-0) primary key is already
in the primary map raises DuplicateKey without mutating anything. -/
theorem map_insert_duplicate (st : EngineState) (rid : Nat) (key c0 : Option Int)
    (rest : List (Option Int)) (m : List (Option Int × List Nat))
    (hlen : (c0 :: rest).length = st.num_columns)
    (h0 : st.key_index = 0)
    (hci : st.index_created.get? 0 = some true)
    (hm : st.map_list.get? 0 = some m)
    (hdup : (assocFind m c0).isSome = true) :
    Index.map_insert ⟨rid, key, c0 :: rest, "base"⟩ st =
      (.error "Cannot update to primary key that already exists", st) := by
  unfold Index.map_insert
  rw [M.bind_def]
  show M.step (M.get st) _ = _
  rw [M.get, M.step_ok, M.ite_app]
  rw [if_neg (by simp [hlen])]
  show Index.map_insert_cols rid 0 (c0 :: rest) st = _
  unfold Index.map_insert_cols
  rw [hci, hm]
  simp only [h0, hdup, if_true]
  rw [if_neg (by simp)]

/-- C4 counterexample: duplicate-key rejection is not atomic, in either
direction the original claim quantifies over.  Inserting a record that
duplicates primary key 1 into `stOneRec` fails with DuplicateKey, but the
base-RID allocator has advanced; updating key 1 of `stTwoRec` to the
already-existing primary key 2 fails with DuplicateKey, but the tail
allocator has advanced (the tail record was appended before the raise).
Neither state is "exactly as it was before the call". -/
theorem duplicate_key_partial_state :
    (Query.insert [some 1, some 99] stOneRec).1 =
      .error "Cannot update to primary key that already exists" ∧
    (Query.insert [some 1, some 99] stOneRec).2.last_rid "base" ≠
      stOneRec.last_rid "base" ∧
    (Query.update 1 (some 1) [some 2, some 20] stTwoRec).1 =
      .error "Cannot update to primary key that already exists" ∧
    (Query.update 1 (some 1) [some 2, some 20] stTwoRec).2.last_rid "tail" ≠
      stTwoRec.last_rid "tail" := by
  refine ⟨by decide, by decide, by decide, by decide⟩

/-- Insert half of the duplicate-key analysis: a duplicate-key insert fails
with DuplicateKey and leaves the pages, every index map, and the tail
allocator untouched — but it is not fully atomic: the base-RID allocator
has already advanced (and entering a fresh base page may append empty merge
queues). -/
theorem insert_duplicate_key_rejected (st : EngineState) (cols : List (Option Int))
    (c0 : Option Int) (m : List (Option Int × List Nat))
    (h0 : st.key_index = 0)
    (hlen : cols.length = st.num_columns)
    (hc0 : cols.get? 0 = some c0)
    (hci : st.index_created.get? 0 = some true)
    (hm : st.map_list.get? 0 = some m)
    (hdup : (assocFind m c0).isSome = true)
    (h8 : ridOff (st.last_rid "base") % WORDSIZE = 0)
    (hle : ridOff (st.last_rid "base") ≤ PAGESIZE - WORDSIZE)
    (hpg : ridPage (st.last_rid "base") + 1 < 2 ^ 32) :
    ∃ st2, Query.insert cols st =
        (.error "Cannot update to primary key that already exists", st2) ∧
      st2.pages = st.pages ∧ st2.map_list = st.map_list ∧
      st2.index_created = st.index_created ∧
      st2.merge_counter = st.merge_counter ∧
      st2.last_rid "tail" = st.last_rid "tail" ∧
      st2.last_rid "base" ≠ st.last_rid "base" := by
  obtain ⟨rest, hcols⟩ : ∃ rest, cols = c0 :: rest := by
    cases cols with
    | nil => exact absurd hc0 (by simp)
    | cons a l =>
      refine ⟨l, ?_⟩
      have ha : a = c0 := by simpa using hc0
      rw [ha]
  subst hcols
  obtain ⟨nr, mq, heq, hlt, _, _, _, _⟩ := table_get_new_rid_base_spec st h8 hle hpg
  have key : Query.insert (c0 :: rest) st =
      (.error "Cannot update to primary key that already exists",
       { st with last_rid := fupd st.last_rid "base" nr, merge_queue_matrix := mq }) := by
    unfold Query.insert
    rw [M.bind_def]
    show M.step (M.get st) _ = _
    rw [M.get, M.step_ok, M.ite_app, if_neg (by simp [hlen])]
    rw [M.bind_def, heq, M.step_ok, h0]
    simp only [List.get?]
    rw [M.bind_def]
    rw [map_insert_duplicate _ nr c0 c0 rest m (by exact hlen) (by exact rfl)
      (by exact hci) (by exact hm) hdup]
    rw [M.step_error]
  refine ⟨_, key, rfl, rfl, rfl, rfl, ?_, ?_⟩
  · show fupd st.last_rid "base" nr "tail" = st.last_rid "tail"
    unfold fupd
    rw [if_neg (by decide)]
  · show fupd st.last_rid "base" nr "base" ≠ st.last_rid "base"
    unfold fupd
    rw [if_pos rfl]
    exact (ridLt_ne _ _ hlt).symm

/-! ## Lock-analysis lemmas -/

theorem exceptBind_ok {ε α β : Type} (a : α) (f : α → Except ε β) :
    ((Except.ok a : Except ε α) >>= f) = f a := rfl

theorem exceptBind_error {ε α β : Type} (e : ε) (f : α → Except ε β) :
    ((Except.error e : Except ε α) >>= f) = .error e := rfl

theorem assocFind_assocSet_self {α β : Type} [DecidableEq α]
    (l : List (α × β)) (k : α) (v : β) :
    assocFind (assocSet l k v) k = some v := by
  induction l with
  | nil => simp [assocFind, assocSet]
  | cons p rest ih =>
    obtain ⟨a, b⟩ := p
    unfold assocSet
    by_cases hk : k = a
    · rw [if_pos hk]
      unfold assocFind
      rw [if_pos hk]
    · rw [if_neg hk]
      unfold assocFind
      rw [if_neg hk]
      exact ih

/-- `preprocessing` processes queries left to right; splitting the list
splits the run. -/
theorem preprocessing_loop_append (st : EngineState)
    (qs1 qs2 : List QueryCall) (acc : List (Option Int × String)) :
    Transaction.preprocessing_loop st acc (qs1 ++ qs2) =
      match Transaction.preprocessing_loop st acc qs1 with
      | .ok acc2 => Transaction.preprocessing_loop st acc2 qs2
      | .error e => .error e := by
  induction qs1 generalizing acc with
  | nil => rfl
  | cons q rest ih =>
    show Transaction.preprocessing_loop st acc (q :: (rest ++ qs2)) = _
    unfold Transaction.preprocessing_loop
    cases hq : Transaction.query_pkeys st q with
    | error e => simp [hq, exceptBind_error]
    | ok p =>
      simp only [hq, exceptBind_ok, ih]
      cases Transaction.preprocessing_loop st
          (List.foldl (fun m k => assocSet m k p.1) acc p.2) rest with
      | error e => rfl
      | ok acc2 => cases qs2 <;> rfl

/-- C5 counterexample: a transaction that enqueues `update(1, …)` (writer)
followed by `select(1, 0, …)` on the primary column (reader) ends
preprocessing with key 1 mapped to the reader kind: the later assignment
overwrote the writer, so writer does *not* win regardless of order. -/
theorem preprocessing_reader_overwrites_writer :
    Transaction.preprocessing (initState 2 0)
        [.qupdate (some 1) [none, some 5], .qselect (some 1) 0 [1, 1]] =
      .ok [(some 1, "r")] ∧ ("r" : String) ≠ "w" := by
  refine ⟨by decide, by decide⟩

/-- C5 (amended): `keys_to_be_locked[key] = lock_type` is plain assignment,
so a key ends up mapped to the lock kind requested by the *last* enqueued
query that requests it: a writer (`update`/`delete`) enqueued last wins, and
a primary-column `select` enqueued last downgrades the key to a reader. -/
theorem preprocessing_last_assignment_wins (st : EngineState)
    (qs : List QueryCall) (k : Option Int) (args : List (Option Int))
    (cols : List Nat) :
    (∀ m, Transaction.preprocessing st (qs ++ [.qupdate k args]) = .ok m →
      assocFind m k = some "w") ∧
    (∀ m, Transaction.preprocessing st (qs ++ [.qselect k st.key_index cols]) = .ok m →
      assocFind m k = some "r") := by
  constructor
  · intro m h
    unfold Transaction.preprocessing at h
    rw [preprocessing_loop_append] at h
    cases hpre : Transaction.preprocessing_loop st [] qs with
    | error e => rw [hpre] at h; exact Except.noConfusion h
    | ok acc =>
      rw [hpre] at h
      simp only [Transaction.preprocessing_loop, Transaction.query_pkeys,
        exceptBind_ok, List.foldl, Except.ok.injEq] at h
      rw [← h]
      exact assocFind_assocSet_self acc k "w"
  · intro m h
    unfold Transaction.preprocessing at h
    rw [preprocessing_loop_append] at h
    cases hpre : Transaction.preprocessing_loop st [] qs with
    | error e => rw [hpre] at h; exact Except.noConfusion h
    | ok acc =>
      rw [hpre] at h
      simp only [Transaction.preprocessing_loop, Transaction.query_pkeys,
        ne_eq, not_true_eq_false, if_false, eq_self_iff_true, ite_false,
        exceptBind_ok, List.foldl, Except.ok.injEq] at h
      rw [← h]
      exact assocFind_assocSet_self acc k "r"

/-- C5 witness: the amended theorem applied to a one-query prefix. -/
theorem preprocessing_last_assignment_wins_witness :
    assocFind [(some 7, "w"), (some 1, "w")] (some 1 : Option Int) = some "w" ∧
    assocFind [(some 7, "w"), (some 1, "r")] (some 1 : Option Int) = some "r" :=
  ⟨(preprocessing_last_assignment_wins (initState 2 0) [.qdelete (some 7)]
      (some 1) [none, some 5] [1, 1]).1 _ (by decide),
   (preprocessing_last_assignment_wins (initState 2 0) [.qdelete (some 7)]
      (some 1) [none, some 5] [1, 1]).2 _ (by decide)⟩

/-- C10: a `sum` query with `start_range = end_range` makes
`Transaction.run` raise ZeroDivisionError during preprocessing (the lock-set
computation divides by `abs(end - start)` without the zero-length
short-circuit `Query.sum` itself has), provided the queries before it
preprocess without raising. -/
theorem run_zero_width_sum_divzero (st : EngineState) (fuel : Nat)
    (qs1 qs2 : List QueryCall) (a : Int) (c : Nat)
    (h : (Transaction.preprocessing st qs1).isOk = true) :
    (Transaction.run fuel (qs1 ++ .qsum a a c :: qs2) st).1 =
      .error "ZeroDivisionError: integer division or modulo by zero" := by
  obtain ⟨acc, hacc⟩ : ∃ acc, Transaction.preprocessing st qs1 = .ok acc := by
    cases hx : Transaction.preprocessing st qs1 with
    | error e => rw [hx] at h; exact Bool.noConfusion h
    | ok acc => exact ⟨acc, rfl⟩
  have hX : Transaction.preprocessing st (qs1 ++ .qsum a a c :: qs2) =
      .error "ZeroDivisionError: integer division or modulo by zero" := by
    unfold Transaction.preprocessing at hacc ⊢
    rw [preprocessing_loop_append, hacc]
    simp [Transaction.preprocessing_loop, Transaction.query_pkeys, exceptBind_error]
  unfold Transaction.run
  rw [M.bind_def]
  show (M.step (M.get st) _).1 = _
  rw [M.get, M.step_ok, hX]
  rfl

/-- C10 witness: a transaction holding just `sum(5, 5, 1)` on a fresh
table. -/
theorem run_zero_width_sum_divzero_witness :
    (Transaction.run 5 ([] ++ .qsum 5 5 1 :: []) (initState 2 0)).1 =
      .error "ZeroDivisionError: integer division or modulo by zero" :=
  run_zero_width_sum_divzero (initState 2 0) 5 [] [] 5 1 (by decide)

/-! ## Write-path lemmas: set_entry / insert_record succeed and only touch
pages -/

theorem Cache.set_entry_pages_only (range_type : String) (rid col : Nat)
    (data : Option Nat) (app : Bool) (st : EngineState)
    (h8 : ridOff rid % WORDSIZE = 0) :
    ∃ pg, Cache.set_entry range_type rid col data app st =
      (.ok (), { st with pages := pg }) := by
  unfold Cache.set_entry
  cases data with
  | none =>
    by_cases happ : app = true
    · rw [happ]
      exact ⟨_, rfl⟩
    · rw [Bool.not_eq_true] at happ
      rw [happ]
      exact ⟨st.pages, rfl⟩
  | some d =>
    simp only [writeFieldW, h8, if_true, eq_self_iff_true, reduceIte]
    exact ⟨_, rfl⟩

theorem packq_ok_of_mem (cols : List (Option Int)) (h : PackableCols cols)
    (v : Int) (hv : some v ∈ cols) :
    packq v = .ok ((v.emod (2 ^ 64)).toNat) := by
  unfold packq
  rw [if_pos (h _ hv v rfl)]

theorem Table.insert_cols_spec (range_type : String) (rid : Nat)
    (cols : List (Option Int)) (i : Nat) (st : EngineState)
    (h8 : ridOff rid % WORDSIZE = 0) (hvals : PackableCols cols) :
    ∃ pg, Table.insert_cols range_type rid i cols st =
      (.ok (), { st with pages := pg }) := by
  induction cols generalizing i st with
  | nil => exact ⟨st.pages, rfl⟩
  | cons d rest ih =>
    have hrest : PackableCols rest := by
      intro x hx v hv
      exact hvals x (List.mem_cons_of_mem _ hx) v hv
    cases d with
    | none =>
      unfold Table.insert_cols
      obtain ⟨pg1, hpg1⟩ := Cache.set_entry_pages_only range_type rid
        (i + NUM_INTERNAL_COLUMN) none true st h8
      rw [hpg1, M.step_ok]
      obtain ⟨pg2, hpg2⟩ := ih (i + 1) { st with pages := pg1 } hrest
      exact ⟨pg2, hpg2⟩
    | some v =>
      unfold Table.insert_cols
      rw [packq_ok_of_mem (some v :: rest) hvals v (by simp)]
      rw [show M.liftE (Except.ok ((v.emod (2 ^ 64)).toNat) : Except String Nat) st =
        ((.ok ((v.emod (2 ^ 64)).toNat) : Except String Nat), st) from rfl]
      rw [M.step_ok]
      obtain ⟨pg1, hpg1⟩ := Cache.set_entry_pages_only range_type rid
        (i + NUM_INTERNAL_COLUMN) (some ((v.emod (2 ^ 64)).toNat)) true st h8
      rw [hpg1, M.step_ok]
      obtain ⟨pg2, hpg2⟩ := ih (i + 1) { st with pages := pg1 } hrest
      exact ⟨pg2, hpg2⟩

theorem Table.insert_record_spec (rec : Record) (st : EngineState)
    (h8 : ridOff rec.rid % WORDSIZE = 0) (hvals : PackableCols rec.columns) :
    ∃ pg, Table.insert_record rec st = (.ok (), { st with pages := pg }) := by
  unfold Table.insert_record
  rw [M.bind_def]
  obtain ⟨p1, h1⟩ := Cache.set_entry_pages_only rec.range_type rec.rid
    RID_COLUMN (some rec.rid) true st h8
  rw [h1, M.step_ok, M.bind_def]
  obtain ⟨p2, h2⟩ := Cache.set_entry_pages_only rec.range_type rec.rid
    INDIRECTION_COLUMN (some INVALID_RID) true { st with pages := p1 } h8
  rw [h2, M.step_ok, M.bind_def]
  obtain ⟨p3, h3⟩ := Cache.set_entry_pages_only rec.range_type rec.rid
    SCHEMA_ENCODING_COLUMN none true { st with pages := p2 } h8
  rw [h3, M.step_ok, M.bind_def]
  obtain ⟨p4, h4⟩ := Cache.set_entry_pages_only rec.range_type rec.rid
    TIMESTAMP_COLUMN (some 0) true { st with pages := p3 } h8
  rw [h4, M.step_ok]
  obtain ⟨p5, h5⟩ := Table.insert_cols_spec rec.range_type rec.rid
    rec.columns 0 { st with pages := p4 } h8 hvals
  exact ⟨p5, h5⟩

/-- `Cache.get_new_rid('tail')`: tail analogue of `get_new_rid_base_spec`
(offset 0 is also allowed: the very first tail RID is `(0, 0)`). -/
theorem get_new_rid_tail_spec (st : EngineState)
    (h8 : ridOff (st.last_rid "tail") % WORDSIZE = 0)
    (hle : ridOff (st.last_rid "tail") ≤ PAGESIZE - WORDSIZE)
    (hpg : ridPage (st.last_rid "tail") + 1 < 2 ^ 32) :
    ∃ nr, Cache.get_new_rid "tail" st =
        (.ok nr, { st with last_rid := fupd st.last_rid "tail" nr }) ∧
      ridLt (st.last_rid "tail") nr ∧
      ridOff nr % WORDSIZE = 0 ∧ ridOff nr ≤ PAGESIZE - WORDSIZE ∧
      WORDSIZE ≤ ridOff nr ∧ ridPage nr < 2 ^ 32 := by
  unfold Cache.get_new_rid
  simp only [WORDSIZE, PAGESIZE] at *
  set rid := st.last_rid "tail" with hrid
  by_cases hroll : ridOff rid / 8 + 1 = 4096 / 8
  · rw [if_pos hroll]
    rw [if_neg (by omega), if_neg (by decide)]
    simp only [if_true]
    refine ⟨_, rfl, ?_, ?_, ?_, ?_, ?_⟩
    · left
      rw [ridPage_packII _ _ (by omega)]
      omega
    · rw [ridOff_packII _ _ (by omega) (by norm_num)]
    · rw [ridOff_packII _ _ (by omega) (by norm_num)]
      norm_num
    · rw [ridOff_packII _ _ (by omega) (by norm_num)]
    · rw [ridPage_packII _ _ (by omega)]
      omega
  · rw [if_neg hroll]
    have hp : ridPage rid < 2 ^ 32 := by unfold ridPage; omega
    have ho : ridOff rid < 2 ^ 32 := by unfold ridOff; omega
    refine ⟨_, rfl, ?_, ?_, ?_, ?_, ?_⟩
    · right
      refine ⟨by rw [ridPage_packII _ _ hp], ?_⟩
      rw [ridOff_packII _ _ hp (by omega)]
      omega
    · rw [ridOff_packII _ _ hp (by omega)]
      omega
    · rw [ridOff_packII _ _ hp (by omega)]
      omega
    · rw [ridOff_packII _ _ hp (by omega)]
      omega
    · rw [ridPage_packII _ _ hp]
      omega

theorem table_get_new_rid_tail_spec (st : EngineState)
    (h8 : ridOff (st.last_rid "tail") % WORDSIZE = 0)
    (hle : ridOff (st.last_rid "tail") ≤ PAGESIZE - WORDSIZE)
    (hpg : ridPage (st.last_rid "tail") + 1 < 2 ^ 32) :
    ∃ nr, Table.get_new_rid "tail" st =
        (.ok nr, { st with last_rid := fupd st.last_rid "tail" nr }) ∧
      ridLt (st.last_rid "tail") nr ∧
      ridOff nr % WORDSIZE = 0 ∧ ridOff nr ≤ PAGESIZE - WORDSIZE ∧
      WORDSIZE ≤ ridOff nr ∧ ridPage nr < 2 ^ 32 := by
  obtain ⟨nr, heq, hlt, h1, h2, h3, h4⟩ := get_new_rid_tail_spec st h8 hle hpg
  unfold Table.get_new_rid
  rw [M.bind_def, heq, M.step_ok, M.ite_app, if_neg (by decide), M.bind_def,
    M.pure_def, M.step_ok]
  exact ⟨nr, rfl, hlt, h1, h2, h3, h4⟩

/-- `Index.locate` on a column whose index was never built raises
NotIndexed without touching the state. -/
theorem locate_not_indexed (st : EngineState) (key : Option Int) (f : Nat)
    (h : st.index_created.get? f = some false) :
    Index.locate key f st =
      (.error "NotIndexed: Index has not been built for this column yet", st) := by
  unfold Index.locate
  rw [M.bind_def]
  show M.step (M.get st) _ = _
  rw [M.get, M.step_ok, h]
  simp [M.throw]

/-- `Query.select` on a column with no index propagates NotIndexed. -/
theorem select_not_indexed (fuel : Nat) (st : EngineState) (key : Option Int)
    (ki : Nat) (qc : List Nat)
    (h : st.index_created.get? ki = some false)
    (hlen : qc.length = st.num_columns) :
    Query.select fuel key ki qc st =
      (.error "NotIndexed: Index has not been built for this column yet", st) := by
  unfold Query.select
  rw [M.bind_def]
  show M.step (M.get st) _ = _
  rw [M.get, M.step_ok, M.ite_app, if_neg (by simp [hlen]), M.bind_def,
    locate_not_indexed st key ki h, M.step_error]

/-- C9: on a table whose primary key is not column 0, `Query.delete`,
`Query.update` and `Query.sum` all raise NotIndexed even when the key
exists, because each of them calls `index.locate(…, 0)` on column 0, whose
index was never created. -/
theorem key_index_not_zero_not_indexed (st : EngineState) (fuel : Nat)
    (key : Option Int) (vs : List (Option Int)) (a b : Int) (c : Nat)
    (h0 : st.index_created.get? 0 = some false)
    (hlen : vs.length = st.num_columns)
    (hvals : PackableCols vs)
    (hc : c < st.num_columns)
    (h8T : ridOff (st.last_rid "tail") % WORDSIZE = 0)
    (hleT : ridOff (st.last_rid "tail") ≤ PAGESIZE - WORDSIZE)
    (hpgT : ridPage (st.last_rid "tail") + 1 < 2 ^ 32)
    (_hkey : ∃ mk rids, st.map_list.get? st.key_index = some mk ∧
      assocFind mk key = some rids ∧ rids ≠ []) :
    (Query.delete fuel key st).1 =
      .error "NotIndexed: Index has not been built for this column yet" ∧
    (Query.update fuel key vs st).1 =
      .error "NotIndexed: Index has not been built for this column yet" ∧
    (Query.sum fuel a b c st).1 =
      .error "NotIndexed: Index has not been built for this column yet" := by
  refine ⟨?_, ?_, ?_⟩
  · unfold Query.delete
    rw [M.bind_def, locate_not_indexed st key 0 h0, M.step_error]
  · unfold Query.update
    rw [M.bind_def]
    show (M.step (M.get st) _).1 = _
    rw [M.get, M.step_ok, M.ite_app, if_neg (by simp [hlen]), M.bind_def]
    obtain ⟨nr, heq, _, hn8, _, _, _⟩ := table_get_new_rid_tail_spec st h8T hleT hpgT
    rw [heq, M.step_ok, M.bind_def]
    obtain ⟨pg, hins⟩ := Table.insert_record_spec ⟨nr, key, vs, "tail"⟩
      { st with last_rid := fupd st.last_rid "tail" nr } hn8 hvals
    rw [hins, M.step_ok, M.bind_def]
    rw [locate_not_indexed _ key 0 (by exact h0), M.step_error]
  · unfold Query.sum
    rw [M.bind_def]
    show (M.step (M.get st) _).1 = _
    rw [M.get, M.step_ok, M.ite_app, if_neg (by omega)]
    by_cases hab : a = b
    · rw [M.ite_app, if_pos hab, M.bind_def]
      rw [select_not_indexed fuel st (some a) 0 _ h0 (by simp), M.step_error]
    · rw [M.ite_app, if_neg hab]
      show (Query.sum_loop fuel _ c _ a ((b - a).natAbs + 1) st).1 = _
      unfold Query.sum_loop
      rw [locate_not_indexed st (some a) 0 h0, M.step_error]

/-- C9 witness: a 3-column table keyed on column 1 holding the record
(7, 1, 100); delete/update/sum on the existing key 1 all raise NotIndexed. -/
theorem key_index_not_zero_not_indexed_witness :
    ((Query.delete 9 (some 1) (Query.insert [some 7, some 1, some 100]
        (initState 3 1)).2).1 =
      .error "NotIndexed: Index has not been built for this column yet" ∧
    (Query.update 9 (some 1) [none, none, some 5] (Query.insert [some 7, some 1, some 100]
        (initState 3 1)).2).1 =
      .error "NotIndexed: Index has not been built for this column yet" ∧
    (Query.sum 9 1 1 2 (Query.insert [some 7, some 1, some 100]
        (initState 3 1)).2).1 =
      .error "NotIndexed: Index has not been built for this column yet") :=
  key_index_not_zero_not_indexed (Query.insert [some 7, some 1, some 100]
      (initState 3 1)).2 9 (some 1) [none, none, some 5] 1 1 2
    (by decide) (by decide) (by decide) (by decide) (by decide) (by decide)
    (by decide) ⟨[(some 1, [packII 0 16])], [packII 0 16], by decide, by decide, by decide⟩

/-! ## Association-list lemmas for the buffer-pool model -/

theorem assocFind_eq_none {α β : Type} [DecidableEq α]
    (l : List (α × β)) (k : α) (h : k ∉ l.map Prod.fst) :
    assocFind l k = none := by
  induction l with
  | nil => rfl
  | cons p rest ih =>
    unfold assocFind
    rw [if_neg (by simp at h; exact h.1)]
    exact ih (by simp at h ⊢; exact h.2)

theorem assocFind_append {α β : Type} [DecidableEq α]
    (l1 l2 : List (α × β)) (k : α) :
    assocFind (l1 ++ l2) k =
      match assocFind l1 k with
      | some v => some v
      | none => assocFind l2 k := by
  induction l1 with
  | nil => rfl
  | cons p rest ih =>
    obtain ⟨a, b⟩ := p
    show assocFind ((a, b) :: (rest ++ l2)) k = _
    by_cases hk : k = a
    · simp only [assocFind, if_pos hk]
    · simp only [assocFind, if_neg hk]
      exact ih

theorem assocErase_append_left {α β : Type} [DecidableEq α]
    (l1 l2 : List (α × β)) (k : α) (h : k ∉ l1.map Prod.fst) :
    assocErase (l1 ++ l2) k = l1 ++ assocErase l2 k := by
  induction l1 with
  | nil => rfl
  | cons p rest ih =>
    obtain ⟨a, b⟩ := p
    simp only [List.map_cons, List.mem_cons, not_or] at h
    show assocErase ((a, b) :: (rest ++ l2)) k = _
    simp only [assocErase, if_neg h.1]
    rw [ih h.2]
    simp

theorem assocMapVal_append_left {α β : Type} [DecidableEq α] (f : β → β)
    (l1 l2 : List (α × β)) (k : α) (h : k ∉ l1.map Prod.fst) :
    assocMapVal f (l1 ++ l2) k = l1 ++ assocMapVal f l2 k := by
  induction l1 with
  | nil => rfl
  | cons p rest ih =>
    obtain ⟨a, b⟩ := p
    simp only [List.map_cons, List.mem_cons, not_or] at h
    show assocMapVal f ((a, b) :: (rest ++ l2)) k = _
    simp only [assocMapVal, if_neg h.1]
    rw [ih h.2]
    simp

theorem assocErase_keys_not_mem {α β : Type} [DecidableEq α]
    (l : List (α × β)) (k : α) (h : (l.map Prod.fst).Nodup) :
    k ∉ (assocErase l k).map Prod.fst := by
  induction l with
  | nil => simp [assocErase]
  | cons p rest ih =>
    obtain ⟨a, b⟩ := p
    simp only [List.map_cons, List.nodup_cons] at h
    by_cases hk : k = a
    · simp only [assocErase, if_pos hk]
      subst hk
      exact h.1
    · simp only [assocErase, if_neg hk]
      simp only [List.map_cons, List.mem_cons]
      rintro (rfl | hmem)
      · exact hk rfl
      · exact ih h.2 hmem

theorem assocErase_length_of_found {α β : Type} [DecidableEq α]
    (l : List (α × β)) (k : α) (v : β) (h : assocFind l k = some v) :
    (assocErase l k).length + 1 = l.length := by
  induction l with
  | nil => exact absurd h (by simp [assocFind])
  | cons p rest ih =>
    obtain ⟨a, b⟩ := p
    unfold assocFind at h
    by_cases hk : k = a
    · simp only [assocErase, if_pos hk]
      rfl
    · simp only [assocErase, if_neg hk]
      rw [if_neg hk] at h
      simp only [List.length_cons]
      rw [ih h]

theorem assocFind_assocErase_ne {α β : Type} [DecidableEq α]
    (l : List (α × β)) (k k' : α) (hne : k' ≠ k) :
    assocFind (assocErase l k) k' = assocFind l k' := by
  induction l with
  | nil => rfl
  | cons p rest ih =>
    obtain ⟨a, b⟩ := p
    by_cases hk : k = a
    · simp only [assocErase, if_pos hk]
      have hk' : k' ≠ a := by rw [← hk]; exact hne
      conv_rhs => rw [show assocFind ((a, b) :: rest) k' =
        if k' = a then some b else assocFind rest k' from rfl]
      rw [if_neg hk']
    · simp only [assocErase, if_neg hk]
      by_cases hk' : k' = a
      · simp only [assocFind, if_pos hk']
      · simp only [assocFind, if_neg hk']
        exact ih

/-- `__get_page` on a hit: the cached page is returned and the binding moves
to the MRU end. -/
theorem get_page_hit (c : CacheM.CState) (k : PKey) (d0 : Bool) (pg : PageRec)
    (h : assocFind c.entries k = some (d0, pg)) :
    CacheM.get_page c k =
      (pg, { c with entries := assocErase c.entries k ++ [(k, (d0, pg))] }) := by
  unfold CacheM.get_page CacheM.move_to_end
  rw [h]

/-- C7 counterexample: `set_entry` with `is_append=True` and no data bumps
the counter word through the shared buffer (word 0 of the cached base page
goes from 2 to 3) but the cached entry's dirty flag stays `False`, so the
claim that every mutating call leaves the page marked dirty is false — the
bump is lost if the clean page is evicted. -/
theorem set_entry_append_not_marked_dirty :
    ((CacheM.set_entry cacheOneClean "base" (packII 0 16) 0 none true).toOption.bind
      (fun c' => (assocFind c'.entries ("base", 0, 0)).map Prod.fst)) = some false ∧
    ((CacheM.set_entry cacheOneClean "base" (packII 0 16) 0 none true).toOption.bind
      (fun c' => (assocFind c'.entries ("base", 0, 0)).map (fun v => v.2.words 0))) =
        some 3 ∧
    basePage.words 0 = 2 :=
  ⟨rfl, rfl, rfl⟩

/-- C7 (amended): for a cached page, `set_entry` stores the mutated page as
dirty exactly when `data` is present (with the counter also bumped when
`is_append` is set).  When `data` is absent and `is_append` is true, the
counter word is bumped in place through the shared buffer but the entry
keeps its previous dirty flag, so the bump is not written back on eviction
of a clean page.  When both are absent the call leaves every binding of the
buffer pool unchanged (only the LRU position moves). -/
theorem set_entry_dirty_flag (c : CacheM.CState) (range_type : String)
    (rid col : Nat) (d : Nat) (app : Bool) (d0 : Bool) (pg : PageRec)
    (hnodup : (c.entries.map Prod.fst).Nodup)
    (hsize : c.entries.length ≤ c.size)
    (hfound : assocFind c.entries (range_type, ridPage rid, col) = some (d0, pg))
    (h8 : ridOff rid % WORDSIZE = 0) :
    (∃ c', CacheM.set_entry c range_type rid col (some d) app = .ok c' ∧
      assocFind c'.entries (range_type, ridPage rid, col) =
        some (true,
          ⟨if app then pg.num_records + 1 else pg.num_records,
           fupd (if app then fupd pg.words 0 (pg.num_records + 1) else pg.words)
             (ridOff rid / WORDSIZE) d⟩)) ∧
    (∃ c', CacheM.set_entry c range_type rid col none true = .ok c' ∧
      assocFind c'.entries (range_type, ridPage rid, col) =
        some (d0, ⟨pg.num_records, fupd pg.words 0 (pg.num_records + 1)⟩)) ∧
    (∃ c', CacheM.set_entry c range_type rid col none false = .ok c' ∧
      ∀ k', assocFind c'.entries k' = assocFind c.entries k') := by
  have hkeys := assocErase_keys_not_mem c.entries (range_type, ridPage rid, col) hnodup
  have hlen := assocErase_length_of_found c.entries _ _ hfound
  refine ⟨?_, ?_, ?_⟩
  · unfold CacheM.set_entry
    dsimp only
    rw [get_page_hit c _ d0 pg hfound]
    unfold writeFieldW
    rw [if_pos h8]
    refine ⟨_, rfl, ?_⟩
    unfold CacheM.set_page_priv
    by_cases happ : app = true
    · simp only [happ, if_true]
      rw [show (assocMapVal
          (fun db => (db.1, ⟨db.2.num_records, fupd pg.words 0 (pg.num_records + 1)⟩))
          (assocErase c.entries (range_type, ridPage rid, col) ++
            [((range_type, ridPage rid, col), (d0, pg))])
          (range_type, ridPage rid, col)) =
        assocErase c.entries (range_type, ridPage rid, col) ++
          [((range_type, ridPage rid, col),
            (d0, ⟨pg.num_records, fupd pg.words 0 (pg.num_records + 1)⟩))] from by
        rw [assocMapVal_append_left _ _ _ _ hkeys]
        simp [assocMapVal]]
      rw [assocErase_append_left _ _ _ hkeys]
      rw [show assocErase [((range_type, ridPage rid, col),
          ((d0 : Bool), (⟨pg.num_records, fupd pg.words 0 (pg.num_records + 1)⟩ : PageRec)))]
          (range_type, ridPage rid, col) = [] from by simp [assocErase]]
      rw [List.append_nil]
      rw [if_neg (by simp only [List.length_append, List.length_cons, List.length_nil]; omega)]
      dsimp only
      rw [assocFind_append, assocFind_eq_none _ _ hkeys]
      simp [assocFind]
    · rw [Bool.not_eq_true] at happ
      simp only [happ, Bool.false_eq_true, if_false]
      rw [assocErase_append_left _ _ _ hkeys]
      rw [show assocErase [((range_type, ridPage rid, col), ((d0 : Bool), pg))]
          (range_type, ridPage rid, col) = [] from by simp [assocErase]]
      rw [List.append_nil]
      rw [if_neg (by simp only [List.length_append, List.length_cons, List.length_nil]; omega)]
      dsimp only
      rw [assocFind_append, assocFind_eq_none _ _ hkeys]
      simp [assocFind]
  · unfold CacheM.set_entry
    dsimp only
    rw [get_page_hit c _ d0 pg hfound]
    simp only [if_true]
    refine ⟨_, rfl, ?_⟩
    show assocFind (assocMapVal _ (assocErase c.entries _ ++ [(_, (d0, pg))]) _) _ = _
    rw [assocMapVal_append_left _ _ _ _ hkeys]
    rw [assocFind_append]
    rw [assocFind_eq_none _ _ hkeys]
    simp [assocMapVal, assocFind]
  · unfold CacheM.set_entry
    dsimp only
    rw [get_page_hit c _ d0 pg hfound]
    simp only [Bool.false_eq_true, if_false]
    refine ⟨_, rfl, ?_⟩
    intro k'
    show assocFind (assocErase c.entries _ ++ [(_, (d0, pg))]) k' = _
    rw [assocFind_append]
    by_cases hk : k' = (range_type, ridPage rid, col)
    · rw [hk, assocFind_eq_none _ _ hkeys]
      simp [assocFind, hfound]
    · rw [assocFind_assocErase_ne _ _ _ hk]
      cases hv : assocFind c.entries k' with
      | none => simp [assocFind, hk]
      | some v => simp

/-- C7 witness: the amended theorem applied to the one-entry buffer pool
`cacheOneClean` at the base page key. -/
theorem set_entry_dirty_flag_witness :
    (∃ c', CacheM.set_entry cacheOneClean "base" (packII 0 16) 0 (some 7) false = .ok c' ∧
      assocFind c'.entries ("base", ridPage (packII 0 16), 0) =
        some (true,
          ⟨if false then basePage.num_records + 1 else basePage.num_records,
           fupd (if false then fupd basePage.words 0 (basePage.num_records + 1)
             else basePage.words) (ridOff (packII 0 16) / WORDSIZE) 7⟩)) ∧
    (∃ c', CacheM.set_entry cacheOneClean "base" (packII 0 16) 0 none true = .ok c' ∧
      assocFind c'.entries ("base", ridPage (packII 0 16), 0) =
        some (false, ⟨basePage.num_records, fupd basePage.words 0 (basePage.num_records + 1)⟩)) ∧
    (∃ c', CacheM.set_entry cacheOneClean "base" (packII 0 16) 0 none false = .ok c' ∧
      ∀ k', assocFind c'.entries k' = assocFind cacheOneClean.entries k') :=
  set_entry_dirty_flag cacheOneClean "base" (packII 0 16) 0 7 false false basePage
    (by decide) (by decide) (by rfl) (by decide)

/-! ## Effect characterisation of the write path -/

/-- Full effect of `Cache.set_entry` at an aligned offset: it succeeds, all
non-page state is untouched, only the addressed page changes, and within it
only word 0 (counter bump) and the addressed word. -/
theorem set_entry_effect (range_type : String) (rid col : Nat)
    (data : Option Nat) (app : Bool) (st : EngineState)
    (h8 : ridOff rid % WORDSIZE = 0) :
    ∃ st', Cache.set_entry range_type rid col data app st = (.ok (), st') ∧
      st'.num_columns = st.num_columns ∧ st'.key_index = st.key_index ∧
      st'.last_rid = st.last_rid ∧ st'.index_created = st.index_created ∧
      st'.map_list = st.map_list ∧
      st'.merge_queue_matrix = st.merge_queue_matrix ∧
      st'.merge_counter = st.merge_counter ∧
      (∀ k', k' ≠ (range_type, ridPage rid, col) → st'.pages k' = st.pages k') ∧
      (∀ w, w ≠ 0 → w ≠ ridOff rid / WORDSIZE →
        (st'.pages (range_type, ridPage rid, col)).words w =
          (st.pages (range_type, ridPage rid, col)).words w) ∧
      (∀ d, data = some d →
        (st'.pages (range_type, ridPage rid, col)).words (ridOff rid / WORDSIZE) = d) ∧
      (data = none → ridOff rid / WORDSIZE ≠ 0 →
        (st'.pages (range_type, ridPage rid, col)).words (ridOff rid / WORDSIZE) =
          (st.pages (range_type, ridPage rid, col)).words (ridOff rid / WORDSIZE)) := by
  unfold Cache.set_entry
  dsimp only
  cases data with
  | none =>
    by_cases happ : app = true
    · simp only [happ, if_true]
      refine ⟨_, rfl, rfl, rfl, rfl, rfl, rfl, rfl, rfl, ?_, ?_, ?_, ?_⟩
      · intro k' hk'
        exact fupd_other _ _ _ _ hk'
      · intro w hw0 hww
        dsimp only
        rw [fupd_self]
        dsimp only
        rw [fupd_other _ _ _ _ hw0]
      · intro d hd
        exact Option.noConfusion hd
      · intro _ h0
        dsimp only
        rw [fupd_self]
        dsimp only
        rw [fupd_other _ _ _ _ h0]
    · rw [Bool.not_eq_true] at happ
      simp only [happ, Bool.false_eq_true, if_false]
      exact ⟨st, rfl, rfl, rfl, rfl, rfl, rfl, rfl, rfl,
        fun _ _ => rfl, fun _ _ _ => rfl, fun d hd => Option.noConfusion hd,
        fun _ _ => rfl⟩
  | some d =>
    dsimp only
    unfold writeFieldW
    rw [if_pos h8]
    refine ⟨_, rfl, rfl, rfl, rfl, rfl, rfl, rfl, rfl, ?_, ?_, ?_, ?_⟩
    · intro k' hk'
      exact fupd_other _ _ _ _ hk'
    · intro w hw0 hww
      dsimp only
      rw [fupd_self]
      dsimp only
      rw [fupd_other _ _ _ _ hww]
      by_cases happ : app = true
      · simp only [happ, if_true]
        rw [fupd_other _ _ _ _ hw0]
      · rw [Bool.not_eq_true] at happ
        simp only [happ, Bool.false_eq_true, if_false]
    · intro d' hd'
      cases hd'
      dsimp only
      rw [fupd_self]
      dsimp only
      rw [fupd_self]
    · intro hcon
      exact fun _ => Option.noConfusion hcon

/-! ## C1 groundwork: arithmetic facts and read-purity of the select path -/

theorem Cache.set_entry_noop (range_type : String) (rid col : Nat) (st : EngineState) :
    Cache.set_entry range_type rid col none false st = (.ok (), st) := rfl

theorem ridLe_lt_trans (a b c : Nat) (h1 : ridLe a b) (h2 : ridLt b c) : ridLt a c := by
  unfold ridLe at h1
  unfold ridLt at h2 ⊢
  omega

/-- Decoding the two's-complement encoding of an in-range signed value
recovers the value (`unpack('q', pack('q', v)) = v`). -/
theorem unpackq_emod (v : Int) (h1 : -(2 ^ 63) ≤ v) (h2 : v < 2 ^ 63) :
    unpackq ((v.emod (2 ^ 64)).toNat) = v := by
  rcases le_or_lt 0 v with hv | hv
  · have he : v.emod (2 ^ 64) = v := Int.emod_eq_of_lt hv (by omega)
    unfold unpackq
    rw [he]
    split <;> omega
  · have h1 : (v + 2 ^ 64 * 1).emod (2 ^ 64) = v.emod (2 ^ 64) :=
      @Int.add_mul_emod_self_left v (2 ^ 64) 1
    have he : v.emod (2 ^ 64) = v + 2 ^ 64 := by
      rw [← h1]
      have hx : v + 2 ^ 64 * 1 = v + 2 ^ 64 := by ring
      rw [hx]
      exact Int.emod_eq_of_lt (by omega) (by omega)
    unfold unpackq
    rw [he]
    split <;> omega

theorem testBit_and_two_pow_ne_zero (x j : Nat) (h : x.testBit j = true) :
    x &&& 2 ^ j ≠ 0 := by
  intro h0
  have hb : (x &&& 2 ^ j).testBit j = true := by
    rw [Nat.testBit_and, h, Nat.testBit_two_pow_self]
    rfl
  rw [h0, Nat.zero_testBit] at hb
  exact Bool.noConfusion hb

/-- Stepping a computation whose first stage did not change the state and
whose continuation is state-preserving preserves the state. -/
theorem M.step_snd_pure {α β : Type} (p : Except String α × EngineState) (st : EngineState)
    (hp : p.2 = st) (f : α → EngineState → Except String β × EngineState)
    (h : ∀ a, (f a st).2 = st) : (M.step p f).2 = st := by
  obtain ⟨x, st2⟩ := p
  have hst : st2 = st := hp
  subst hst
  cases x with
  | ok a => exact h a
  | error e => rfl

theorem Cache.get_entry_eq (range_type : String) (rid c : Nat) (st : EngineState) :
    Cache.get_entry range_type rid c st =
      (readField (st.pages (range_type, ridPage rid, c)) (ridOff rid), st) := rfl

theorem readField_ok (pg : PageRec) (off : Nat) (h8 : off % WORDSIZE = 0)
    (hle : off + WORDSIZE ≤ PAGESIZE) :
    readField pg off = .ok (pg.words (off / WORDSIZE)) := by
  unfold readField
  rw [if_neg (by omega), if_pos h8]

theorem Table.walk_chain_pure (f : Nat) :
    ∀ fuel t st, (Table.walk_chain f fuel t st).2 = st := by
  intro fuel
  induction fuel with
  | zero => intro t st; rfl
  | succ n ih =>
    intro t st
    simp only [Table.walk_chain]
    refine M.step_snd_pure _ st rfl _ ?_
    intro enc
    dsimp only
    by_cases hc : Table.is_updated enc f ≠ 0
    · rw [if_pos hc]
      exact M.step_snd_pure _ st rfl _ (fun d => rfl)
    · rw [if_neg hc]
      exact M.step_snd_pure _ st rfl _ (fun t' => ih t' st)

theorem Table.base_up_to_date_pure (r f : Nat) (st : EngineState) :
    (Table.base_up_to_date r f st).2 = st := by
  unfold Table.base_up_to_date
  rw [M.bind_def]
  refine M.step_snd_pure _ st rfl _ ?_
  intro pg
  dsimp only
  rw [M.bind_def]
  refine M.step_snd_pure _ st rfl _ ?_
  intro lin
  rw [M.bind_def]
  refine M.step_snd_pure _ st rfl _ ?_
  intro latest
  dsimp only
  rw [M.ite_app]
  split
  · rfl
  · rw [M.ite_app]
    split <;> rfl

theorem Table.select_feature_pure (fuel r f : Nat) (st : EngineState) :
    (Table.select_feature fuel r f st).2 = st := by
  unfold Table.select_feature
  rw [M.bind_def]
  refine M.step_snd_pure _ st rfl _ ?_
  intro enc
  dsimp only
  rw [M.bind_def]
  refine M.step_snd_pure _ st (Table.base_up_to_date_pure r f st) _ ?_
  intro utd
  rw [M.ite_app]
  split
  · rw [M.bind_def]
    refine M.step_snd_pure _ st rfl _ ?_
    intro d
    rfl
  · rw [M.bind_def]
    refine M.step_snd_pure _ st rfl _ ?_
    intro t
    exact Table.walk_chain_pure f fuel t st

theorem Query.select_cols_pure (fuel r : Nat) :
    ∀ (mask : List Nat) (i : Nat) (st : EngineState),
      (Query.select_cols fuel r i mask st).2 = st := by
  intro mask
  induction mask with
  | nil => intro i st; rfl
  | cons b rest ih =>
    intro i st
    simp only [Query.select_cols]
    by_cases hb : b = 0
    · rw [if_pos hb]
      refine M.step_snd_pure _ st (ih (i + 1) st) _ ?_
      intro rl
      rfl
    · rw [if_neg hb]
      refine M.step_snd_pure _ st (Table.select_feature_pure fuel r i st) _ ?_
      intro fld
      refine M.step_snd_pure _ st (ih (i + 1) st) _ ?_
      intro rl
      rfl

theorem Query.select_rids_pure (fuel : Nat) (key : Option Int) (qc : List Nat) :
    ∀ (rids : List Nat) (st : EngineState),
      (Query.select_rids fuel key qc rids st).2 = st := by
  intro rids
  induction rids with
  | nil => intro st; rfl
  | cons r rest ih =>
    intro st
    simp only [Query.select_rids]
    refine M.step_snd_pure _ st (Query.select_cols_pure fuel r qc 0 st) _ ?_
    intro ql
    refine M.step_snd_pure _ st (ih st) _ ?_
    intro tr
    rfl

theorem Index.locate_pure (key : Option Int) (f : Nat) (st : EngineState) :
    (Index.locate key f st).2 = st := by
  unfold Index.locate
  rw [M.bind_def]
  refine M.step_snd_pure _ st rfl _ ?_
  intro a
  dsimp only
  rcases h1 : a.index_created.get? f with _ | c
  · simp only [h1]
    rfl
  · simp only [h1]
    rw [M.ite_app]
    split
    · rfl
    · rcases h2 : a.map_list.get? f with _ | m
      · simp only [h2]
        rfl
      · simp only [h2]
        rcases h3 : assocFind m key with _ | l
        · simp only [h3]
          rfl
        · simp only [h3]
          rw [M.ite_app]
          split <;> rfl

theorem M.liftE_def {α : Type} (x : Except String α) (st : EngineState) :
    M.liftE x st = (x, st) := rfl

theorem pair_eta_of_snd {α : Type} (p : α × EngineState) (st : EngineState)
    (h : p.2 = st) : p = (p.1, st) := by
  obtain ⟨x, s⟩ := p
  have hs : s = st := h
  rw [hs]

theorem Query.select_pure (fuel : Nat) (key : Option Int) (ki : Nat) (qc : List Nat)
    (st : EngineState) : (Query.select fuel key ki qc st).2 = st := by
  unfold Query.select
  rw [M.bind_def]
  refine M.step_snd_pure _ st rfl _ ?_
  intro a
  dsimp only
  rw [M.ite_app]
  split
  · rfl
  · rw [M.bind_def]
    refine M.step_snd_pure _ st (Index.locate_pure key ki st) _ ?_
    intro located
    rcases located with _ | rids
    · rfl
    · exact Query.select_rids_pure fuel key qc rids st

/-! ## C1 groundwork: result shapes of the select path -/

theorem Query.select_cols_zeros (fuel r : Nat) :
    ∀ (c i : Nat) (st : EngineState),
      Query.select_cols fuel r i (List.replicate c 0) st =
        (.ok (List.replicate c (none : Option Int)), st) := by
  intro c
  induction c with
  | zero => intro i st; rfl
  | succ m ih =>
    intro i st
    rw [List.replicate_succ]
    simp only [Query.select_cols]
    rw [if_pos trivial, ih (i + 1) st, M.step_ok, List.replicate_succ]

theorem Query.select_cols_onehot (fuel r : Nat) (v : Int) :
    ∀ (a c i : Nat) (st : EngineState),
      Table.select_feature fuel r (i + a) st = (.ok v, st) →
      Query.select_cols fuel r i (List.replicate a 0 ++ 1 :: List.replicate c 0) st =
        (.ok (List.replicate a (none : Option Int) ++ some v :: List.replicate c none), st) := by
  intro a
  induction a with
  | zero =>
    intro c i st hf
    rw [Nat.add_zero] at hf
    simp only [List.replicate_zero, List.nil_append]
    simp only [Query.select_cols]
    rw [if_neg (by decide), hf, M.step_ok, Query.select_cols_zeros fuel r c (i + 1) st,
      M.step_ok]
  | succ m ih =>
    intro c i st hf
    rw [List.replicate_succ, List.cons_append]
    simp only [Query.select_cols]
    rw [if_pos trivial]
    have hf' : Table.select_feature fuel r (i + 1 + m) st = (.ok v, st) := by
      rw [show i + 1 + m = i + (m + 1) from by omega]
      exact hf
    rw [ih c (i + 1) st hf', M.step_ok, List.replicate_succ]
    rfl

theorem maskOnly_eq : ∀ (n j : Nat), j < n →
    maskOnly j n = List.replicate j 0 ++ 1 :: List.replicate (n - j - 1) 0 := by
  intro n
  induction n with
  | zero => intro j hj; omega
  | succ m ih =>
    intro j hj
    unfold maskOnly
    cases j with
    | zero =>
      rw [List.replicate_succ, List.set_cons_zero, List.replicate_zero, List.nil_append]
      norm_num
    | succ jj =>
      rw [List.replicate_succ, List.set_cons_succ, List.replicate_succ, List.cons_append]
      have hm := ih jj (by omega)
      unfold maskOnly at hm
      rw [hm]
      have harith : m + 1 - (jj + 1) - 1 = m - jj - 1 := by omega
      rw [harith]

theorem maskOnly_length (j n : Nat) : (maskOnly j n).length = n := by
  unfold maskOnly
  rw [List.length_set, List.length_replicate]

theorem Query.select_cols_length (fuel r : Nat) :
    ∀ (mask : List Nat) (i : Nat) (st st2 : EngineState) (l : List (Option Int)),
      Query.select_cols fuel r i mask st = (.ok l, st2) → l.length = mask.length := by
  intro mask
  induction mask with
  | nil =>
    intro i st st2 l h
    simp only [Query.select_cols, Prod.mk.injEq, Except.ok.injEq] at h
    rw [← h.1]
    rfl
  | cons b rest ih =>
    intro i st st2 l h
    simp only [Query.select_cols] at h
    by_cases hb : b = 0
    · rw [if_pos hb] at h
      rcases hrec : Query.select_cols fuel r (i + 1) rest st with ⟨x, s⟩
      rw [hrec] at h
      cases x with
      | error e => rw [M.step_error] at h; simp at h
      | ok lr =>
        rw [M.step_ok] at h
        simp only [Prod.mk.injEq, Except.ok.injEq] at h
        rw [← h.1]
        simp [ih (i + 1) st s lr hrec]
    · rw [if_neg hb] at h
      rcases hf : Table.select_feature fuel r i st with ⟨x, s⟩
      rw [hf] at h
      cases x with
      | error e => rw [M.step_error] at h; simp at h
      | ok fld =>
        rw [M.step_ok] at h
        rcases hrec : Query.select_cols fuel r (i + 1) rest s with ⟨x2, s2⟩
        rw [hrec] at h
        cases x2 with
        | error e => rw [M.step_error] at h; simp at h
        | ok lr =>
          rw [M.step_ok] at h
          simp only [Prod.mk.injEq, Except.ok.injEq] at h
          rw [← h.1]
          simp [ih (i + 1) s s2 lr hrec]

theorem Query.select_rids_columns_length (fuel : Nat) (key : Option Int) (qc : List Nat) :
    ∀ (rids : List Nat) (st st2 : EngineState) (recs : List Record),
      Query.select_rids fuel key qc rids st = (.ok recs, st2) →
      ∀ rec ∈ recs, rec.columns.length = qc.length := by
  intro rids
  induction rids with
  | nil =>
    intro st st2 recs h
    simp only [Query.select_rids, Prod.mk.injEq, Except.ok.injEq] at h
    rw [← h.1]
    intro rec hrec
    exact absurd hrec (List.not_mem_nil rec)
  | cons r rest ih =>
    intro st st2 recs h
    simp only [Query.select_rids] at h
    rcases hc : Query.select_cols fuel r 0 qc st with ⟨x, s⟩
    rw [hc] at h
    cases x with
    | error e => rw [M.step_error] at h; simp at h
    | ok ql =>
      rw [M.step_ok] at h
      rcases hr : Query.select_rids fuel key qc rest s with ⟨x2, s2⟩
      rw [hr] at h
      cases x2 with
      | error e => rw [M.step_error] at h; simp at h
      | ok tr =>
        rw [M.step_ok] at h
        simp only [Prod.mk.injEq, Except.ok.injEq] at h
        rw [← h.1]
        intro rec hrec
        rcases List.mem_cons.mp hrec with hh | ht
        · rw [hh]
          exact Query.select_cols_length fuel r qc 0 st s ql hc
        · exact ih s s2 tr hr rec ht

theorem Query.select_columns_length (fuel : Nat) (key : Option Int) (ki : Nat)
    (qc : List Nat) (st st2 : EngineState) (recs : List Record)
    (h : Query.select fuel key ki qc st = (.ok recs, st2)) :
    ∀ rec ∈ recs, rec.columns.length = qc.length := by
  unfold Query.select at h
  rw [M.bind_def, M.get, M.step_ok] at h
  rw [M.ite_app] at h
  by_cases hlen : qc.length ≠ st.num_columns
  · rw [if_pos hlen, M.pure_def] at h
    simp only [Prod.mk.injEq, Except.ok.injEq] at h
    rw [← h.1]
    intro rec hrec
    exact absurd hrec (List.not_mem_nil rec)
  · rw [if_neg hlen, M.bind_def,
      pair_eta_of_snd (Index.locate key ki st) st (Index.locate_pure key ki st)] at h
    rcases hres : (Index.locate key ki st).1 with e | located
    · rw [hres, M.step_error] at h
      simp at h
    · rw [hres, M.step_ok] at h
      rcases located with _ | rids
      · simp [M.throw] at h
      · exact Query.select_rids_columns_length fuel key qc rids st st2 recs h

/-- `Index.locate` on an indexed column whose map holds a non-empty bucket
for the key returns that bucket without touching the state. -/
theorem Index.locate_found (st : EngineState) (key : Option Int) (f : Nat)
    (m : List (Option Int × List Nat)) (l : List Nat)
    (hc : st.index_created.get? f = some true)
    (hm : st.map_list.get? f = some m)
    (hf : assocFind m key = some l) (hne : l ≠ []) :
    Index.locate key f st = (.ok (some l), st) := by
  unfold Index.locate
  rw [M.bind_def, M.get, M.step_ok]
  simp only [hc]
  rw [M.ite_app, if_neg (by decide)]
  simp only [hm, hf]
  rw [M.ite_app, if_neg (by simpa using hne)]
  rfl

/-- `Index.map_change_loop` over a run of features whose index was never
created is the identity. -/
theorem Index.map_change_skip (br : Nat) (old new : List (Option Int)) :
    ∀ (n f : Nat) (st : EngineState),
      (∀ i, i < n → st.index_created.get? (f + i) = some false) →
      Index.map_change_loop br old new f n st = (.ok (), st) := by
  intro n
  induction n with
  | zero => intro f st h; rfl
  | succ m ih =>
    intro f st h
    have h0 : st.index_created.get? f = some false := by
      have := h 0 (by omega)
      simpa using this
    simp only [Index.map_change_loop]
    simp only [h0]
    rw [if_pos trivial]
    refine ih (f + 1) st ?_
    intro i hi
    rw [show f + 1 + i = f + (i + 1) from by omega]
    exact h (i + 1) (by omega)

/-- Effect of `Table.update_schema` at an aligned in-bounds offset: on
success it ORs the feature bit into the record's schema word in place; a
failure (the packed word out of range) leaves the state untouched. -/
theorem Table.update_schema_effect (rt : String) (i rid : Nat) (st : EngineState)
    (h8 : ridOff rid % WORDSIZE = 0) (hle : ridOff rid + WORDSIZE ≤ PAGESIZE) :
    (∃ e, Table.update_schema rt i rid st = (.error e, st)) ∨
    Table.update_schema rt i rid st = (.ok (),
      { st with pages := (fupd st.pages (rt, ridPage rid, SCHEMA_ENCODING_COLUMN)
        ({ num_records := (st.pages (rt, ridPage rid, SCHEMA_ENCODING_COLUMN)).num_records,
           words := fupd (st.pages (rt, ridPage rid, SCHEMA_ENCODING_COLUMN)).words
             (ridOff rid / WORDSIZE)
             ((st.pages (rt, ridPage rid, SCHEMA_ENCODING_COLUMN)).words
               (ridOff rid / WORDSIZE) ||| 2 ^ i) })) }) := by
  unfold Table.update_schema
  rw [M.bind_def, Cache.get_entry_eq, readField_ok _ _ h8 hle, M.step_ok]
  rw [M.bind_def]
  by_cases hq : (st.pages (rt, ridPage rid, SCHEMA_ENCODING_COLUMN)).words
      (ridOff rid / WORDSIZE) ||| 2 ^ i < 2 ^ 64
  · right
    have hpQ : packQ ((st.pages (rt, ridPage rid, SCHEMA_ENCODING_COLUMN)).words
        (ridOff rid / WORDSIZE) ||| 2 ^ i) =
        .ok ((st.pages (rt, ridPage rid, SCHEMA_ENCODING_COLUMN)).words
          (ridOff rid / WORDSIZE) ||| 2 ^ i) := by
      unfold packQ
      rw [if_pos hq]
    rw [M.liftE_def, hpQ, M.step_ok]
    unfold Cache.set_entry
    dsimp only
    simp only [Bool.false_eq_true, if_false]
    unfold writeFieldW
    rw [if_pos h8]
  · left
    refine ⟨"struct.error: Q out of range", ?_⟩
    have hpQ : packQ ((st.pages (rt, ridPage rid, SCHEMA_ENCODING_COLUMN)).words
        (ridOff rid / WORDSIZE) ||| 2 ^ i) = .error "struct.error: Q out of range" := by
      unfold packQ
      rw [if_neg hq]
    rw [M.liftE_def, hpQ, M.step_error]

/-! ## C1 groundwork: effect lemmas for the update write path -/

theorem packq_ok_val (v : Int) (b : Nat) (h : packq v = .ok b) :
    b = (v.emod (2 ^ 64)).toNat ∧ -(2 ^ 63) ≤ v ∧ v < 2 ^ 63 := by
  unfold packq at h
  by_cases hb : -(2 ^ 63) ≤ v ∧ v < 2 ^ 63
  · rw [if_pos hb] at h
    simp only [Except.ok.injEq] at h
    exact ⟨h.symm, hb⟩
  · rw [if_neg hb] at h
    exact absurd h (by simp)

theorem pkey_ne_of_fst {a b : String} {x y : Nat × Nat} (h : a ≠ b) :
    ((a, x) : PKey) ≠ (b, y) := by
  intro hh
  exact h (congrArg Prod.fst hh)

theorem pkey_ne_of_col {a b : String} {p q c d : Nat} (h : c ≠ d) :
    ((a, p, c) : PKey) ≠ (b, q, d) := by
  intro hh
  exact h (congrArg (fun k : PKey => k.2.2) hh)

/-- `mq_append` either raises IndexError or extends one merge queue; it never
touches anything but the merge-queue matrix. -/
theorem Table.mq_append_cases (f p : Nat) (pr : Nat × Nat) (st : EngineState) :
    (∃ e, Table.mq_append f p pr st = (.error e, st)) ∨
    ∃ st2, Table.mq_append f p pr st = (.ok (), st2) ∧
      st2.num_columns = st.num_columns ∧ st2.key_index = st.key_index ∧
      st2.pages = st.pages ∧ st2.last_rid = st.last_rid ∧
      st2.index_created = st.index_created ∧ st2.map_list = st.map_list ∧
      st2.merge_counter = st.merge_counter := by
  rcases h1 : st.merge_queue_matrix.get? f with _ | row
  · left
    refine ⟨"IndexError", ?_⟩
    unfold Table.mq_append
    simp only [h1]
  · rcases h2 : row.get? p with _ | q
    · left
      refine ⟨"IndexError", ?_⟩
      unfold Table.mq_append
      simp only [h1, h2]
    · right
      refine ⟨{ st with
          merge_queue_matrix := st.merge_queue_matrix.set f (row.set p (q ++ [pr])) },
        ?_, rfl, rfl, rfl, rfl, rfl, rfl, rfl⟩
      unfold Table.mq_append
      simp only [h1, h2]

/-- Abstract-state version of `update_schema_effect`: either a state-pure
error or success, with the feature bit ORed into the record's schema word
and everything else untouched. -/
theorem Table.update_schema_effect2 (rt : String) (i rid : Nat) (st : EngineState)
    (h8 : ridOff rid % WORDSIZE = 0) (hle : ridOff rid + WORDSIZE ≤ PAGESIZE) :
    (∃ e, Table.update_schema rt i rid st = (.error e, st)) ∨
    ∃ st2, Table.update_schema rt i rid st = (.ok (), st2) ∧
      st2.num_columns = st.num_columns ∧ st2.key_index = st.key_index ∧
      st2.last_rid = st.last_rid ∧ st2.index_created = st.index_created ∧
      st2.map_list = st.map_list ∧ st2.merge_queue_matrix = st.merge_queue_matrix ∧
      st2.merge_counter = st.merge_counter ∧
      (∀ k' : PKey, k' ≠ (rt, ridPage rid, SCHEMA_ENCODING_COLUMN) →
        st2.pages k' = st.pages k') ∧
      (∀ w, w ≠ ridOff rid / WORDSIZE →
        (st2.pages (rt, ridPage rid, SCHEMA_ENCODING_COLUMN)).words w =
          (st.pages (rt, ridPage rid, SCHEMA_ENCODING_COLUMN)).words w) ∧
      entryWord st2 rt rid SCHEMA_ENCODING_COLUMN =
        entryWord st rt rid SCHEMA_ENCODING_COLUMN ||| 2 ^ i := by
  rcases Table.update_schema_effect rt i rid st h8 hle with h | h
  · exact Or.inl h
  · right
    refine ⟨_, h, rfl, rfl, rfl, rfl, rfl, rfl, rfl, ?_, ?_, ?_⟩
    · intro k' hk'
      dsimp only
      exact fupd_other _ _ _ _ hk'
    · intro w hw
      dsimp only
      rw [fupd_self]
      exact fupd_other _ _ _ _ hw
    · unfold entryWord
      dsimp only
      rw [fupd_self]
      dsimp only
      rw [fupd_self]

theorem Table.insert_cols_post (rt : String) (rid : Nat) (h8 : ridOff rid % WORDSIZE = 0) :
    ∀ (cols : List (Option Int)) (i : Nat) (st st' : EngineState),
      Table.insert_cols rt rid i cols st = (.ok (), st') →
      st'.num_columns = st.num_columns ∧ st'.key_index = st.key_index ∧
      st'.last_rid = st.last_rid ∧ st'.index_created = st.index_created ∧
      st'.map_list = st.map_list ∧ st'.merge_queue_matrix = st.merge_queue_matrix ∧
      st'.merge_counter = st.merge_counter ∧
      ∀ k' : PKey, (∀ c, k' ≠ (rt, ridPage rid, c)) → st'.pages k' = st.pages k' := by
  intro cols
  induction cols with
  | nil =>
    intro i st st' heq
    have h1 : st' = st := by
      simp only [Table.insert_cols, Prod.mk.injEq] at heq
      exact heq.2.symm
    subst h1
    exact ⟨rfl, rfl, rfl, rfl, rfl, rfl, rfl, fun _ _ => rfl⟩
  | cons d rest ih =>
    intro i st st' heq
    cases d with
    | none =>
      simp only [Table.insert_cols] at heq
      obtain ⟨s1, he1, n1, k1, l1, ic1, ml1, mq1, mc1, hpg1, _, _, _⟩ :=
        set_entry_effect rt rid (i + NUM_INTERNAL_COLUMN) none true st h8
      rw [he1, M.step_ok] at heq
      obtain ⟨f1, f2, f3, f4, f5, f6, f7, fP⟩ := ih (i + 1) s1 st' heq
      refine ⟨f1.trans n1, f2.trans k1, f3.trans l1, f4.trans ic1, f5.trans ml1,
        f6.trans mq1, f7.trans mc1, ?_⟩
      intro k' hk'
      rw [fP k' hk']
      exact hpg1 k' (hk' _)
    | some v =>
      simp only [Table.insert_cols] at heq
      rcases hpq : packq v with e | b
      · rw [M.liftE_def, hpq, M.step_error] at heq
        simp at heq
      · rw [M.liftE_def, hpq, M.step_ok] at heq
        obtain ⟨s1, he1, n1, k1, l1, ic1, ml1, mq1, mc1, hpg1, _, _, _⟩ :=
          set_entry_effect rt rid (i + NUM_INTERNAL_COLUMN) (some b) true st h8

        rw [he1, M.step_ok] at heq
        obtain ⟨f1, f2, f3, f4, f5, f6, f7, fP⟩ := ih (i + 1) s1 st' heq
        refine ⟨f1.trans n1, f2.trans k1, f3.trans l1, f4.trans ic1, f5.trans ml1,
          f6.trans mq1, f7.trans mc1, ?_⟩
        intro k' hk'
        rw [fP k' hk']
        exact hpg1 k' (hk' _)

/-- `Table.insert_record` only writes pages of its record's own range and
page index; every other page binding and all non-page state survive. -/
theorem Table.insert_record_post (rec : Record) (st st' : EngineState)
    (h8 : ridOff rec.rid % WORDSIZE = 0)
    (heq : Table.insert_record rec st = (.ok (), st')) :
    st'.num_columns = st.num_columns ∧ st'.key_index = st.key_index ∧
    st'.last_rid = st.last_rid ∧ st'.index_created = st.index_created ∧
    st'.map_list = st.map_list ∧ st'.merge_queue_matrix = st.merge_queue_matrix ∧
    st'.merge_counter = st.merge_counter ∧
    ∀ k' : PKey, (∀ c, k' ≠ (rec.range_type, ridPage rec.rid, c)) →
      st'.pages k' = st.pages k' := by
  unfold Table.insert_record at heq
  rw [M.bind_def] at heq
  obtain ⟨s1, he1, n1, k1, l1, ic1, ml1, mq1, mc1, hpg1, _, _, _⟩ :=
    set_entry_effect rec.range_type rec.rid RID_COLUMN (some rec.rid) true st h8
  rw [he1, M.step_ok, M.bind_def] at heq
  obtain ⟨s2, he2, n2, k2, l2, ic2, ml2, mq2, mc2, hpg2, _, _, _⟩ :=
    set_entry_effect rec.range_type rec.rid INDIRECTION_COLUMN (some INVALID_RID)
      true s1 h8
  rw [he2, M.step_ok, M.bind_def] at heq
  obtain ⟨s3, he3, n3, k3, l3, ic3, ml3, mq3, mc3, hpg3, _, _, _⟩ :=
    set_entry_effect rec.range_type rec.rid SCHEMA_ENCODING_COLUMN none true s2 h8
  rw [he3, M.step_ok, M.bind_def] at heq
  obtain ⟨s4, he4, n4, k4, l4, ic4, ml4, mq4, mc4, hpg4, _, _, _⟩ :=
    set_entry_effect rec.range_type rec.rid TIMESTAMP_COLUMN (some 0) true s3 h8
  rw [he4, M.step_ok] at heq
  obtain ⟨f1, f2, f3, f4, f5, f6, f7, fP⟩ :=
    Table.insert_cols_post rec.range_type rec.rid h8 rec.columns 0 s4 st' heq
  refine ⟨f1.trans (n4.trans (n3.trans (n2.trans n1))),
    f2.trans (k4.trans (k3.trans (k2.trans k1))),
    f3.trans (l4.trans (l3.trans (l2.trans l1))),
    f4.trans (ic4.trans (ic3.trans (ic2.trans ic1))),
    f5.trans (ml4.trans (ml3.trans (ml2.trans ml1))),
    f6.trans (mq4.trans (mq3.trans (mq2.trans mq1))),
    f7.trans (mc4.trans (mc3.trans (mc2.trans mc1))), ?_⟩
  intro k' hk'
  rw [fP k' hk', hpg4 k' (hk' _), hpg3 k' (hk' _), hpg2 k' (hk' _), hpg1 k' (hk' _)]

/-- The per-column loop of `Table.update_record`: on success it leaves the
index, allocator and merge counter untouched, writes only the base record's
schema word and the new tail record's pages, only sets schema bits (never
clears), and stores the packed value of every non-null column at the tail
record's offset in the matching feature column. -/
theorem Table.update_cols_post (r nr j : Nat) (v : Int)
    (h8r : ridOff r % WORDSIZE = 0) (hler : ridOff r + WORDSIZE ≤ PAGESIZE)
    (h8n : ridOff nr % WORDSIZE = 0) (hlen' : ridOff nr + WORDSIZE ≤ PAGESIZE) :
    ∀ (cols : List (Option Int)) (i : Nat) (st st' : EngineState),
      Table.update_cols r nr i cols st = (.ok (), st') →
      st'.num_columns = st.num_columns ∧ st'.key_index = st.key_index ∧
      st'.last_rid = st.last_rid ∧ st'.index_created = st.index_created ∧
      st'.map_list = st.map_list ∧ st'.merge_counter = st.merge_counter ∧
      (∀ k' : PKey, k' ≠ ("base", ridPage r, SCHEMA_ENCODING_COLUMN) → k'.1 ≠ "tail" →
        st'.pages k' = st.pages k') ∧
      (∀ b : Nat, (entryWord st "base" r SCHEMA_ENCODING_COLUMN).testBit b = true →
        (entryWord st' "base" r SCHEMA_ENCODING_COLUMN).testBit b = true) ∧
      (∀ b : Nat, (entryWord st "tail" nr SCHEMA_ENCODING_COLUMN).testBit b = true →
        (entryWord st' "tail" nr SCHEMA_ENCODING_COLUMN).testBit b = true) ∧
      (∀ c : Nat, 4 ≤ c → c < i + 4 →
        st'.pages ("tail", ridPage nr, c) = st.pages ("tail", ridPage nr, c)) ∧
      (i ≤ j → cols.get? (j - i) = some (some v) →
        entryWord st' "tail" nr (j + NUM_INTERNAL_COLUMN) = (v.emod (2 ^ 64)).toNat ∧
        (entryWord st' "base" r SCHEMA_ENCODING_COLUMN).testBit j = true ∧
        (entryWord st' "tail" nr SCHEMA_ENCODING_COLUMN).testBit j = true) := by
  intro cols
  induction cols with
  | nil =>
    intro i st st' heq
    have h1 : st' = st := by
      simp only [Table.update_cols, Prod.mk.injEq] at heq
      exact heq.2.symm
    subst h1
    refine ⟨rfl, rfl, rfl, rfl, rfl, rfl, fun _ _ _ => rfl, fun _ h => h, fun _ h => h,
      fun _ _ _ => rfl, ?_⟩
    intro _ hget
    exact absurd hget (by simp)
  | cons d rest ih =>
    intro i st st' heq
    cases d with
    | none =>
      simp only [Table.update_cols] at heq
      rw [Cache.set_entry_noop, M.step_ok] at heq
      obtain ⟨f1, f2, f3, f4, f5, f6, fB, fCb, fCt, fE, fF⟩ := ih (i + 1) st st' heq
      refine ⟨f1, f2, f3, f4, f5, f6, fB, fCb, fCt, ?_, ?_⟩
      · intro c h4 hlt
        exact fE c h4 (by omega)
      · intro hij hget
        rcases Nat.lt_or_ge i j with hij' | hij'
        · rw [show j - i = (j - (i + 1)) + 1 from by omega] at hget
          simp only [List.get?_cons_succ] at hget
          exact fF (by omega) hget
        · have hij2 : i = j := by omega
          subst hij2
          rw [Nat.sub_self] at hget
          simp only [List.get?_cons_zero] at hget
          exact absurd hget (by simp)
    | some w =>
      simp only [Table.update_cols] at heq
      rcases hpq : packq w with e | b
      · rw [M.liftE_def, hpq, M.step_error] at heq
        simp at heq
      · rw [M.liftE_def, hpq, M.step_ok] at heq
        rcases Table.update_schema_effect2 "base" i r st h8r hler with ⟨e, he⟩ |
          ⟨s1, he1, n1, k1, l1, ic1, ml1, mq1, mc1, hpg1, hw1, hbit1⟩
        · rw [he, M.step_error] at heq
          simp at heq
        · rw [he1, M.step_ok] at heq
          rcases Table.update_schema_effect2 "tail" i nr s1 h8n hlen' with ⟨e, he⟩ |
            ⟨s2, he2, n2, k2, l2, ic2, ml2, mq2, mc2, hpg2, hw2, hbit2⟩
          · rw [he, M.step_error] at heq
            simp at heq
          · rw [he2, M.step_ok] at heq
            rcases Table.mq_append_cases i (ridPage r) (r, nr) s2 with ⟨e, he⟩ |
              ⟨s3, he3, a3, b3, pg3, c3, d3, e3, g3⟩
            · rw [he, M.step_error] at heq
              simp at heq
            · rw [he3, M.step_ok] at heq
              obtain ⟨s4, he4, n4, k4, l4, ic4, ml4, mq4, mc4, hpg4, hw4, hval4, _⟩ :=
                set_entry_effect "tail" nr (i + NUM_INTERNAL_COLUMN) (some b) false
                  s3 h8n
              rw [he4, M.step_ok] at heq
              obtain ⟨f1, f2, f3, f4, f5, f6, fB, fCb, fCt, fE, fF⟩ :=
                ih (i + 1) s4 st' heq
              have hneBD : (("base", ridPage r, SCHEMA_ENCODING_COLUMN) : PKey) ≠
                  ("tail", ridPage nr, i + NUM_INTERNAL_COLUMN) :=
                pkey_ne_of_fst (by decide)
              have hneBT : (("base", ridPage r, SCHEMA_ENCODING_COLUMN) : PKey) ≠
                  ("tail", ridPage nr, SCHEMA_ENCODING_COLUMN) :=
                pkey_ne_of_fst (by decide)
              have hneTD : (("tail", ridPage nr, SCHEMA_ENCODING_COLUMN) : PKey) ≠
                  ("tail", ridPage nr, i + NUM_INTERNAL_COLUMN) :=
                pkey_ne_of_col (by simp [SCHEMA_ENCODING_COLUMN, NUM_INTERNAL_COLUMN])
              have hneTB : (("tail", ridPage nr, SCHEMA_ENCODING_COLUMN) : PKey) ≠
                  ("base", ridPage r, SCHEMA_ENCODING_COLUMN) :=
                pkey_ne_of_fst (by decide)
              have hs4b : entryWord s4 "base" r SCHEMA_ENCODING_COLUMN =
                  entryWord st "base" r SCHEMA_ENCODING_COLUMN ||| 2 ^ i := by
                unfold entryWord
                rw [hpg4 _ hneBD, pg3, hpg2 _ hneBT]
                exact hbit1
              have hs4t : entryWord s4 "tail" nr SCHEMA_ENCODING_COLUMN =
                  entryWord st "tail" nr SCHEMA_ENCODING_COLUMN ||| 2 ^ i := by
                unfold entryWord
                rw [hpg4 _ hneTD, pg3]
                have h2 : entryWord s2 "tail" nr SCHEMA_ENCODING_COLUMN =
                    entryWord s1 "tail" nr SCHEMA_ENCODING_COLUMN ||| 2 ^ i := hbit2
                unfold entryWord at h2
                rw [h2, hpg1 _ hneTB]
              refine ⟨f1.trans (n4.trans ((congrArg _ rfl).trans (a3.trans (n2.trans n1)))),
                f2.trans (k4.trans (b3.trans (k2.trans k1))),
                f3.trans (l4.trans (c3.trans (l2.trans l1))),
                f4.trans (ic4.trans (d3.trans (ic2.trans ic1))),
                f5.trans (ml4.trans (e3.trans (ml2.trans ml1))),
                f6.trans (mc4.trans (g3.trans (mc2.trans mc1))), ?_, ?_, ?_, ?_, ?_⟩
              · intro k' hkB hkt
                have hkD : k' ≠ ("tail", ridPage nr, i + NUM_INTERNAL_COLUMN) := by
                  intro hh
                  exact hkt (by rw [hh])
                have hkT : k' ≠ ("tail", ridPage nr, SCHEMA_ENCODING_COLUMN) := by
                  intro hh
                  exact hkt (by rw [hh])
                rw [fB k' hkB hkt, hpg4 _ hkD, pg3, hpg2 _ hkT, hpg1 _ hkB]
              · intro bb hb
                refine fCb bb ?_
                rw [hs4b, Nat.testBit_or, hb, Bool.true_or]
              · intro bb hb
                refine fCt bb ?_
                rw [hs4t, Nat.testBit_or, hb, Bool.true_or]
              · intro c h4 hlt
                have hkD : (("tail", ridPage nr, c) : PKey) ≠
                    ("tail", ridPage nr, i + NUM_INTERNAL_COLUMN) :=
                  pkey_ne_of_col (by simp [NUM_INTERNAL_COLUMN]; omega)
                have hkT : (("tail", ridPage nr, c) : PKey) ≠
                    ("tail", ridPage nr, SCHEMA_ENCODING_COLUMN) :=
                  pkey_ne_of_col (by simp [SCHEMA_ENCODING_COLUMN]; omega)
                have hkB : (("tail", ridPage nr, c) : PKey) ≠
                    ("base", ridPage r, SCHEMA_ENCODING_COLUMN) :=
                  pkey_ne_of_fst (by decide)
                rw [fE c h4 (by omega), hpg4 _ hkD, pg3, hpg2 _ hkT, hpg1 _ hkB]
              · intro hij hget
                rcases Nat.lt_or_ge i j with hij' | hij'
                · rw [show j - i = (j - (i + 1)) + 1 from by omega] at hget
                  simp only [List.get?_cons_succ] at hget
                  exact fF (by omega) hget
                · have hij2 : i = j := by omega
                  subst hij2
                  rw [Nat.sub_self] at hget
                  simp only [List.get?_cons_zero, Option.some.injEq] at hget
                  rw [hget] at hpq
                  have hbval : b = (v.emod (2 ^ 64)).toNat := (packq_ok_val v b hpq).1
                  refine ⟨?_, ?_, ?_⟩
                  · have hpres : st'.pages ("tail", ridPage nr, i + NUM_INTERNAL_COLUMN) =
                        s4.pages ("tail", ridPage nr, i + NUM_INTERNAL_COLUMN) :=
                      fE (i + NUM_INTERNAL_COLUMN)
                        (by simp only [NUM_INTERNAL_COLUMN]; omega)
                        (by simp only [NUM_INTERNAL_COLUMN]; omega)
                    unfold entryWord
                    rw [hpres, hval4 b rfl]
                    exact hbval
                  · refine fCb i ?_
                    rw [hs4b, Nat.testBit_or, Nat.testBit_two_pow_self, Bool.or_true]
                  · refine fCt i ?_
                    rw [hs4t, Nat.testBit_or, Nat.testBit_two_pow_self, Bool.or_true]

/-! ## C1: the select path on the post-update state -/

theorem get?_replicate_append_self (j : Nat) (x : Option Int) (L : List (Option Int)) :
    (List.replicate j (none : Option Int) ++ x :: L).get? j = some x := by
  induction j with
  | zero => rfl
  | succ m ih =>
    rw [List.replicate_succ, List.cons_append]
    simp only [List.get?_cons_succ]
    exact ih

/-- `Table.select_feature` on a state where the base record's schema bit is
set, the base page's lineage is strictly below the base record's
indirection RID, and that RID's tail record carries the bit and the packed
value: the read walks to the tail record and decodes the value. -/
theorem Table.select_feature_visible (st' : EngineState) (r nr j fk : Nat) (v : Int)
    (h8r : ridOff r % WORDSIZE = 0) (hler : ridOff r + WORDSIZE ≤ PAGESIZE)
    (h8n : ridOff nr % WORDSIZE = 0) (hlen2 : ridOff nr + WORDSIZE ≤ PAGESIZE)
    (hind : entryWord st' "base" r INDIRECTION_COLUMN = nr)
    (hbit : (entryWord st' "base" r SCHEMA_ENCODING_COLUMN).testBit j = true)
    (hlin : ridLt ((st'.pages ("base", ridPage r, j + NUM_INTERNAL_COLUMN)).words 1) nr)
    (htbit : (entryWord st' "tail" nr SCHEMA_ENCODING_COLUMN).testBit j = true)
    (htval : entryWord st' "tail" nr (j + NUM_INTERNAL_COLUMN) = (v.emod (2 ^ 64)).toNat)
    (hv1 : -(2 ^ 63) ≤ v) (hv2 : v < 2 ^ 63) :
    Table.select_feature (fk + 1) r j st' = (.ok v, st') := by
  have hutd : Table.base_up_to_date r j st' = (.ok false, st') := by
    unfold Table.base_up_to_date
    rw [M.bind_def]
    rw [show Cache.get_page "base" (ridPage r) (j + NUM_INTERNAL_COLUMN) st' =
      (.ok (st'.pages ("base", ridPage r, j + NUM_INTERNAL_COLUMN)), st') from rfl]
    rw [M.step_ok, M.bind_def, M.liftE_def,
      readField_ok _ WORDSIZE (by decide) (by decide), M.step_ok, M.bind_def,
      Cache.get_entry_eq, readField_ok _ _ h8r hler, M.step_ok]
    rw [show (st'.pages ("base", ridPage r, INDIRECTION_COLUMN)).words
      (ridOff r / WORDSIZE) = nr from hind]
    rw [show (WORDSIZE / WORDSIZE : Nat) = 1 from by decide]
    rcases hlin with hlt | ⟨hpe, hlt⟩
    · rw [M.ite_app, if_neg (by omega), M.ite_app, if_neg (by omega), M.pure_def]
    · rw [M.ite_app, if_neg (by omega), M.ite_app, if_pos hpe]
      have hd : decide (ridOff ((st'.pages ("base", ridPage r,
          j + NUM_INTERNAL_COLUMN)).words 1) > ridOff nr) = false :=
        decide_eq_false (by omega)
      rw [M.pure_def, hd]
  unfold Table.select_feature
  rw [M.bind_def, Cache.get_entry_eq, readField_ok _ _ h8r hler, M.step_ok, M.bind_def,
    hutd, M.step_ok]
  rw [M.ite_app, if_neg ?hcond]
  case hcond =>
    simp only [Bool.false_or, decide_eq_true_eq]
    unfold Table.is_updated
    exact testBit_and_two_pow_ne_zero _ j hbit
  rw [M.bind_def, Cache.get_entry_eq, readField_ok _ _ h8r hler, M.step_ok]
  rw [show (st'.pages ("base", ridPage r, INDIRECTION_COLUMN)).words
    (ridOff r / WORDSIZE) = nr from hind]
  simp only [Table.walk_chain]
  rw [Cache.get_entry_eq, readField_ok _ _ h8n hlen2, M.step_ok]
  rw [if_pos ?htb]
  case htb =>
    unfold Table.is_updated
    exact testBit_and_two_pow_ne_zero _ j htbit
  rw [Cache.get_entry_eq, readField_ok _ _ h8n hlen2, M.step_ok]
  rw [show (st'.pages ("tail", ridPage nr, j + NUM_INTERNAL_COLUMN)).words
    (ridOff nr / WORDSIZE) = (v.emod (2 ^ 64)).toNat from htval]
  rw [unpackq_emod v hv1 hv2]

/-- `Query.select` with a one-column mask on a state whose primary index
maps the key to the single base RID `r`: one record comes back, with the
selected feature's value in place and `None` elsewhere. -/
theorem Query.select_visible (st' : EngineState) (fk j n r : Nat) (v k : Int)
    (m : List (Option Int × List Nat))
    (hn : st'.num_columns = n) (hj : j < n)
    (hcre0 : st'.index_created.get? 0 = some true)
    (hm : st'.map_list.get? 0 = some m)
    (hfind : assocFind m (some k) = some [r])
    (hfeat : Table.select_feature (fk + 1) r j st' = (.ok v, st')) :
    Query.select (fk + 1) (some k) 0 (maskOnly j n) st' =
      (.ok [⟨r, some k,
        List.replicate j (none : Option Int) ++ some v :: List.replicate (n - j - 1) none,
        "base"⟩], st') := by
  unfold Query.select
  rw [M.bind_def, M.get, M.step_ok, M.ite_app,
    if_neg (by rw [maskOnly_length, hn]; exact fun hh => hh rfl)]
  rw [M.bind_def, Index.locate_found st' (some k) 0 m [r] hcre0 hm hfind (by simp),
    M.step_ok]
  simp only [Query.select_rids]
  rw [maskOnly_eq n j hj]
  rw [Query.select_cols_onehot (fk + 1) r v j (n - j - 1) 0 st'
    (by rw [Nat.zero_add]; exact hfeat)]
  rw [M.step_ok, M.step_ok]

/-- `Table.update_record` never fails before its per-column loop: the
optional merge-counter append, the indirection read and the rewiring
writes all succeed, so the call reduces to `update_cols` on a state whose
base record's indirection now holds the new tail RID, all other base pages
(and the index and counters) untouched. -/
theorem M.modify_def (f : EngineState → EngineState) (st : EngineState) :
    M.modify f st = (.ok (), f st) := rfl

theorem Table.update_record_decomp (r : Nat) (rec : Record) (st : EngineState)
    (hr8 : ridOff r % WORDSIZE = 0) (hrle : ridOff r + WORDSIZE ≤ PAGESIZE)
    (h8n : ridOff rec.rid % WORDSIZE = 0) :
    ∃ stB, Table.update_record r rec st =
        Table.update_cols r rec.rid 0 rec.columns stB ∧
      stB.num_columns = st.num_columns ∧ stB.index_created = st.index_created ∧
      stB.map_list = st.map_list ∧
      entryWord stB "base" r INDIRECTION_COLUMN = rec.rid ∧
      (∀ k' : PKey, k' ≠ ("base", ridPage r, INDIRECTION_COLUMN) → k'.1 ≠ "tail" →
        stB.pages k' = st.pages k') := by
  by_cases hw8 : ridOff rec.rid = WORDSIZE
  · by_cases hiv : (st.pages ("base", ridPage r, INDIRECTION_COLUMN)).words
        (ridOff r / WORDSIZE) = INVALID_RID
    · obtain ⟨sB, heB, nB, kB, lB, icB, mlB, mqB, mcB, hpgB, hwB, hvalB, _⟩ :=
        set_entry_effect "base" r INDIRECTION_COLUMN (some rec.rid) false
          { st with merge_counter := st.merge_counter ++ [1] } hr8
      refine ⟨sB, ?_, nB, icB, mlB, ?_, ?_⟩
      · unfold Table.update_record
        dsimp only
        rw [M.ite_app, if_pos hw8, M.bind_def, M.modify_def, M.step_ok, M.bind_def,
          Cache.get_entry_eq, readField_ok _ _ hr8 hrle, M.step_ok]
        dsimp only
        rw [M.ite_app, if_pos hiv, M.bind_def, heB, M.step_ok]
      · unfold entryWord
        exact hvalB rec.rid rfl
      · intro k' hk1 hkt
        rw [hpgB k' hk1]
    · obtain ⟨sT, heT, nT, kT, lT, icT, mlT, mqT, mcT, hpgT2, _, _, _⟩ :=
        set_entry_effect "tail" rec.rid INDIRECTION_COLUMN
          (some ((st.pages ("base", ridPage r, INDIRECTION_COLUMN)).words
            (ridOff r / WORDSIZE))) false
          { st with merge_counter := st.merge_counter ++ [1] } h8n
      obtain ⟨sB, heB, nB, kB, lB, icB, mlB, mqB, mcB, hpgB, hwB, hvalB, _⟩ :=
        set_entry_effect "base" r INDIRECTION_COLUMN (some rec.rid) false sT hr8
      refine ⟨sB, ?_, nB.trans nT, icB.trans icT, mlB.trans mlT, ?_, ?_⟩
      · unfold Table.update_record
        dsimp only
        rw [M.ite_app, if_pos hw8, M.bind_def, M.modify_def, M.step_ok, M.bind_def,
          Cache.get_entry_eq, readField_ok _ _ hr8 hrle, M.step_ok]
        dsimp only
        rw [M.ite_app, if_neg hiv, M.bind_def, heT, M.step_ok, M.bind_def, heB,
          M.step_ok]
      · unfold entryWord
        exact hvalB rec.rid rfl
      · intro k' hk1 hkt
        rw [hpgB k' hk1, hpgT2 k' (fun hh => hkt (by rw [hh]))]
  · by_cases hiv : (st.pages ("base", ridPage r, INDIRECTION_COLUMN)).words
        (ridOff r / WORDSIZE) = INVALID_RID
    · obtain ⟨sB, heB, nB, kB, lB, icB, mlB, mqB, mcB, hpgB, hwB, hvalB, _⟩ :=
        set_entry_effect "base" r INDIRECTION_COLUMN (some rec.rid) false st hr8
      refine ⟨sB, ?_, nB, icB, mlB, ?_, ?_⟩
      · unfold Table.update_record
        dsimp only
        rw [M.ite_app, if_neg hw8, M.bind_def, M.pure_def, M.step_ok, M.bind_def,
          Cache.get_entry_eq, readField_ok _ _ hr8 hrle, M.step_ok]
        rw [M.ite_app, if_pos hiv, M.bind_def, heB, M.step_ok]
      · unfold entryWord
        exact hvalB rec.rid rfl
      · intro k' hk1 hkt
        rw [hpgB k' hk1]
    · obtain ⟨sT, heT, nT, kT, lT, icT, mlT, mqT, mcT, hpgT2, _, _, _⟩ :=
        set_entry_effect "tail" rec.rid INDIRECTION_COLUMN
          (some ((st.pages ("base", ridPage r, INDIRECTION_COLUMN)).words
            (ridOff r / WORDSIZE))) false st h8n
      obtain ⟨sB, heB, nB, kB, lB, icB, mlB, mqB, mcB, hpgB, hwB, hvalB, _⟩ :=
        set_entry_effect "base" r INDIRECTION_COLUMN (some rec.rid) false sT hr8
      refine ⟨sB, ?_, nB.trans nT, icB.trans icT, mlB.trans mlT, ?_, ?_⟩
      · unfold Table.update_record
        dsimp only
        rw [M.ite_app, if_neg hw8, M.bind_def, M.pure_def, M.step_ok, M.bind_def,
          Cache.get_entry_eq, readField_ok _ _ hr8 hrle, M.step_ok]
        rw [M.ite_app, if_neg hiv, M.bind_def, heT, M.step_ok, M.bind_def, heB,
          M.step_ok]
      · unfold entryWord
        exact hvalB rec.rid rfl
      · intro k' hk1 hkt
        rw [hpgB k' hk1, hpgT2 k' (fun hh => hkt (by rw [hh]))]

/-! ## C4 groundwork: the base-direct read path and the appended tail record -/

/-- `Table.base_up_to_date` on an aligned, in-bounds base RID always
succeeds without touching the state (its reads cannot fail). -/
theorem Table.base_up_to_date_ok (r i : Nat) (st : EngineState)
    (hr8 : ridOff r % WORDSIZE = 0) (hrle : ridOff r + WORDSIZE ≤ PAGESIZE) :
    ∃ b, Table.base_up_to_date r i st = (.ok b, st) := by
  unfold Table.base_up_to_date
  rw [M.bind_def]
  rw [show Cache.get_page "base" (ridPage r) (i + NUM_INTERNAL_COLUMN) st =
    (.ok (st.pages ("base", ridPage r, i + NUM_INTERNAL_COLUMN)), st) from rfl]
  rw [M.step_ok, M.bind_def, M.liftE_def,
    readField_ok _ WORDSIZE (by decide) (by decide), M.step_ok, M.bind_def,
    Cache.get_entry_eq, readField_ok _ _ hr8 hrle, M.step_ok]
  rw [M.ite_app]
  split
  · exact ⟨true, rfl⟩
  · rw [M.ite_app]
    split
    · exact ⟨_, rfl⟩
    · exact ⟨false, rfl⟩

/-- `Table.select_feature` on a base record whose schema bit for the
feature is clear reads the base page in place and cannot fail. -/
theorem Table.select_feature_base (fuel r i : Nat) (st : EngineState)
    (hr8 : ridOff r % WORDSIZE = 0) (hrle : ridOff r + WORDSIZE ≤ PAGESIZE)
    (hbit : Table.is_updated (entryWord st "base" r SCHEMA_ENCODING_COLUMN) i = 0) :
    Table.select_feature fuel r i st =
      (.ok (unpackq (entryWord st "base" r (i + NUM_INTERNAL_COLUMN))), st) := by
  obtain ⟨b, hutd⟩ := Table.base_up_to_date_ok r i st hr8 hrle
  unfold Table.select_feature
  rw [M.bind_def, Cache.get_entry_eq, readField_ok _ _ hr8 hrle, M.step_ok, M.bind_def,
    hutd, M.step_ok]
  rw [M.ite_app, if_pos ?hcond]
  case hcond =>
    show (b || decide (Table.is_updated
      (entryWord st "base" r SCHEMA_ENCODING_COLUMN) i = 0)) = true
    rw [decide_eq_true hbit, Bool.or_true]
  rw [M.bind_def, Cache.get_entry_eq, readField_ok _ _ hr8 hrle, M.step_ok, M.pure_def]
  rfl

/-- `Query.select_cols` with the all-ones mask on a base record whose whole
schema word is zero: every column reads the base page in place, and the
head of the result decodes the first selected column. -/
theorem Query.select_cols_base (fuel r : Nat) (st : EngineState)
    (hr8 : ridOff r % WORDSIZE = 0) (hrle : ridOff r + WORDSIZE ≤ PAGESIZE)
    (hsch : entryWord st "base" r SCHEMA_ENCODING_COLUMN = 0) :
    ∀ (n i : Nat), ∃ res,
      Query.select_cols fuel r i (List.replicate n 1) st = (.ok res, st) ∧
      (0 < n → res.get? 0 =
        some (some (unpackq (entryWord st "base" r (i + NUM_INTERNAL_COLUMN))))) := by
  intro n
  induction n with
  | zero =>
    intro i
    exact ⟨[], rfl, fun h => absurd h (by omega)⟩
  | succ m ih =>
    intro i
    obtain ⟨res2, hres2, _⟩ := ih (i + 1)
    refine ⟨some (unpackq (entryWord st "base" r (i + NUM_INTERNAL_COLUMN))) :: res2,
      ?_, fun _ => rfl⟩
    rw [List.replicate_succ]
    simp only [Query.select_cols]
    rw [if_neg (by decide)]
    rw [Table.select_feature_base fuel r i st hr8 hrle ?hb, M.step_ok, hres2, M.step_ok]
    case hb =>
      rw [hsch]
      unfold Table.is_updated
      exact Nat.zero_and _

/-- `Table.insert_cols` starting at column `i` never touches page columns
below `i + NUM_INTERNAL_COLUMN`. -/
theorem Table.insert_cols_keep (rt : String) (rid : Nat)
    (h8 : ridOff rid % WORDSIZE = 0) :
    ∀ (cols : List (Option Int)) (i : Nat) (st st' : EngineState),
      Table.insert_cols rt rid i cols st = (.ok (), st') →
      ∀ c, c < i + NUM_INTERNAL_COLUMN →
        st'.pages (rt, ridPage rid, c) = st.pages (rt, ridPage rid, c) := by
  intro cols
  induction cols with
  | nil =>
    intro i st st' heq c hc
    have h1 : st' = st := by
      simp only [Table.insert_cols, Prod.mk.injEq] at heq
      exact heq.2.symm
    rw [h1]
  | cons d rest ih =>
    intro i st st' heq c hc
    cases d with
    | none =>
      simp only [Table.insert_cols] at heq
      obtain ⟨s1, he1, _, _, _, _, _, _, _, hpg1, _, _, _⟩ :=
        set_entry_effect rt rid (i + NUM_INTERNAL_COLUMN) none true st h8
      rw [he1, M.step_ok] at heq
      rw [ih (i + 1) s1 st' heq c (by omega)]
      exact hpg1 _ (pkey_ne_of_col (by omega))
    | some v =>
      simp only [Table.insert_cols] at heq
      rcases hpq : packq v with e | b
      · rw [M.liftE_def, hpq, M.step_error] at heq
        simp at heq
      · rw [M.liftE_def, hpq, M.step_ok] at heq
        obtain ⟨s1, he1, _, _, _, _, _, _, _, hpg1, _, _, _⟩ :=
          set_entry_effect rt rid (i + NUM_INTERNAL_COLUMN) (some b) true st h8
        rw [he1, M.step_ok] at heq
        rw [ih (i + 1) s1 st' heq c (by omega)]
        exact hpg1 _ (pkey_ne_of_col (by omega))

/-- `Table.insert_cols` stores the packed value of every non-null column at
the record's offset in the matching feature column. -/
theorem Table.insert_cols_vals (rt : String) (rid : Nat)
    (h8 : ridOff rid % WORDSIZE = 0) :
    ∀ (cols : List (Option Int)) (i : Nat) (st st' : EngineState),
      Table.insert_cols rt rid i cols st = (.ok (), st') →
      ∀ (j : Nat) (v : Int), cols.get? j = some (some v) →
        entryWord st' rt rid (i + j + NUM_INTERNAL_COLUMN) =
          (v.emod (2 ^ 64)).toNat := by
  intro cols
  induction cols with
  | nil =>
    intro i st st' heq j v hj
    exact absurd hj (by simp)
  | cons d rest ih =>
    intro i st st' heq j v hj
    cases j with
    | zero =>
      have hd : d = some v := by simpa using hj
      subst hd
      simp only [Table.insert_cols] at heq
      rcases hpq : packq v with e | b
      · rw [M.liftE_def, hpq, M.step_error] at heq
        simp at heq
      · rw [M.liftE_def, hpq, M.step_ok] at heq
        obtain ⟨s1, he1, _, _, _, _, _, _, _, _, _, hval1, _⟩ :=
          set_entry_effect rt rid (i + NUM_INTERNAL_COLUMN) (some b) true st h8
        rw [he1, M.step_ok] at heq
        unfold entryWord
        rw [show i + 0 + NUM_INTERNAL_COLUMN = i + NUM_INTERNAL_COLUMN from by omega]
        rw [Table.insert_cols_keep rt rid h8 rest (i + 1) s1 st' heq
          (i + NUM_INTERNAL_COLUMN) (by omega)]
        rw [hval1 b rfl]
        exact (packq_ok_val v b hpq).1
    | succ j2 =>
      have hj2 : rest.get? j2 = some (some v) := by simpa using hj
      rw [show i + (j2 + 1) + NUM_INTERNAL_COLUMN =
        i + 1 + j2 + NUM_INTERNAL_COLUMN from by omega]
      cases d with
      | none =>
        simp only [Table.insert_cols] at heq
        obtain ⟨s1, he1, _, _, _, _, _, _, _, _, _, _, _⟩ :=
          set_entry_effect rt rid (i + NUM_INTERNAL_COLUMN) none true st h8
        rw [he1, M.step_ok] at heq
        exact ih (i + 1) s1 st' heq j2 v hj2
      | some w =>
        simp only [Table.insert_cols] at heq
        rcases hpq : packq w with e | b
        · rw [M.liftE_def, hpq, M.step_error] at heq
          simp at heq
        · rw [M.liftE_def, hpq, M.step_ok] at heq
          obtain ⟨s1, he1, _, _, _, _, _, _, _, _, _, _, _⟩ :=
            set_entry_effect rt rid (i + NUM_INTERNAL_COLUMN) (some b) true st h8
          rw [he1, M.step_ok] at heq
          exact ih (i + 1) s1 st' heq j2 v hj2

/-- `Table.insert_record` stores the record's RID at the RID column and the
packed value of every non-null column at the matching feature column. -/
theorem Table.insert_record_content (rec : Record) (st st' : EngineState)
    (h8 : ridOff rec.rid % WORDSIZE = 0)
    (heq : Table.insert_record rec st = (.ok (), st')) :
    entryWord st' rec.range_type rec.rid RID_COLUMN = rec.rid ∧
    ∀ (j : Nat) (v : Int), rec.columns.get? j = some (some v) →
      entryWord st' rec.range_type rec.rid (j + NUM_INTERNAL_COLUMN) =
        (v.emod (2 ^ 64)).toNat := by
  unfold Table.insert_record at heq
  rw [M.bind_def] at heq
  obtain ⟨s1, he1, _, _, _, _, _, _, _, hpg1, _, hval1, _⟩ :=
    set_entry_effect rec.range_type rec.rid RID_COLUMN (some rec.rid) true st h8
  rw [he1, M.step_ok, M.bind_def] at heq
  obtain ⟨s2, he2, _, _, _, _, _, _, _, hpg2, _, _, _⟩ :=
    set_entry_effect rec.range_type rec.rid INDIRECTION_COLUMN (some INVALID_RID)
      true s1 h8
  rw [he2, M.step_ok, M.bind_def] at heq
  obtain ⟨s3, he3, _, _, _, _, _, _, _, hpg3, _, _, _⟩ :=
    set_entry_effect rec.range_type rec.rid SCHEMA_ENCODING_COLUMN none true s2 h8
  rw [he3, M.step_ok, M.bind_def] at heq
  obtain ⟨s4, he4, _, _, _, _, _, _, _, hpg4, _, _, _⟩ :=
    set_entry_effect rec.range_type rec.rid TIMESTAMP_COLUMN (some 0) true s3 h8
  rw [he4, M.step_ok] at heq
  constructor
  · unfold entryWord
    rw [Table.insert_cols_keep rec.range_type rec.rid h8 rec.columns 0 s4 st' heq
      RID_COLUMN (by decide)]
    rw [hpg4 _ (pkey_ne_of_col (by decide)), hpg3 _ (pkey_ne_of_col (by decide)),
      hpg2 _ (pkey_ne_of_col (by decide))]
    exact hval1 rec.rid rfl
  · intro j v hjv
    have hres := Table.insert_cols_vals rec.range_type rec.rid h8 rec.columns
      0 s4 st' heq j v hjv
    rw [show j + NUM_INTERNAL_COLUMN = 0 + j + NUM_INTERNAL_COLUMN from by omega]
    exact hres

/-- Update half of the duplicate-key analysis: `Query.update` moving key `k`
to a new primary key `k2` that already exists raises DuplicateKey from
`map_change` — but only after the tail record was appended, so the failure
state keeps the advanced tail allocator and the appended record (RID word
and packed column values in place) while the index maps, the base allocator
and all non-tail pages survive. -/
theorem update_duplicate_key_partial (st : EngineState) (fuel : Nat) (k k2 : Int)
    (vs : List (Option Int)) (r : Nat) (m : List (Option Int × List Nat))
    (hn : vs.length = st.num_columns)
    (h0 : st.key_index = 0)
    (hcre0 : st.index_created.get? 0 = some true)
    (hmap : st.map_list.get? 0 = some m)
    (hfind : assocFind m (some k) = some [r])
    (hr8 : ridOff r % WORDSIZE = 0) (hrle : ridOff r + WORDSIZE ≤ PAGESIZE)
    (hsch : entryWord st "base" r SCHEMA_ENCODING_COLUMN = 0)
    (hkey : unpackq (entryWord st "base" r NUM_INTERNAL_COLUMN) = k)
    (h8T : ridOff (st.last_rid "tail") % WORDSIZE = 0)
    (hleT : ridOff (st.last_rid "tail") ≤ PAGESIZE - WORDSIZE)
    (hpgT : ridPage (st.last_rid "tail") + 1 < 2 ^ 32)
    (hv0 : vs.get? 0 = some (some k2))
    (hne : k2 ≠ k)
    (hdup : (assocFind m (some k2)).isSome = true)
    (hvals : PackableCols vs) :
    ∃ st2, Query.update fuel (some k) vs st =
        (.error "Cannot update to primary key that already exists", st2) ∧
      st2.map_list = st.map_list ∧ st2.index_created = st.index_created ∧
      st2.merge_queue_matrix = st.merge_queue_matrix ∧
      st2.merge_counter = st.merge_counter ∧
      st2.last_rid "base" = st.last_rid "base" ∧
      ridLt (st.last_rid "tail") (st2.last_rid "tail") ∧
      (∀ k' : PKey, k'.1 ≠ "tail" → st2.pages k' = st.pages k') ∧
      entryWord st2 "tail" (st2.last_rid "tail") RID_COLUMN = st2.last_rid "tail" ∧
      ∀ (j : Nat) (w : Int), vs.get? j = some (some w) →
        entryWord st2 "tail" (st2.last_rid "tail") (j + NUM_INTERNAL_COLUMN) =
          (w.emod (2 ^ 64)).toNat := by
  have hn0 : 0 < st.num_columns := by
    rw [← hn]
    cases vs with
    | nil => exact absurd hv0 (by simp)
    | cons a l => simp
  obtain ⟨nr, hgnr, hltT, hnr8, hnrle, hnrge, hnrpg⟩ :=
    table_get_new_rid_tail_spec st h8T hleT hpgT
  obtain ⟨pg, hins⟩ := Table.insert_record_spec ⟨nr, some k, vs, "tail"⟩
    { st with last_rid := fupd st.last_rid "tail" nr } hnr8 hvals
  obtain ⟨stI, hins2⟩ : ∃ s2, Table.insert_record ⟨nr, some k, vs, "tail"⟩
      { st with last_rid := fupd st.last_rid "tail" nr } = (.ok (), s2) := ⟨_, hins⟩
  obtain ⟨i1, i2, i3, i4, i5, i6, i7, iP⟩ := Table.insert_record_post
    ⟨nr, some k, vs, "tail"⟩ { st with last_rid := fupd st.last_rid "tail" nr } stI
    hnr8 hins2
  obtain ⟨hrid, hvalsI⟩ := Table.insert_record_content
    ⟨nr, some k, vs, "tail"⟩ { st with last_rid := fupd st.last_rid "tail" nr } stI
    hnr8 hins2
  have hLrid : stI.last_rid = fupd st.last_rid "tail" nr := i3
  have hLtail : stI.last_rid "tail" = nr := by
    rw [hLrid]
    exact fupd_self _ _ _
  have hLbase : stI.last_rid "base" = st.last_rid "base" := by
    rw [hLrid]
    exact fupd_other _ _ _ _ (by decide)
  have hnI : stI.num_columns = st.num_columns := i1
  have hkI : stI.key_index = st.key_index := i2
  have hicI : stI.index_created = st.index_created := i4
  have hmlI : stI.map_list = st.map_list := i5
  have hpgBase : ∀ c, stI.pages ("base", ridPage r, c) =
      st.pages ("base", ridPage r, c) := by
    intro c
    exact iP ("base", ridPage r, c)
      (fun c2 => pkey_ne_of_fst (show ("base" : String) ≠ "tail" from by decide))
  have hschI : entryWord stI "base" r SCHEMA_ENCODING_COLUMN = 0 := by
    unfold entryWord
    rw [hpgBase SCHEMA_ENCODING_COLUMN]
    exact hsch
  have hkeyI : unpackq (entryWord stI "base" r (0 + NUM_INTERNAL_COLUMN)) = k := by
    unfold entryWord
    rw [show (0 + NUM_INTERNAL_COLUMN : Nat) = NUM_INTERNAL_COLUMN from by omega]
    rw [hpgBase NUM_INTERNAL_COLUMN]
    exact hkey
  obtain ⟨res, hcols, hhead⟩ := Query.select_cols_base fuel r stI hr8 hrle hschI
    st.num_columns 0
  have hres0 : res.get? 0 = some (some k) := by
    rw [hhead hn0, hkeyI]
  have hsel : Query.select fuel (some k) 0 (List.replicate st.num_columns 1) stI =
      (.ok [⟨r, some k, res, "base"⟩], stI) := by
    unfold Query.select
    rw [M.bind_def, M.get, M.step_ok, M.ite_app,
      if_neg (by rw [List.length_replicate, hnI]; exact fun hh => hh rfl)]
    rw [M.bind_def, Index.locate_found stI (some k) 0 m [r]
      (by rw [hicI]; exact hcre0) (by rw [hmlI]; exact hmap) hfind (by simp),
      M.step_ok]
    simp only [Query.select_rids]
    rw [hcols, M.step_ok, M.step_ok]
  obtain ⟨nm, hnm⟩ : ∃ nm, st.num_columns = nm + 1 := ⟨st.num_columns - 1, by omega⟩
  have hmc : Index.map_change r res vs stI =
      (.error "Cannot update to primary key that already exists", stI) := by
    unfold Index.map_change
    rw [M.bind_def, M.get, M.step_ok]
    rw [show stI.num_columns = nm + 1 from by rw [hnI]; exact hnm]
    simp only [Index.map_change_loop]
    simp only [show stI.index_created.get? 0 = some true from
      by rw [hicI]; exact hcre0]
    rw [if_neg (by decide)]
    simp only [hres0, hv0]
    simp only [show stI.map_list.get? 0 = some m from by rw [hmlI]; exact hmap]
    simp only [hfind, Option.isNone_some]
    rw [if_neg (by decide)]
    rw [if_neg ?hno]
    case hno =>
      rintro (hh | hh)
      · exact Option.noConfusion hh
      · exact hne (Option.some.inj hh)
    rw [if_pos ?hpk]
    case hpk =>
      show (0 : Nat) = stI.key_index
      rw [hkI, h0]
    rw [if_pos hdup]
  have key : Query.update fuel (some k) vs st =
      (.error "Cannot update to primary key that already exists", stI) := by
    unfold Query.update
    rw [M.bind_def, M.get, M.step_ok, M.ite_app, if_neg (fun hh => hh hn)]
    rw [M.bind_def, hgnr, M.step_ok]
    rw [M.bind_def, hins2, M.step_ok]
    rw [M.bind_def, Index.locate_found stI (some k) 0 m [r]
      (by rw [hicI]; exact hcre0) (by rw [hmlI]; exact hmap) hfind (by simp),
      M.step_ok]
    dsimp only
    rw [M.bind_def, hsel, M.step_ok]
    dsimp only
    rw [M.bind_def, hmc, M.step_error]
  refine ⟨stI, key, hmlI, hicI, i6, i7, hLbase, ?_, ?_, ?_, ?_⟩
  · rw [hLtail]
    exact hltT
  · intro k' hk'
    exact iP k' (fun c hh => hk' (by rw [hh]))
  · rw [hLtail]
    exact hrid
  · intro j w hjw
    rw [hLtail]
    exact hvalsI j w hjw

/-- C4 (amended): duplicate-key rejection is not atomic in either direction.
(1) A duplicate-key insert fails with DuplicateKey and leaves the pages,
every index map and the tail allocator untouched, but the base-RID
allocator has already advanced (and entering a fresh base page may append
empty merge queues).  (2) A duplicate-key update — one whose new
primary-key value already exists — likewise fails with DuplicateKey, but
only after appending its tail record (RID word and packed column values in
place) and advancing the tail allocator; its index maps, base allocator and
non-tail pages are unchanged. -/
theorem duplicate_key_rejected :
    (∀ (st : EngineState) (cols : List (Option Int)) (c0 : Option Int)
      (m : List (Option Int × List Nat)),
      st.key_index = 0 → cols.length = st.num_columns → cols.get? 0 = some c0 →
      st.index_created.get? 0 = some true → st.map_list.get? 0 = some m →
      (assocFind m c0).isSome = true →
      ridOff (st.last_rid "base") % WORDSIZE = 0 →
      ridOff (st.last_rid "base") ≤ PAGESIZE - WORDSIZE →
      ridPage (st.last_rid "base") + 1 < 2 ^ 32 →
      ∃ st2, Query.insert cols st =
          (.error "Cannot update to primary key that already exists", st2) ∧
        st2.pages = st.pages ∧ st2.map_list = st.map_list ∧
        st2.index_created = st.index_created ∧
        st2.merge_counter = st.merge_counter ∧
        st2.last_rid "tail" = st.last_rid "tail" ∧
        st2.last_rid "base" ≠ st.last_rid "base") ∧
    (∀ (st : EngineState) (fuel : Nat) (k k2 : Int) (vs : List (Option Int))
      (r : Nat) (m : List (Option Int × List Nat)),
      vs.length = st.num_columns → st.key_index = 0 →
      st.index_created.get? 0 = some true → st.map_list.get? 0 = some m →
      assocFind m (some k) = some [r] →
      ridOff r % WORDSIZE = 0 → ridOff r + WORDSIZE ≤ PAGESIZE →
      entryWord st "base" r SCHEMA_ENCODING_COLUMN = 0 →
      unpackq (entryWord st "base" r NUM_INTERNAL_COLUMN) = k →
      ridOff (st.last_rid "tail") % WORDSIZE = 0 →
      ridOff (st.last_rid "tail") ≤ PAGESIZE - WORDSIZE →
      ridPage (st.last_rid "tail") + 1 < 2 ^ 32 →
      vs.get? 0 = some (some k2) → k2 ≠ k →
      (assocFind m (some k2)).isSome = true → PackableCols vs →
      ∃ st2, Query.update fuel (some k) vs st =
          (.error "Cannot update to primary key that already exists", st2) ∧
        st2.map_list = st.map_list ∧ st2.index_created = st.index_created ∧
        st2.merge_queue_matrix = st.merge_queue_matrix ∧
        st2.merge_counter = st.merge_counter ∧
        st2.last_rid "base" = st.last_rid "base" ∧
        ridLt (st.last_rid "tail") (st2.last_rid "tail") ∧
        (∀ k' : PKey, k'.1 ≠ "tail" → st2.pages k' = st.pages k') ∧
        entryWord st2 "tail" (st2.last_rid "tail") RID_COLUMN =
          st2.last_rid "tail" ∧
        ∀ (j : Nat) (w : Int), vs.get? j = some (some w) →
          entryWord st2 "tail" (st2.last_rid "tail") (j + NUM_INTERNAL_COLUMN) =
            (w.emod (2 ^ 64)).toNat) :=
  ⟨fun st cols c0 m h0 hlen hc0 hci hm hdup h8 hle hpg =>
    insert_duplicate_key_rejected st cols c0 m h0 hlen hc0 hci hm hdup h8 hle hpg,
   fun st fuel k k2 vs r m hn h0 hcre0 hmap hfind hr8 hrle hsch hkey h8T hleT hpgT
      hv0 hne hdup hvals =>
    update_duplicate_key_partial st fuel k k2 vs r m hn h0 hcre0 hmap hfind hr8
      hrle hsch hkey h8T hleT hpgT hv0 hne hdup hvals⟩

/-- C4 witness: both halves of the amended theorem at concrete inputs —
the duplicate insert of (1, 99) into `stOneRec`, and the update of key 1 of
`stTwoRec` to the already-existing primary key 2. -/
theorem duplicate_key_rejected_witness :
    (∃ st2, Query.insert [some 1, some 99] stOneRec =
        (.error "Cannot update to primary key that already exists", st2) ∧
      st2.pages = stOneRec.pages ∧ st2.map_list = stOneRec.map_list ∧
      st2.index_created = stOneRec.index_created ∧
      st2.merge_counter = stOneRec.merge_counter ∧
      st2.last_rid "tail" = stOneRec.last_rid "tail" ∧
      st2.last_rid "base" ≠ stOneRec.last_rid "base") ∧
    (∃ st2, Query.update 1 (some 1) [some 2, some 20] stTwoRec =
        (.error "Cannot update to primary key that already exists", st2) ∧
      st2.map_list = stTwoRec.map_list ∧ st2.index_created = stTwoRec.index_created ∧
      st2.merge_queue_matrix = stTwoRec.merge_queue_matrix ∧
      st2.merge_counter = stTwoRec.merge_counter ∧
      st2.last_rid "base" = stTwoRec.last_rid "base" ∧
      ridLt (stTwoRec.last_rid "tail") (st2.last_rid "tail") ∧
      (∀ k' : PKey, k'.1 ≠ "tail" → st2.pages k' = stTwoRec.pages k') ∧
      entryWord st2 "tail" (st2.last_rid "tail") RID_COLUMN =
        st2.last_rid "tail" ∧
      ∀ (j : Nat) (w : Int), [some 2, some 20].get? j = some (some w) →
        entryWord st2 "tail" (st2.last_rid "tail") (j + NUM_INTERNAL_COLUMN) =
          (w.emod (2 ^ 64)).toNat) :=
  ⟨duplicate_key_rejected.1 stOneRec [some 1, some 99] (some 1)
      [(some 1, [packII 0 16])]
      (by decide) (by decide) (by decide) (by decide) (by decide) (by decide)
      (by decide) (by decide) (by decide),
   duplicate_key_rejected.2 stTwoRec 1 1 2 [some 2, some 20] (packII 0 16)
      [(some 1, [packII 0 16]), (some 2, [packII 0 24])]
      (by decide) (by decide) (by decide) (by decide) (by decide) (by decide)
      (by decide) (by decide) (by decide) (by decide) (by decide) (by decide)
      (by decide) (by decide) (by decide) (by decide)⟩

/-- C1: update visibility.  On a table keyed on column 0 whose only index
is the primary one, with the key's bucket holding the single base RID `r`
(aligned, in bounds, its feature page's lineage at most the last allocated
tail RID) and a well-formed tail allocator: after a successful
`Query.update(k, …)` writing a non-null value `v` for user column `j`
(and leaving the key column null), `Query.select(k, 0, mask)` with only
column `j` selected returns exactly one record whose column `j` is `v` —
regardless of how many updates on `k` happened before, since the new tail
record is appended at the head of the indirection chain and the walk stops
there. -/
theorem update_then_select_visible
    (st st' : EngineState) (fuel fk j : Nat) (k v : Int)
    (vs : List (Option Int)) (r : Nat) (m : List (Option Int × List Nat))
    (hn : vs.length = st.num_columns)
    (hcre0 : st.index_created.get? 0 = some true)
    (hcre : ∀ f, f < st.num_columns → f ≠ 0 → st.index_created.get? f = some false)
    (hmap : st.map_list.get? 0 = some m)
    (hfind : assocFind m (some k) = some [r])
    (hr8 : ridOff r % WORDSIZE = 0) (hrle : ridOff r + WORDSIZE ≤ PAGESIZE)
    (hlin : ridLe ((st.pages ("base", ridPage r, j + NUM_INTERNAL_COLUMN)).words 1)
      (st.last_rid "tail"))
    (h8T : ridOff (st.last_rid "tail") % WORDSIZE = 0)
    (hleT : ridOff (st.last_rid "tail") ≤ PAGESIZE - WORDSIZE)
    (hpgT : ridPage (st.last_rid "tail") + 1 < 2 ^ 32)
    (hj : j < st.num_columns)
    (hv0 : vs.get? 0 = some none)
    (hvj : vs.get? j = some (some v))
    (hvals : PackableCols vs)
    (hupd : Query.update fuel (some k) vs st = (.ok true, st')) :
    ∃ rec, Query.select (fk + 1) (some k) 0 (maskOnly j st.num_columns) st' =
        (.ok [rec], st') ∧ rec.columns.get? j = some (some v) := by
  have hvb : -(2 ^ 63) ≤ v ∧ v < 2 ^ 63 := hvals (some v) (List.get?_mem hvj) v rfl
  unfold Query.update at hupd
  rw [M.bind_def, M.get, M.step_ok, M.ite_app, if_neg (fun hh => hh hn)] at hupd
  rw [M.bind_def] at hupd
  obtain ⟨nr, hgnr, hltT, hnr8, hnrle, hnrge, hnrpg⟩ :=
    table_get_new_rid_tail_spec st h8T hleT hpgT
  rw [hgnr, M.step_ok] at hupd
  have hnrle2 : ridOff nr + WORDSIZE ≤ PAGESIZE := by
    simp only [WORDSIZE, PAGESIZE] at hnrle ⊢
    omega
  rw [M.bind_def] at hupd
  obtain ⟨pg2, hins⟩ := Table.insert_record_spec ⟨nr, some k, vs, "tail"⟩
    { st with last_rid := fupd st.last_rid "tail" nr } hnr8 hvals
  obtain ⟨st2, hins2⟩ : ∃ s2, Table.insert_record ⟨nr, some k, vs, "tail"⟩
      { st with last_rid := fupd st.last_rid "tail" nr } = (.ok (), s2) := ⟨_, hins⟩
  rw [hins2, M.step_ok] at hupd
  obtain ⟨i1, i2, i3, i4, i5, i6, i7, iP⟩ := Table.insert_record_post
    ⟨nr, some k, vs, "tail"⟩ { st with last_rid := fupd st.last_rid "tail" nr } st2
    hnr8 hins2
  have hn2 : st2.num_columns = st.num_columns := i1
  have hic2 : st2.index_created = st.index_created := i4
  have hml2 : st2.map_list = st.map_list := i5
  rw [M.bind_def, Index.locate_found st2 (some k) 0 m [r]
    (by rw [hic2]; exact hcre0) (by rw [hml2]; exact hmap) hfind (by simp),
    M.step_ok] at hupd
  dsimp only at hupd
  suffices htail : ∀ stB : EngineState,
      stB.num_columns = st.num_columns → stB.index_created = st.index_created →
      stB.map_list = st.map_list →
      entryWord stB "base" r INDIRECTION_COLUMN = nr →
      (∀ k' : PKey, k' ≠ ("base", ridPage r, INDIRECTION_COLUMN) → k'.1 ≠ "tail" →
        stB.pages k' = st.pages k') →
      Table.update_cols r nr 0 vs stB = (.ok (), st') →
      ∃ rec, Query.select (fk + 1) (some k) 0 (maskOnly j st.num_columns) st' =
          (.ok [rec], st') ∧ rec.columns.get? j = some (some v) by
    rw [M.bind_def, pair_eta_of_snd (Query.select fuel (some k) 0
      (List.replicate st.num_columns 1) st2) st2
      (Query.select_pure fuel (some k) 0 _ st2)] at hupd
    rcases hselres : (Query.select fuel (some k) 0 (List.replicate st.num_columns 1)
      st2).1 with e | old
    · rw [hselres, M.step_error] at hupd
      simp at hupd
    · rw [hselres, M.step_ok] at hupd
      have hsel2 : Query.select fuel (some k) 0 (List.replicate st.num_columns 1) st2 =
          (.ok old, st2) := by
        rw [pair_eta_of_snd (Query.select fuel (some k) 0
          (List.replicate st.num_columns 1) st2) st2
          (Query.select_pure fuel (some k) 0 _ st2), hselres]
      rcases old with _ | ⟨orec, orest⟩
      · simp [M.throw, M.step_error] at hupd
      · dsimp only at hupd
        have holen : orec.columns.length = st.num_columns := by
          have hh := Query.select_columns_length fuel (some k) 0
            (List.replicate st.num_columns 1) st2 st2 (orec :: orest) hsel2 orec
            (List.mem_cons_self orec orest)
          rw [hh, List.length_replicate]
        rw [M.bind_def] at hupd
        unfold Index.map_change at hupd
        rw [M.bind_def, M.get, M.step_ok] at hupd
        obtain ⟨nm, hnm2⟩ : ∃ nm, st2.num_columns = nm + 1 :=
          ⟨st2.num_columns - 1, by rw [hn2]; omega⟩
        rw [hnm2] at hupd
        simp only [Index.map_change_loop] at hupd
        simp only [show st2.index_created.get? 0 = some true from
          by rw [hic2]; exact hcre0] at hupd
        rw [if_neg (by decide)] at hupd
        rcases hoc : orec.columns with _ | ⟨okey0, otail⟩
        · rw [hoc] at holen
          simp at holen
          omega
        · rw [hoc] at hupd
          simp only [List.get?_cons_zero, hv0] at hupd
          simp only [show st2.map_list.get? 0 = some m from
            by rw [hml2]; exact hmap] at hupd
          rcases haf : assocFind m okey0 with _ | bucket
          · simp [haf, M.step_error] at hupd
          · simp only [haf, Option.isNone_some] at hupd
            rw [if_neg (by decide)] at hupd
            rw [if_pos (Or.inl trivial)] at hupd
            rw [Index.map_change_skip r (okey0 :: otail) vs nm 1 st2 ?hskip] at hupd
            case hskip =>
              intro i hi
              rw [hic2]
              exact hcre (1 + i) (by omega) (by omega)
            rw [M.step_ok] at hupd
            rw [M.bind_def] at hupd
            obtain ⟨stB, hdec, hBn2, hBic2, hBml2, hBind2, hBpg2⟩ :=
              Table.update_record_decomp r ⟨nr, some k, vs, "tail"⟩ st2 hr8 hrle hnr8
            rw [hdec] at hupd
            dsimp only at hupd
            rcases hucres : Table.update_cols r nr 0 vs stB with ⟨x, stX⟩
            rw [hucres] at hupd
            cases x with
            | error e =>
              rw [M.step_error] at hupd
              simp at hupd
            | ok u =>
              cases u
              rw [M.step_ok, M.pure_def] at hupd
              have hX : stX = st' := congrArg Prod.snd hupd
              rw [hX] at hucres
              refine htail stB (hBn2.trans hn2) (hBic2.trans hic2) (hBml2.trans hml2)
                hBind2 ?_ hucres
              intro k' hk1 hkt
              rw [hBpg2 k' hk1 hkt]
              exact iP k' (fun c hh => hkt (by rw [hh]))
  intro stB hBn hBic hBml hBind hBpg hucols
  obtain ⟨f1, f2, f3, f4, f5, f6, fB, fCb, fCt, fE, fF⟩ :=
    Table.update_cols_post r nr j v hr8 hrle hnr8 hnrle2 vs 0 stB st' hucols
  obtain ⟨hFval, hFbase, hFtail⟩ := fF (by omega) (by rw [Nat.sub_zero]; exact hvj)
  have hnc' : st'.num_columns = st.num_columns := f1.trans hBn
  have hic' : st'.index_created = st.index_created := f4.trans hBic
  have hml' : st'.map_list = st.map_list := f5.trans hBml
  have hind' : entryWord st' "base" r INDIRECTION_COLUMN = nr := by
    unfold entryWord
    rw [fB ("base", ridPage r, INDIRECTION_COLUMN)
      (pkey_ne_of_col (by decide)) (show ("base" : String) ≠ "tail" from by decide)]
    exact hBind
  have hlinpage : st'.pages ("base", ridPage r, j + NUM_INTERNAL_COLUMN) =
      st.pages ("base", ridPage r, j + NUM_INTERNAL_COLUMN) := by
    rw [fB ("base", ridPage r, j + NUM_INTERNAL_COLUMN)
      (pkey_ne_of_col (by simp only [SCHEMA_ENCODING_COLUMN, NUM_INTERNAL_COLUMN]; omega))
      (show ("base" : String) ≠ "tail" from by decide)]
    exact hBpg ("base", ridPage r, j + NUM_INTERNAL_COLUMN)
      (pkey_ne_of_col (by simp only [INDIRECTION_COLUMN, NUM_INTERNAL_COLUMN]; omega))
      (show ("base" : String) ≠ "tail" from by decide)
  have hlin' : ridLt ((st'.pages ("base", ridPage r,
      j + NUM_INTERNAL_COLUMN)).words 1) nr := by
    rw [hlinpage]
    exact ridLe_lt_trans _ _ _ hlin hltT
  have hfeat := Table.select_feature_visible st' r nr j fk v hr8 hrle hnr8 hnrle2
    hind' hFbase hlin' hFtail hFval hvb.1 hvb.2
  refine ⟨_, Query.select_visible st' fk j st.num_columns r v k m hnc' hj
    (by rw [hic']; exact hcre0) (by rw [hml']; exact hmap) hfind hfeat, ?_⟩
  exact get?_replicate_append_self j (some v) _

/-- C1 witness: a 2-column table keyed on column 0 holding (1, 10); after
`update(1, [None, 99])`, `select(1, 0, [0, 1])` returns one record whose
column 1 is 99. -/
theorem update_then_select_visible_witness :
    ∃ rec, Query.select 3 (some 1) 0 (maskOnly 1 stOneRec.num_columns)
        (Query.update 5 (some 1) [none, some 99] stOneRec).2 =
        (.ok [rec], (Query.update 5 (some 1) [none, some 99] stOneRec).2) ∧
      rec.columns.get? 1 = some (some 99) := by
  have h1 : (Query.update 5 (some 1) [none, some 99] stOneRec).1 = .ok true := by decide
  exact update_then_select_visible stOneRec
    (Query.update 5 (some 1) [none, some 99] stOneRec).2 5 2 1 1 99 [none, some 99]
    (packII 0 16) [(some 1, [packII 0 16])]
    (by decide) (by decide) (by decide) (by decide) (by decide) (by decide) (by decide)
    (by decide) (by decide) (by decide) (by decide) (by decide) (by decide) (by decide)
    (by decide)
    ((pair_eta_of_snd (Query.update 5 (some 1) [none, some 99] stOneRec)
      (Query.update 5 (some 1) [none, some 99] stOneRec).2 rfl).trans (by rw [h1]))

/-! ## C2: the merge pass -/

/-- C2 counterexample: after one update on the single (still open) base
page, a merge pass does nothing: `merge_range = last_page_index('base') = 0`
excludes the open page, so the non-empty queue of (feature 1, base page 0)
is not drained and the page's lineage word stays 0 — the claim's "drains
each (feature, base-page) queue … and sets the page's lineage" fails. -/
theorem mergePass_skips_open_page_queue :
    (Table.mergePass 0 stUpdated).1 = .ok () ∧
    (Table.mergePass 0 stUpdated).2.merge_queue_matrix.get? 1 =
      some [[(packII 0 16, packII 0 8)], []] ∧
    ((Table.mergePass 0 stUpdated).2.pages
      ("base", 0, 1 + NUM_INTERNAL_COLUMN)).words 1 = 0 := by
  decide

/-- Draining a queue whose pairs all carry base RID `r` into the
last-writer-wins map keeps exactly the newest tail RID, which also becomes
the new lineage. -/
theorem Table.merge_fold_single_aux :
    ∀ (q : List (Nat × Nat)) (r x l : Nat), (∀ e ∈ q, e.1 = r) →
      Table.merge_fold q [(r, x)] l =
        match q.getLast? with
        | none => ([(r, x)], l)
        | some tl => ([(r, tl.2)], tl.2) := by
  intro q
  induction q with
  | nil => intro r x l _; rfl
  | cons e rest ih =>
    intro r x l hq
    obtain ⟨b, t⟩ := e
    have hb : b = r := hq (b, t) (List.mem_cons_self _ _)
    subst hb
    have hset : assocSet [(b, x)] b t = [(b, t)] := by
      unfold assocSet
      rw [if_pos rfl]
    simp only [Table.merge_fold, hset]
    rw [ih b t t (fun e he => hq e (List.mem_cons_of_mem _ he))]
    cases rest with
    | nil => rfl
    | cons e2 rest2 =>
      rw [List.getLast?_cons_cons]
      rcases hgl : (e2 :: rest2).getLast? with _ | tl2
      · exact absurd hgl (by simp)
      · simp only [hgl]

theorem Table.merge_fold_single (q : List (Nat × Nat)) (r l tl : Nat)
    (hq : ∀ e ∈ q, e.1 = r) (hlast : q.getLast? = some (r, tl)) :
    Table.merge_fold q [] l = ([(r, tl)], tl) := by
  cases q with
  | nil => exact absurd hlast (by simp)
  | cons e rest =>
    obtain ⟨b, t⟩ := e
    have hb : b = r := hq (b, t) (List.mem_cons_self _ _)
    subst hb
    have hset : assocSet ([] : List (Nat × Nat)) b t = [(b, t)] := rfl
    simp only [Table.merge_fold, hset]
    rw [Table.merge_fold_single_aux rest b t t (fun e he => hq e (List.mem_cons_of_mem _ he))]
    cases rest with
    | nil =>
      have hh := hlast
      simp only [List.getLast?_singleton, Option.some.injEq, Prod.mk.injEq] at hh
      rw [hh.2]
      rfl
    | cons e2 rest2 =>
      rw [List.getLast?_cons_cons] at hlast
      rw [hlast]

/-- The fold-in loop on a singleton survivor map: read the newest tail's
value for the feature and write it at the base record's offset on the
copied page. -/
theorem Table.merge_writes_single (f r tl : Nat) (pg : PageRec) (st : EngineState)
    (hr8 : ridOff r % WORDSIZE = 0) (h8tl : ridOff tl % WORDSIZE = 0)
    (htlle : ridOff tl + WORDSIZE ≤ PAGESIZE) :
    Table.merge_writes f [(r, tl)] pg st =
      (.ok { pg with words := (fupd pg.words (ridOff r / WORDSIZE)
        (entryWord st "tail" tl (f + NUM_INTERNAL_COLUMN))) }, st) := by
  show (do
    let data_entry ← Cache.get_entry "tail" tl (f + NUM_INTERNAL_COLUMN)
    let pg2 ← M.liftE (writeFieldW pg (ridOff r) data_entry)
    Table.merge_writes f [] pg2) st = _
  rw [M.bind_def, Cache.get_entry_eq, readField_ok _ _ h8tl htlle, M.step_ok,
    M.bind_def, M.liftE_def]
  unfold writeFieldW
  rw [if_pos hr8, M.step_ok]
  rfl

/-- `merge_page` on an empty queue is a no-op. -/
theorem Table.merge_page_skip (f p : Nat) (st : EngineState)
    (row : List (List (Nat × Nat)))
    (hrow : st.merge_queue_matrix.get? f = some row)
    (hcell : row.get? p = some []) :
    Table.merge_page f p st = (.ok (), st) := by
  unfold Table.merge_page
  rw [M.bind_def, M.get, M.step_ok]
  simp only [hrow, Option.some_bind, hcell]
  rw [M.ite_app, if_pos (show (List.length ([] : List (Nat × Nat))) = 0 from rfl)]
  rfl

/-- `merge_page` on base page 0 with a non-empty single-record queue:
the queue cell empties, the lineage word becomes the newest queued tail
RID, and that tail's value lands at the base record's offset; nothing else
changes. -/
theorem Table.merge_page_effect (f r tl : Nat) (st : EngineState)
    (row : List (List (Nat × Nat))) (q : List (Nat × Nat))
    (hrow : st.merge_queue_matrix.get? f = some row)
    (hcell : row.get? 0 = some q)
    (hqr : ∀ e ∈ q, e.1 = r)
    (hlast : q.getLast? = some (r, tl))
    (hr8 : ridOff r % WORDSIZE = 0)
    (h8tl : ridOff tl % WORDSIZE = 0) (htlle : ridOff tl + WORDSIZE ≤ PAGESIZE) :
    Table.merge_page f 0 st = (.ok (), { st with
      merge_queue_matrix := st.merge_queue_matrix.set f (row.set 0 []),
      pages := (fupd st.pages ("base", 0, NUM_INTERNAL_COLUMN + f)
        ({ num_records := (st.pages ("base", 0, NUM_INTERNAL_COLUMN + f)).num_records,
           words := fupd (fupd (st.pages ("base", 0,
               NUM_INTERNAL_COLUMN + f)).words (WORDSIZE / WORDSIZE) tl)
             (ridOff r / WORDSIZE)
             (entryWord st "tail" tl (f + NUM_INTERNAL_COLUMN)) })) }) := by
  have hqne : q ≠ [] := by
    intro hh
    rw [hh] at hlast
    exact absurd hlast (by simp)
  unfold Table.merge_page
  rw [M.bind_def, M.get, M.step_ok]
  simp only [hrow, Option.some_bind, hcell]
  rw [M.ite_app, if_neg (by intro hh; exact hqne (List.length_eq_zero.mp hh))]
  rw [M.bind_def]
  rw [show Cache.get_page "base" 0 (NUM_INTERNAL_COLUMN + f) st =
    (.ok (st.pages ("base", 0, NUM_INTERNAL_COLUMN + f)), st) from rfl]
  rw [M.step_ok, M.bind_def, M.liftE_def,
    readField_ok _ WORDSIZE (by decide) (by decide), M.step_ok]
  rw [Table.merge_fold_single q r _ tl hqr hlast]
  dsimp only
  rw [M.bind_def, M.modify_def, M.step_ok]
  rw [M.bind_def, M.liftE_def]
  unfold writeFieldW
  rw [if_pos (by decide), M.step_ok]
  rw [M.bind_def]
  rw [Table.merge_writes_single f r tl _ _ hr8 h8tl htlle, M.step_ok]
  rw [show ((st.merge_queue_matrix.get? f).getD []) = row from by rw [hrow]; rfl]
  rfl

theorem list_get?_set_ne {α : Type} :
    ∀ (l : List α) (i j : Nat) (a : α), i ≠ j → (l.set i a).get? j = l.get? j := by
  intro l
  induction l with
  | nil => intro i j a h; rfl
  | cons x xs ih =>
    intro i j a h
    cases i with
    | zero =>
      cases j with
      | zero => exact absurd rfl h
      | succ jj => rfl
    | succ ii =>
      cases j with
      | zero => rfl
      | succ jj =>
        simp only [List.set_cons_succ, List.get?_cons_succ]
        exact ih ii jj a (fun hh => h (by rw [hh]))

theorem list_get?_set_self {α : Type} :
    ∀ (l : List α) (i : Nat) (a : α), i < l.length → (l.set i a).get? i = some a := by
  intro l
  induction l with
  | nil => intro i a h; exact absurd h (by simp)
  | cons x xs ih =>
    intro i a h
    cases i with
    | zero => rfl
    | succ ii =>
      simp only [List.set_cons_succ, List.get?_cons_succ]
      exact ih ii a (by simpa using h)

theorem list_get?_lt {α : Type} :
    ∀ (l : List α) (i : Nat) (a : α), l.get? i = some a → i < l.length := by
  intro l
  induction l with
  | nil => intro i a h; exact absurd h (by simp)
  | cons x xs ih =>
    intro i a h
    cases i with
    | zero => simp
    | succ ii =>
      simp only [List.get?_cons_succ] at h
      have := ih ii a h
      simp only [List.length_cons]
      omega

theorem list_getLast?_mem {α : Type} :
    ∀ (l : List α) (a : α), l.getLast? = some a → a ∈ l := by
  intro l
  induction l with
  | nil => intro a h; exact absurd h (by simp)
  | cons x xs ih =>
    intro a h
    cases xs with
    | nil =>
      simp only [List.getLast?_singleton, Option.some.injEq] at h
      rw [h]
      exact List.mem_cons_self _ _
    | cons y ys =>
      rw [List.getLast?_cons_cons] at h
      exact List.mem_cons_of_mem _ (ih a h)

/-- One sweep of the feature loop over base page 0 with well-formed
single-record queues: every feature's non-empty queue drains into the
lineage and the base record's word; tail pages, the internal base columns
and the non-swept state survive. -/
theorem Table.merge_features_post (r : Nat) (hr8 : ridOff r % WORDSIZE = 0)
    (hr16 : 2 * WORDSIZE ≤ ridOff r) :
    ∀ (fs : List Nat) (st0 : EngineState), fs.Nodup →
      (∀ f' ∈ fs, queueOK st0 r f' = true) →
      ∃ st1, Table.merge_features 1 fs st0 = (.ok (), st1) ∧
        st1.num_columns = st0.num_columns ∧ st1.key_index = st0.key_index ∧
        st1.last_rid = st0.last_rid ∧ st1.index_created = st0.index_created ∧
        st1.map_list = st0.map_list ∧ st1.merge_counter = st0.merge_counter ∧
        (∀ pk c, st1.pages ("tail", pk, c) = st0.pages ("tail", pk, c)) ∧
        (∀ pk c, c < NUM_INTERNAL_COLUMN →
          st1.pages ("base", pk, c) = st0.pages ("base", pk, c)) ∧
        (∀ f', f' ∉ fs →
          st1.pages ("base", 0, NUM_INTERNAL_COLUMN + f') =
            st0.pages ("base", 0, NUM_INTERNAL_COLUMN + f') ∧
          st1.merge_queue_matrix.get? f' = st0.merge_queue_matrix.get? f') ∧
        (∀ f' ∈ fs, ∀ row q tl,
          st0.merge_queue_matrix.get? f' = some row → row.get? 0 = some q →
          (∀ e ∈ q, e.1 = r) → q.getLast? = some (r, tl) →
          (∃ row', st1.merge_queue_matrix.get? f' = some row' ∧
            row'.get? 0 = some []) ∧
          (st1.pages ("base", 0, NUM_INTERNAL_COLUMN + f')).words 1 = tl ∧
          (st1.pages ("base", 0, NUM_INTERNAL_COLUMN + f')).words
            (ridOff r / WORDSIZE) =
            entryWord st0 "tail" tl (f' + NUM_INTERNAL_COLUMN)) := by
  intro fs
  induction fs with
  | nil =>
    intro st0 _ _
    refine ⟨st0, rfl, rfl, rfl, rfl, rfl, rfl, rfl, fun _ _ => rfl,
      fun _ _ _ => rfl, fun _ _ => ⟨rfl, rfl⟩, ?_⟩
    intro f' hf'
    exact absurd hf' (List.not_mem_nil f')
  | cons g rest ih =>
    intro st0 hnd hQ
    have hndr : rest.Nodup := (List.nodup_cons.mp hnd).2
    have hgnr : g ∉ rest := (List.nodup_cons.mp hnd).1
    have hQg := hQ g (List.mem_cons_self _ _)
    unfold queueOK at hQg
    rcases hrowg : st0.merge_queue_matrix.get? g with _ | rowg
    · rw [hrowg] at hQg
      exact Bool.noConfusion hQg
    · simp only [hrowg] at hQg
      rcases hcellg : rowg.get? 0 with _ | qg
      · rw [hcellg] at hQg
        exact Bool.noConfusion hQg
      · simp only [hcellg] at hQg
        by_cases hqe : qg = []
        · subst hqe
          have hmf : Table.merge_feature g [0] st0 = (.ok (), st0) := by
            simp only [Table.merge_feature]
            rw [Table.merge_page_skip g 0 st0 rowg hrowg hcellg, M.step_ok]
          obtain ⟨st1, heq1, c1, c2, c3, c4, c5, c6, c7, c8, c9, c10⟩ :=
            ih st0 hndr (fun f' hf' => hQ f' (List.mem_cons_of_mem _ hf'))
          refine ⟨st1, ?_, c1, c2, c3, c4, c5, c6, c7, c8, ?_, ?_⟩
          · simp only [Table.merge_features]
            rw [show List.range 1 = [0] from rfl, hmf, M.step_ok]
            exact heq1
          · intro f' hf'
            exact c9 f' (fun hh => hf' (List.mem_cons_of_mem _ hh))
          · intro f' hf' row q tl hrow' hcell' hall' hlast'
            rcases List.mem_cons.mp hf' with hfg | hfr
            · subst hfg
              rw [hrowg] at hrow'
              have hrr : row = rowg := by
                simpa using hrow'.symm
              rw [hrr, hcellg] at hcell'
              have hqq : q = [] := by
                simpa using hcell'.symm
              rw [hqq] at hlast'
              exact absurd hlast' (by simp)
            · exact c10 f' hfr row q tl hrow' hcell' hall' hlast'
        · have hQg2 : (match qg.getLast? with
              | none => false
              | some tl =>
                qg.all (fun e => decide (e.1 = r)) &&
                  decide (ridOff tl.2 % WORDSIZE = 0) &&
                  decide (ridOff tl.2 + WORDSIZE ≤ PAGESIZE)) = true := by
            rw [show qg.isEmpty = false from by
              rw [List.isEmpty_eq_false]; exact hqe] at hQg
            simpa using hQg
          rcases hgl : qg.getLast? with _ | tl0
          · rw [hgl] at hQg2
            exact Bool.noConfusion hQg2
          · rw [hgl] at hQg2
            simp only [Bool.and_eq_true, decide_eq_true_eq, List.all_eq_true,
              decide_eq_true_eq] at hQg2
            obtain ⟨⟨hall, h8tl⟩, htlle⟩ := hQg2
            have hall' : ∀ e ∈ qg, e.1 = r := by
              intro e he
              have := hall e he
              simpa using this
            have htl0r : tl0.1 = r := hall' tl0 (list_getLast?_mem _ _ hgl)
            have hgl' : qg.getLast? = some (r, tl0.2) := by
              rw [hgl]
              rw [show ((r, tl0.2) : Nat × Nat) = tl0 from by rw [← htl0r]]
            have hmp := Table.merge_page_effect g r tl0.2 st0 rowg qg hrowg hcellg
              hall' hgl' hr8 h8tl htlle
            have h2 := congrArg Prod.snd hmp
            have hQrest : ∀ f' ∈ rest, queueOK (Table.merge_page g 0 st0).2 r f' = true := by
              intro f' hf'
              rw [h2]
              have hne : g ≠ f' := by
                intro hh
                exact hgnr (hh ▸ hf')
              have hq0 := hQ f' (List.mem_cons_of_mem _ hf')
              unfold queueOK at hq0 ⊢
              dsimp only
              rw [list_get?_set_ne _ _ _ _ hne]
              exact hq0
            obtain ⟨st1, heq1, c1, c2, c3, c4, c5, c6, c7, c8, c9, c10⟩ :=
              ih (Table.merge_page g 0 st0).2 hndr hQrest
            rw [h2] at heq1 c1 c2 c3 c4 c5 c6 c7 c8 c9 c10
            refine ⟨st1, ?_, c1, c2, c3, c4, c5, c6, ?_, ?_, ?_, ?_⟩
            · simp only [Table.merge_features]
              rw [show List.range 1 = [0] from rfl]
              rw [show Table.merge_feature g [0] st0 =
                M.step (Table.merge_page g 0 st0)
                  (fun _ st => Table.merge_feature g [] st) from rfl]
              rw [hmp, M.step_ok]
              simp only [Table.merge_feature]
              rw [M.step_ok]
              exact heq1
            · intro pk c
              rw [c7 pk c]
              dsimp only
              rw [fupd_other _ _ _ _ (pkey_ne_of_fst (by decide))]
            · intro pk c hc
              rw [c8 pk c hc]
              dsimp only
              rw [fupd_other _ _ _ _ (pkey_ne_of_col
                (by simp only [NUM_INTERNAL_COLUMN] at hc ⊢; omega))]
            · intro f' hf'
              have hne : f' ≠ g := fun hh => hf' (hh ▸ List.mem_cons_self g rest)
              have hc9 := c9 f' (fun hh => hf' (List.mem_cons_of_mem _ hh))
              constructor
              · rw [hc9.1]
                dsimp only
                rw [fupd_other _ _ _ _ (pkey_ne_of_col
                  (by intro hh; exact hne (by omega)))]
              · rw [hc9.2]
                dsimp only
                rw [list_get?_set_ne _ _ _ _ (fun hh => hne hh.symm)]
            · intro f' hf' row q tl hrow' hcell' hallq hlast'
              rcases List.mem_cons.mp hf' with hfg | hfr
              · rw [hfg, hrowg] at hrow'
                have hrr : rowg = row := by simpa using hrow'
                rw [← hrr, hcellg] at hcell'
                have hqq : qg = q := by simpa using hcell'
                rw [← hqq, hgl] at hlast'
                have htl : tl0.2 = tl := by
                  simp only [Option.some.injEq] at hlast'
                  exact congrArg Prod.snd hlast'
                have hc9 := c9 g hgnr
                have hlen : g < st0.merge_queue_matrix.length :=
                  list_get?_lt _ _ _ hrowg
                have hlen0 : 0 < rowg.length := list_get?_lt _ _ _ hcellg
                rw [hfg]
                refine ⟨⟨rowg.set 0 [], ?_, ?_⟩, ?_, ?_⟩
                · rw [hc9.2]
                  dsimp only
                  exact list_get?_set_self _ _ _ hlen
                · exact list_get?_set_self _ _ _ hlen0
                · rw [hc9.1]
                  dsimp only
                  rw [fupd_self]
                  dsimp only
                  rw [fupd_other _ _ _ _ (by
                    simp only [WORDSIZE] at hr16 ⊢
                    omega)]
                  rw [show (WORDSIZE / WORDSIZE : Nat) = 1 from by decide, fupd_self,
                    htl]
                · rw [hc9.1]
                  dsimp only
                  rw [fupd_self]
                  dsimp only
                  rw [fupd_self, htl]
              · have hne : f' ≠ g := fun hh => hgnr (hh ▸ hfr)
                have hrowT : ({ st0 with
                    merge_queue_matrix := st0.merge_queue_matrix.set g (rowg.set 0 []),
                    pages := (fupd st0.pages ("base", 0, NUM_INTERNAL_COLUMN + g)
                      ({ num_records := (st0.pages ("base", 0,
                           NUM_INTERNAL_COLUMN + g)).num_records,
                         words := fupd (fupd (st0.pages ("base", 0,
                             NUM_INTERNAL_COLUMN + g)).words (WORDSIZE / WORDSIZE) tl0.2)
                           (ridOff r / WORDSIZE)
                           (entryWord st0 "tail" tl0.2 (g + NUM_INTERNAL_COLUMN)) })) } :
                    EngineState).merge_queue_matrix.get? f' = some row := by
                  dsimp only
                  rw [list_get?_set_ne _ _ _ _ (fun hh => hne hh.symm)]
                  exact hrow'
                have htrans := c10 f' hfr row q tl hrowT hcell' hallq hlast'
                refine ⟨htrans.1, htrans.2.1, ?_⟩
                rw [htrans.2.2]
                unfold entryWord
                dsimp only
                rw [fupd_other _ _ _ _ (pkey_ne_of_fst (by decide))]

/-- The tail-chain walk only reads tail pages: two states agreeing on all
tail pages walk to the same result. -/
theorem Table.walk_chain_congr (f : Nat) (st st' : EngineState)
    (h : ∀ pk c, st'.pages ("tail", pk, c) = st.pages ("tail", pk, c)) :
    ∀ fuel t, (Table.walk_chain f fuel t st').1 = (Table.walk_chain f fuel t st).1 := by
  intro fuel
  induction fuel with
  | zero => intro t; rfl
  | succ n ih =>
    intro t
    simp only [Table.walk_chain]
    rw [Cache.get_entry_eq, Cache.get_entry_eq, h (ridPage t) SCHEMA_ENCODING_COLUMN]
    rcases hr : readField (st.pages ("tail", ridPage t, SCHEMA_ENCODING_COLUMN))
      (ridOff t) with e | enc
    · rw [M.step_error, M.step_error]
    · rw [M.step_ok, M.step_ok]
      by_cases hc : Table.is_updated enc f ≠ 0
      · rw [if_pos hc, if_pos hc]
        rw [Cache.get_entry_eq, Cache.get_entry_eq,
          h (ridPage t) (f + NUM_INTERNAL_COLUMN)]
        rcases hr2 : readField (st.pages ("tail", ridPage t, f + NUM_INTERNAL_COLUMN))
          (ridOff t) with e | d
        · rw [M.step_error, M.step_error]
        · rw [M.step_ok, M.step_ok]
      · rw [if_neg hc, if_neg hc]
        rw [Cache.get_entry_eq, Cache.get_entry_eq,
          h (ridPage t) INDIRECTION_COLUMN]
        rcases hr2 : readField (st.pages ("tail", ridPage t, INDIRECTION_COLUMN))
          (ridOff t) with e | t2
        · rw [M.step_error, M.step_error]
        · rw [M.step_ok, M.step_ok]
          exact ih t2

/-- When the base record's schema bit is set and the page's lineage is at
most the record's indirection RID, `select_feature` is exactly the chain
walk from the indirection RID. -/
theorem Table.select_feature_walks (st : EngineState) (r f ind fuel : Nat)
    (h8r : ridOff r % WORDSIZE = 0) (hrle : ridOff r + WORDSIZE ≤ PAGESIZE)
    (hind : entryWord st "base" r INDIRECTION_COLUMN = ind)
    (hbit : (entryWord st "base" r SCHEMA_ENCODING_COLUMN).testBit f = true)
    (hlin : ridLe ((st.pages ("base", ridPage r, f + NUM_INTERNAL_COLUMN)).words 1)
      ind) :
    Table.select_feature fuel r f st = Table.walk_chain f fuel ind st := by
  have hutd : Table.base_up_to_date r f st = (.ok false, st) := by
    unfold Table.base_up_to_date
    rw [M.bind_def]
    rw [show Cache.get_page "base" (ridPage r) (f + NUM_INTERNAL_COLUMN) st =
      (.ok (st.pages ("base", ridPage r, f + NUM_INTERNAL_COLUMN)), st) from rfl]
    rw [M.step_ok, M.bind_def, M.liftE_def,
      readField_ok _ WORDSIZE (by decide) (by decide), M.step_ok, M.bind_def,
      Cache.get_entry_eq, readField_ok _ _ h8r hrle, M.step_ok]
    rw [show (st.pages ("base", ridPage r, INDIRECTION_COLUMN)).words
      (ridOff r / WORDSIZE) = ind from hind]
    rw [show (WORDSIZE / WORDSIZE : Nat) = 1 from by decide]
    unfold ridLe at hlin
    rcases hlin with hlt | ⟨hpe, hle⟩
    · rw [M.ite_app, if_neg (by omega), M.ite_app, if_neg (by omega), M.pure_def]
    · rw [M.ite_app, if_neg (by omega), M.ite_app, if_pos hpe]
      have hd : decide (ridOff ((st.pages ("base", ridPage r,
          f + NUM_INTERNAL_COLUMN)).words 1) > ridOff ind) = false :=
        decide_eq_false (by omega)
      rw [M.pure_def, hd]
  unfold Table.select_feature
  rw [M.bind_def, Cache.get_entry_eq, readField_ok _ _ h8r hrle, M.step_ok, M.bind_def,
    hutd, M.step_ok]
  rw [M.ite_app, if_neg ?hcond]
  case hcond =>
    simp only [Bool.false_or, decide_eq_true_eq]
    unfold Table.is_updated
    exact testBit_and_two_pow_ne_zero _ f hbit
  rw [M.bind_def, Cache.get_entry_eq, readField_ok _ _ h8r hrle, M.step_ok]
  rw [show (st.pages ("base", ridPage r, INDIRECTION_COLUMN)).words
    (ridOff r / WORDSIZE) = ind from hind]

/-- C2 (amended): one merge pass sweeps only base pages strictly below the
open page (`merge_range = last_page_index('base')`).  For a record `r` on
the single closed page 0 whose per-feature queues are well formed and hold
only `r`'s pairs, the pass drains the queue of (feature `f`, page 0) with
last-writer-wins, writes the newest queued tail's value at the record's
offset, sets the page's lineage word to the RID of the last pair popped
(`merge_fold`), and the value of feature `f` read via `select_feature` is
identical before and after the pass: both reads walk the unchanged
indirection chain because the new lineage never exceeds the record's
indirection RID. -/
theorem mergePass_swept_page_drain (st : EngineState) (r f tl : Nat)
    (row : List (List (Nat × Nat))) (q : List (Nat × Nat))
    (hlpi : ridPage (st.last_rid "base") = 1)
    (hP : ridPage r = 0)
    (hr8 : ridOff r % WORDSIZE = 0) (hrle : ridOff r + WORDSIZE ≤ PAGESIZE)
    (hr16 : 2 * WORDSIZE ≤ ridOff r)
    (hQ : ∀ f', f' < st.num_columns → queueOK st r f' = true)
    (hf : f < st.num_columns)
    (hrow : st.merge_queue_matrix.get? f = some row)
    (hcell : row.get? 0 = some q)
    (hqr : ∀ e ∈ q, e.1 = r)
    (hlast : q.getLast? = some (r, tl))
    (hind : entryWord st "base" r INDIRECTION_COLUMN = tl)
    (hbit : (entryWord st "base" r SCHEMA_ENCODING_COLUMN).testBit f = true)
    (hlt : ridLe ((st.pages ("base", 0, f + NUM_INTERNAL_COLUMN)).words 1) tl) :
    ∃ st', Table.mergePass 0 st = (.ok (), st') ∧
      (∃ row', st'.merge_queue_matrix.get? f = some row' ∧ row'.get? 0 = some []) ∧
      (st'.pages ("base", 0, NUM_INTERNAL_COLUMN + f)).words 1 =
        (Table.merge_fold q []
          ((st.pages ("base", 0, NUM_INTERNAL_COLUMN + f)).words 1)).2 ∧
      (st'.pages ("base", 0, NUM_INTERNAL_COLUMN + f)).words (ridOff r / WORDSIZE) =
        entryWord st "tail" tl (f + NUM_INTERNAL_COLUMN) ∧
      ∀ fuel, (Table.select_feature fuel r f st').1 =
        (Table.select_feature fuel r f st).1 := by
  obtain ⟨st1, heq1, c1, c2, c3, c4, c5, c6, c7, c8, c9, c10⟩ :=
    Table.merge_features_post r hr8 hr16 (List.range st.num_columns) st
      (List.nodup_range _) (fun f' hf' => hQ f' (List.mem_range.mp hf'))
  obtain ⟨hdrain, hlin1, hword⟩ :=
    c10 f (List.mem_range.mpr hf) row q tl hrow hcell hqr hlast
  refine ⟨st1, ?_, hdrain, ?_, hword, ?_⟩
  · unfold Table.mergePass
    rw [M.bind_def]
    rw [show Cache.last_page_index "base" st =
      (.ok (ridPage (st.last_rid "base")), st) from by
        unfold Cache.last_page_index
        rw [if_pos (Or.inl rfl)]]
    rw [M.step_ok, hlpi, M.bind_def, M.get, M.step_ok, M.bind_def, heq1, M.step_ok]
    rfl
  · rw [Table.merge_fold_single q r _ tl hqr hlast]
    exact hlin1
  · intro fuel
    have hind1 : entryWord st1 "base" r INDIRECTION_COLUMN = tl := by
      unfold entryWord
      rw [c8 (ridPage r) INDIRECTION_COLUMN (by decide)]
      exact hind
    have hbit1 : (entryWord st1 "base" r SCHEMA_ENCODING_COLUMN).testBit f = true := by
      unfold entryWord
      rw [c8 (ridPage r) SCHEMA_ENCODING_COLUMN (by decide)]
      exact hbit
    have hlin1' : ridLe ((st1.pages ("base", ridPage r,
        f + NUM_INTERNAL_COLUMN)).words 1) tl := by
      rw [hP, show f + NUM_INTERNAL_COLUMN = NUM_INTERNAL_COLUMN + f from by omega,
        hlin1]
      unfold ridLe
      omega
    rw [Table.select_feature_walks st1 r f tl fuel hr8 hrle hind1 hbit1 hlin1',
      Table.select_feature_walks st r f tl fuel hr8 hrle hind hbit
        (by rw [hP]; exact hlt)]
    exact Table.walk_chain_congr f st st1 (fun pk c => c7 pk c) fuel tl

/-- C2 witness: the amended theorem applied to `stMergeW`. -/
theorem mergePass_swept_page_drain_witness :
    ∃ st', Table.mergePass 0 stMergeW = (.ok (), st') ∧
      (∃ row', st'.merge_queue_matrix.get? 0 = some row' ∧ row'.get? 0 = some []) ∧
      (st'.pages ("base", 0, NUM_INTERNAL_COLUMN + 0)).words 1 =
        (Table.merge_fold [(packII 0 16, packII 0 8)] []
          ((stMergeW.pages ("base", 0, NUM_INTERNAL_COLUMN + 0)).words 1)).2 ∧
      (st'.pages ("base", 0, NUM_INTERNAL_COLUMN + 0)).words
          (ridOff (packII 0 16) / WORDSIZE) =
        entryWord stMergeW "tail" (packII 0 8) (0 + NUM_INTERNAL_COLUMN) ∧
      ∀ fuel, (Table.select_feature fuel (packII 0 16) 0 st').1 =
        (Table.select_feature fuel (packII 0 16) 0 stMergeW).1 :=
  mergePass_swept_page_drain stMergeW (packII 0 16) 0 (packII 0 8)
    [[(packII 0 16, packII 0 8)]] [(packII 0 16, packII 0 8)]
    (by decide) (by decide) (by decide) (by decide) (by decide) (by decide) (by decide)
    (by decide) (by decide) (by decide) (by decide) (by decide) (by decide) (by decide)

end LStore
